import Mathlib

/-!
Shallow embedding of the chess_engine repository (Python) in Lean 4, together
with proofs settling the frozen claims about it.

Conventions used throughout:
- Python arbitrary-precision non-negative ints holding bitboards are `Nat`;
  bitwise `&`, `|`, `^`, `<<`, `>>` are `&&&`, `|||`, `^^^`, `<<<`, `>>>`.
- Python `x & ~(1 << s)` (clear bit `s`) is `(x ||| (1 <<< s)) ^^^ (1 <<< s)`,
  which clears bit `s` of an arbitrary `Nat` exactly like the Python does.
- Python `//` on ints is `Int.fdiv` (floor); Python `int(...)` truncation of a
  float is `Int.tdiv` where exact (noted at each use site).
- Fallible Python code (raising `ValueError`) returns `Option`.
- Loops over the set bits of a bitboard and ray walks are translated with an
  explicit fuel argument; fuel `64` (resp. `8`) is enough for any 64-bit
  bitboard (resp. any ray on an 8x8 board), matching the loop bounds that the
  Python loops satisfy on 64-bit bitboards.
-/

namespace ChessEngine

/-! ### Bit primitives (board.py `_set_bit`/`_get_bit` and inline idioms) -/

/-- Python `(bb >> sq) & 1 == 1`: test bit `sq` of `bb`. -/
def getBit (bb sq : Nat) : Bool := (bb >>> sq) &&& 1 == 1

/-- Python `bb | (1 << sq)`. -/
def setBit (bb sq : Nat) : Nat := bb ||| (1 <<< sq)

/-- Python `bb & ~(1 << sq)`: clear bit `sq` (exact for arbitrary-precision
ints, expressed here as set-then-toggle). -/
def clearBit (bb sq : Nat) : Nat := (bb ||| (1 <<< sq)) ^^^ (1 <<< sq)

/-- Python `x.bit_length()` for values below `2 ^ fuel` (bitboards are 64-bit,
so fuel 64 is always enough in this development). -/
def bitLength : Nat → Nat → Nat
  | 0, _ => 0
  | fuel + 1, n => if n = 0 then 0 else bitLength fuel (n >>> 1) + 1

/-- Python `x & -x` on a non-negative int: the lowest set bit (0 for 0). -/
def lowBit (x : Nat) : Nat := x ^^^ (x &&& (x - 1))

/-- Python `(x & -x).bit_length() - 1`: index of the lowest set bit. -/
def lowBitIdx (x : Nat) : Nat := bitLength 64 (lowBit x) - 1

/-- Python `x.bit_count()` for values below `2 ^ fuel`. -/
def popCount : Nat → Nat → Nat
  | 0, _ => 0
  | fuel + 1, n => if n = 0 then 0 else (n &&& 1) + popCount fuel (n >>> 1)

/-! ### src/engine/move.py -/

/-- A valid promotion piece letter (one of `q`, `r`, `b`, `n`). -/
inductive Promo where
  | q | r | b | n
deriving DecidableEq, Repr

/-- `Move`: engine-internal move representation (`from_sq`, `to_sq`,
optional promotion), structural equality. -/
structure Move where
  from_sq : Nat
  to_sq : Nat
  promotion : Option Promo := none
deriving DecidableEq, Repr

/-- The character for a promotion piece. -/
def Promo.char : Promo → Char
  | .q => 'q'
  | .r => 'r'
  | .b => 'b'
  | .n => 'n'

/-- `str_to_square`: algebraic square name to 0-based index; `none` models the
`ValueError` raise. -/
def str_to_square (s : List Char) : Option Nat :=
  match s with
  | [c0, c1] =>
    if c0 < 'a' ∨ c0 > 'h' ∨ c1 < '1' ∨ c1 > '8' then none
    else some ((c1.toNat - '0'.toNat - 1) * 8 + (c0.toNat - 'a'.toNat))
  | _ => none

/-- `square_to_str`: 0-based index to algebraic square name; `none` models the
`ValueError` raise for indices outside `0..63`. -/
def square_to_str (idx : Nat) : Option (List Char) :=
  if idx > 63 then none
  else some [Char.ofNat ('a'.toNat + idx % 8), Char.ofNat ('1'.toNat + idx / 8)]

/-- `Move.to_uci`: long algebraic serialization (square names followed by the
optional lowercase promotion letter). -/
def Move.to_uci (m : Move) : Option (List Char) := do
  let a ← square_to_str m.from_sq
  let b ← square_to_str m.to_sq
  return a ++ b ++ (match m.promotion with
    | some p => [p.char]
    | none => [])

/-- Python `str.lower()` restricted to single characters. Only ASCII
`A`..`Z` can lower onto the letters `q`/`r`/`b`/`n` tested by `parse_uci`, so
this restriction is faithful for that membership test. -/
def lowerChar (c : Char) : Char :=
  if 'A' ≤ c && c ≤ 'Z' then Char.ofNat (c.toNat + 32) else c

/-- Membership in `PROMOTION_PIECES` after lowering, returning the parsed
promotion piece. -/
def charToPromo (c : Char) : Option Promo :=
  if c = 'q' then some .q
  else if c = 'r' then some .r
  else if c = 'b' then some .b
  else if c = 'n' then some .n
  else none

/-- `parse_uci`: parse a long-algebraic move string; `none` models every
`ValueError` raise (bad length, bad square names, bad promotion suffix). -/
def parse_uci (uci : List Char) : Option Move :=
  if uci.length = 4 ∨ uci.length = 5 then
    match str_to_square (uci.take 2), str_to_square ((uci.drop 2).take 2) with
    | some f, some t =>
      if uci.length = 5 then
        match charToPromo (lowerChar (uci.getD 4 ' ')) with
        | some p => some ⟨f, t, some p⟩
        | none => none
      else some ⟨f, t, none⟩
    | _, _ => none
  else none

/-! ### src/protocol/uci/loop.py : `GoParams` and `_select_time_and_depth` -/

/-- `GoParams` from loop.py: every field optional, parsed from the `go`
command. -/
structure GoParams where
  depth : Option Int := none
  movetime_ms : Option Int := none
  wtime : Option Int := none
  btime : Option Int := none
  winc : Option Int := none
  binc : Option Int := none
  movestogo : Option Int := none
deriving DecidableEq, Repr

/-- Python `x or d` for an optional int `x`: `d` when `x` is `None` or `0`. -/
def pyOr (v : Option Int) (d : Int) : Int :=
  match v with
  | none => d
  | some x => if x = 0 then d else x

/-- Python `int(r * 0.7)` on an int `r`. The float product differs from
`7 * r / 10` by at most `|r| * 2 ^ (-52) / 5 + ulp/2`, which never crosses an
integer boundary for `|r| ≤ 2 ^ 45`; clock times are milliseconds, far below
that, so truncated exact arithmetic is a faithful translation. -/
def intMul07 (r : Int) : Int := Int.tdiv (7 * r) 10

/-- Python `int(x * 0.5)` on an int `x` (exact truncation for `|x| < 2 ^ 53`,
far above any real increment). -/
def intMul05 (x : Int) : Int := Int.tdiv x 2

/-- `UCIEngine._select_time_and_depth`: returns `(depth, movetime budget)`.
`stm_white` is `self.game.board.side_to_move == "w"`. -/
def select_time_and_depth (stm_white : Bool) (gp : GoParams) : Int × Option Int :=
  match gp.movetime_ms with
  | some mt => (pyOr gp.depth 64, some (max 1 mt))
  | none =>
    if gp.wtime.isSome || gp.btime.isSome || gp.winc.isSome
        || gp.binc.isSome || gp.movestogo.isSome then
      match (if stm_white then gp.wtime else gp.btime) with
      | none => (pyOr gp.depth 8, none)
      | some remaining =>
        let inc : Option Int := if stm_white then gp.winc else gp.binc
        let moves_left : Int :=
          match gp.movestogo with
          | some mtg => if mtg ≠ 0 ∧ mtg > 0 then mtg else 30
          | none => 30
        let base := Int.fdiv remaining (max 1 moves_left)
        let bonus := intMul05 (pyOr inc 0)
        let alloc := base + bonus
        let safety_margin : Int := 50
        let max_cap := min (intMul07 remaining) (max 0 (remaining - safety_margin))
        let alloc := if max_cap ≤ 0 then max 1 (remaining - 1) else max 10 (min alloc max_cap)
        (pyOr gp.depth 64, some alloc)
    else (pyOr gp.depth 1, none)

/-- Claim C8's stated allocation rule, written directly from the claim's
words: `movetime` is used as the budget unchanged; otherwise with a known
remaining time the budget is `remaining / max(1, movestogo-or-30) + inc/2`
clamped to `[10, min(remaining*0.7, remaining - 50)]`; with no time info the
search runs to the requested depth, default 1. -/
def claimC8Selection (stm_white : Bool) (gp : GoParams) : Int × Option Int :=
  match gp.movetime_ms with
  | some mt => ((gp.depth.getD 64), some mt)
  | none =>
    if gp.wtime.isSome || gp.btime.isSome || gp.winc.isSome
        || gp.binc.isSome || gp.movestogo.isSome then
      match (if stm_white then gp.wtime else gp.btime) with
      | none => (gp.depth.getD 8, none)
      | some remaining =>
        let inc : Int := (if stm_white then gp.winc else gp.binc).getD 0
        let alloc := Int.fdiv remaining (max 1 (gp.movestogo.getD 30)) + Int.fdiv inc 2
        let lo : Int := 10
        let hi : Int := min (intMul07 remaining) (remaining - 50)
        (gp.depth.getD 64, some (max lo (min alloc hi)))
    else (gp.depth.getD 1, none)

/-- The corrected allocation rule (amended claim C8), written from the amended
claim's words: `movetime` is clamped up to at least 1 ms; `movestogo` counts
only when positive, otherwise 30 is used; the raw allocation is
`remaining // movestogo-or-30 + inc/2` (floor division, `inc/2` truncated);
the cap is `min(int(remaining*0.7), max(0, remaining-50))`, and when that cap
is not positive the budget is `max(1, remaining - 1)`, otherwise the raw
allocation clamped to `[10, cap]`; depth defaults (treating 0 as absent) to 64
whenever a budget is produced, to 8 when clock fields are present but the
side to move's remaining time is unknown, and to 1 with no time info. -/
def amendedC8Selection (stm_white : Bool) (gp : GoParams) : Int × Option Int :=
  match gp.movetime_ms with
  | some mt => (pyOr gp.depth 64, some (max 1 mt))
  | none =>
    if gp.wtime.isSome || gp.btime.isSome || gp.winc.isSome
        || gp.binc.isSome || gp.movestogo.isSome then
      match (if stm_white then gp.wtime else gp.btime) with
      | none => (pyOr gp.depth 8, none)
      | some remaining =>
        let inc : Int := (if stm_white then gp.winc else gp.binc).getD 0
        let m : Int :=
          match gp.movestogo with
          | some mtg => if 0 < mtg then mtg else 30
          | none => 30
        let raw := Int.fdiv remaining m + Int.tdiv inc 2
        let cap := min (intMul07 remaining) (max 0 (remaining - 50))
        let budget := if cap ≤ 0 then max 1 (remaining - 1) else max 10 (min raw cap)
        (pyOr gp.depth 64, some budget)
    else (pyOr gp.depth 1, none)

/-! ### src/engine/zobrist.py -/

/-- `MASK64`. -/
def MASK64 : Nat := 0xFFFFFFFFFFFFFFFF

/-- `_SplitMix64` internal state after `k` calls to `next()`, seeded with the
fixed `0xC0FFEE_F00D_DEAD` of the `ZOBRIST` global. -/
def splitmixState : Nat → Nat
  | 0 => 0xC0FFEEF00DDEAD &&& MASK64
  | k + 1 => (splitmixState k + 0x9E3779B97F4A7C15) &&& MASK64

/-- The mixing steps of `_SplitMix64.next`, applied to the updated state. -/
def splitmixMix (z : Nat) : Nat :=
  let z := ((z ^^^ (z >>> 30)) * 0xBF58476D1CE4E5B9) &&& MASK64
  let z := ((z ^^^ (z >>> 27)) * 0x94D049BB133111EB) &&& MASK64
  (z ^^^ (z >>> 31)) &&& MASK64

/-- The `k`-th value (0-based) drawn from the `ZOBRIST` table's PRNG. -/
def zobristVal (k : Nat) : Nat := splitmixMix (splitmixState (k + 1))

/-- Piece indices `WP..BK = range(12)` from board.py. -/
def WP : Fin 12 := 0
def WN : Fin 12 := 1
def WB : Fin 12 := 2
def WR : Fin 12 := 3
def WQ : Fin 12 := 4
def WK : Fin 12 := 5
def BP : Fin 12 := 6
def BN : Fin 12 := 7
def BB : Fin 12 := 8
def BR : Fin 12 := 9
def BQ : Fin 12 := 10
def BK : Fin 12 := 11

/-- `ZOBRIST.piece_square[p][sq]`: the values are drawn in row-major order
`p * 64 + sq` by the constructor loops. -/
def piece_square (p : Fin 12) (sq : Nat) : Nat := zobristVal (p.val * 64 + sq)

/-- `ZOBRIST.side_to_move`: drawn right after the 768 piece-square values. -/
def side_to_move_key : Nat := zobristVal 768

/-- `ZOBRIST.castling[i]` for `i < 4` in order K, Q, k, q. -/
def castling_key (i : Nat) : Nat := zobristVal (769 + i)

/-- `ZOBRIST.ep_file[f]` for files a..h. -/
def ep_file_key (f : Nat) : Nat := zobristVal (773 + f)

/-! ### src/engine/board.py : state -/

/-- Side to move, Python `"w"` / `"b"`. -/
inductive Color where
  | w | b
deriving DecidableEq, Repr

/-- Castling rights: the normalized subset of `"KQkq"` kept by board.py
(the parser and `_update_castling_rights_on_move` always renormalize, so the
string is equivalent to four flags). -/
structure Castling where
  K : Bool
  Q : Bool
  k : Bool
  q : Bool
deriving DecidableEq, Repr

/-- The 12-entry bitboard array `Board.bb`, one 64-bit bitboard per piece in
the order `WP..BK`, held as a record for fast indexing. -/
structure PieceBBs where
  wp : Nat
  wn : Nat
  wb : Nat
  wr : Nat
  wq : Nat
  wk : Nat
  bp : Nat
  bn : Nat
  bb : Nat
  br : Nat
  bq : Nat
  bk : Nat
deriving DecidableEq, Repr

/-- Python `self.bb[i]`. -/
def PieceBBs.get (x : PieceBBs) (i : Fin 12) : Nat :=
  match i with
  | 0 => x.wp
  | 1 => x.wn
  | 2 => x.wb
  | 3 => x.wr
  | 4 => x.wq
  | 5 => x.wk
  | 6 => x.bp
  | 7 => x.bn
  | 8 => x.bb
  | 9 => x.br
  | 10 => x.bq
  | 11 => x.bk

/-- Python `self.bb[i] = v`. -/
def PieceBBs.set (x : PieceBBs) (i : Fin 12) (v : Nat) : PieceBBs :=
  match i with
  | 0 => { x with wp := v }
  | 1 => { x with wn := v }
  | 2 => { x with wb := v }
  | 3 => { x with wr := v }
  | 4 => { x with wq := v }
  | 5 => { x with wk := v }
  | 6 => { x with bp := v }
  | 7 => { x with bn := v }
  | 8 => { x with bb := v }
  | 9 => { x with br := v }
  | 10 => { x with bq := v }
  | 11 => { x with bk := v }

instance : CoeFun PieceBBs (fun _ => Fin 12 → Nat) := ⟨PieceBBs.get⟩

/-- One entry of `Board._history`: the tuple pushed by `make_move`. -/
structure Frame where
  mv : Move
  moved_piece : Fin 12
  captured_piece : Option (Fin 12)
  ep_capture_sq : Option Nat
  prev_ep : Option Nat
  prev_castling : Castling
  prev_halfmove : Nat
  prev_fullmove : Nat
  prev_hash : Nat
deriving DecidableEq

/-- `Board`: 12 piece bitboards (indexed by `WP..BK`), side to move, castling
rights, en-passant target, move counters, undo history and incremental
Zobrist hash. -/
structure Board where
  bbs : PieceBBs
  side_to_move : Color
  castling : Castling
  ep_square : Option Nat
  halfmove_clock : Nat
  fullmove_number : Nat
  history : List Frame := []
  zobrist_hash : Nat := 0

/-- `compute_hash_from_scratch`, inner `while bb` loop: XOR the piece-square
keys of all set bits (lowest first). -/
def pieceHashAcc (p : Fin 12) : Nat → Nat → Nat → Nat
  | 0, _, h => h
  | fuel + 1, bb, h =>
    if bb = 0 then h
    else pieceHashAcc p fuel (bb ^^^ lowBit bb) (h ^^^ piece_square p (lowBitIdx bb))

/-- The castling-rights XOR loop `for i, ch in enumerate("KQkq")` shared by
`compute_hash_from_scratch` and `make_move`. -/
def castlingToggle (h : Nat) (c : Castling) : Nat :=
  let h := if c.K then h ^^^ castling_key 0 else h
  let h := if c.Q then h ^^^ castling_key 1 else h
  let h := if c.k then h ^^^ castling_key 2 else h
  if c.q then h ^^^ castling_key 3 else h

/-- `compute_hash_from_scratch(board)`. -/
def compute_hash_from_scratch (b : Board) : Nat :=
  let h := (List.finRange 12).foldl (fun h p => pieceHashAcc p 64 (b.bbs p) h) 0
  let h := if b.side_to_move = Color.b then h ^^^ side_to_move_key else h
  let h := castlingToggle h b.castling
  let h :=
    match b.ep_square with
    | some e => h ^^^ ep_file_key (e % 8)
    | none => h
  h &&& MASK64

/-! ### src/engine/board.py : attack detection and pins -/

/-- The knight offset table used throughout board.py. -/
def knightOffsets : List (Int × Int) :=
  [(-1, 2), (1, 2), (-2, 1), (2, 1), (-2, -1), (2, -1), (-1, -2), (1, -2)]

/-- The king offset table used throughout board.py. -/
def kingOffsets : List (Int × Int) :=
  [(-1, -1), (0, -1), (1, -1), (-1, 0), (1, 0), (-1, 1), (0, 1), (1, 1)]

/-- Diagonal ray directions. -/
def bishopDirs : List (Int × Int) := [(-1, -1), (1, -1), (-1, 1), (1, 1)]

/-- Orthogonal ray directions. -/
def rookDirs : List (Int × Int) := [(-1, 0), (1, 0), (0, -1), (0, 1)]

/-- Queen ray directions (diagonals then orthogonals, as written in the
source tuples). -/
def queenDirs : List (Int × Int) := bishopDirs ++ rookDirs

/-- Board coordinates of a square, as the `f = sq % 8`, `r = sq // 8` idiom. -/
def fileOf (sq : Nat) : Int := (sq % 8 : Nat)

/-- Rank coordinate of a square. -/
def rankOf (sq : Nat) : Int := (sq / 8 : Nat)

/-- Whether integer coordinates are on the board: `0 <= tf < 8 and 0 <= tr < 8`. -/
def onBoard (tf tr : Int) : Bool := 0 ≤ tf && tf < 8 && 0 ≤ tr && tr < 8

/-- Square index from in-range integer coordinates: `tr * 8 + tf`. -/
def sqOf (tf tr : Int) : Nat := (tr * 8 + tf).toNat

/-- Slider-attack ray scan of `_is_attacked`: walk from `(tf, tr)` in
direction `(df, dr)` until the first occupied square; report whether that
square holds one of the `targets` pieces (the source tests the two relevant
piece bitboards, here passed as their union). -/
def rayFindsAttacker (occ targets : Nat) (df dr : Int) : Nat → Int → Int → Bool
  | 0, _, _ => false
  | fuel + 1, tf, tr =>
    let tf := tf + df
    let tr := tr + dr
    if !onBoard tf tr then false
    else
      let o := sqOf tf tr
      if getBit occ o then getBit targets o
      else rayFindsAttacker occ targets df dr fuel tf tr

/-- `Board._is_attacked(sq, by_white, bb)`: pawn, knight, king and slider
attacks against square `sq` on bitboards `bbs`. -/
def isAttacked (bbs : PieceBBs) (sq : Nat) (by_white : Bool) : Bool :=
  let f := fileOf sq
  let r := rankOf sq
  let pawnHit :=
    if by_white then
      (f > 0 && ((sq : Int) - 9 ≥ 0 && getBit (bbs WP) ((sq : Int) - 9).toNat))
      || (f < 7 && ((sq : Int) - 7 ≥ 0 && getBit (bbs WP) ((sq : Int) - 7).toNat))
    else
      (f < 7 && (sq + 9 ≤ 63 && getBit (bbs BP) (sq + 9)))
      || (f > 0 && (sq + 7 ≤ 63 && getBit (bbs BP) (sq + 7)))
  let knightHit :=
    knightOffsets.any fun d =>
      let tf := f + d.1
      let tr := r + d.2
      onBoard tf tr && getBit (bbs (if by_white then WN else BN)) (sqOf tf tr)
  let kingHit :=
    kingOffsets.any fun d =>
      let tf := f + d.1
      let tr := r + d.2
      onBoard tf tr && getBit (bbs (if by_white then WK else BK)) (sqOf tf tr)
  let occ := (List.finRange 12).foldl (fun acc p => acc ||| bbs p) 0
  let bishopHit :=
    bishopDirs.any fun d =>
      rayFindsAttacker occ
        ((if by_white then bbs WB else bbs BB) ||| (if by_white then bbs WQ else bbs BQ))
        d.1 d.2 8 f r
  let rookHit :=
    rookDirs.any fun d =>
      rayFindsAttacker occ
        ((if by_white then bbs WR else bbs BR) ||| (if by_white then bbs WQ else bbs BQ))
        d.1 d.2 8 f r
  pawnHit || knightHit || kingHit || bishopHit || rookHit

/-- One direction of the pin scan in `generate_legal_moves`'s
`_compute_pins_for_side`: walk away from the king; remember the first own
piece seen; if the next occupied square holds a matching enemy slider, that
own piece is pinned. -/
def pinScan (occ_all own_occ sliders : Nat) (df dr : Int) :
    Nat → Int → Int → Option Nat → Option Nat
  | 0, _, _, _ => none
  | fuel + 1, tf, tr, seen_own =>
    let tf := tf + df
    let tr := tr + dr
    if !onBoard tf tr then none
    else
      let sq := sqOf tf tr
      if getBit occ_all sq then
        match seen_own with
        | none =>
          if getBit own_occ sq then
            pinScan occ_all own_occ sliders df dr fuel tf tr (some sq)
          else none
        | some s => if getBit sliders sq then some s else none
      else pinScan occ_all own_occ sliders df dr fuel tf tr seen_own

/-- `_compute_pins_for_side(stm_white)`: pinned squares of the side to move
plus its king square (`-1` when the king bitboard is empty). -/
def compute_pins_for_side (bbs : PieceBBs) (stm_white : Bool)
    (occ_all occ_white occ_black : Nat) : List Nat × Int :=
  let kbb := if stm_white then bbs WK else bbs BK
  if kbb = 0 then ([], -1)
  else
    let ks := lowBitIdx kbb
    let own_occ := if stm_white then occ_white else occ_black
    let opp_bish := if stm_white then bbs BB else bbs WB
    let opp_rook := if stm_white then bbs BR else bbs WR
    let opp_queen := if stm_white then bbs BQ else bbs WQ
    let dirs : List (Int × Int × Bool) :=
      [(-1, -1, true), (1, -1, true), (-1, 1, true), (1, 1, true),
       (-1, 0, false), (1, 0, false), (0, -1, false), (0, 1, false)]
    let pins := dirs.filterMap fun d =>
      pinScan occ_all own_occ
        (if d.2.2 then opp_bish ||| opp_queen else opp_rook ||| opp_queen)
        d.1 d.2.1 8 (fileOf ks) (rankOf ks) none
    (pins, (ks : Int))

/-- `_colinear_with_king(fr, to, ks)` from `generate_legal_moves`. -/
def colinearWithKing (fr tsq : Nat) (ks : Int) : Bool :=
  if ks < 0 then true
  else
    let fx := fileOf fr
    let fy := rankOf fr
    let tx := fileOf tsq
    let ty := rankOf tsq
    let kx := ks % 8
    let ky := ks / 8
    (fx - kx) * (ty - ky) == (fy - ky) * (tx - kx)

/-! ### src/engine/board.py : pseudo-legal generation (`generate_legal_moves`) -/

/-- `PROMOS = ("q", "r", "b", "n")`. -/
def promosList : List Promo := [.q, .r, .b, .n]

/-- The `while x: lsb = x & -x; from_sq = ...; <emit>; x ^= lsb` loop shape:
visit set bits lowest-first and concatenate the moves emitted for each. Fuel
64 covers any 64-bit bitboard. -/
def eachBit (f : Nat → List Move) : Nat → Nat → List Move
  | 0, _ => []
  | fuel + 1, x =>
    if x = 0 then [] else f (lowBitIdx x) ++ eachBit f fuel (x ^^^ lowBit x)

/-- Moves of one white pawn in `generate_legal_moves`: single push (with
promotions from rank 7), double push from rank 2, and the two diagonal
captures (with promotions), all behind the inline pinned-piece filter. -/
def pawnMovesW (pinned : List Nat) (ks : Int) (occ_all occ_black : Nat)
    (from_sq : Nat) : List Move :=
  let file_idx := from_sq % 8
  let rank_idx := from_sq / 8
  let push :=
    let to_sq := from_sq + 8
    if to_sq ≤ 63 ∧ ¬getBit occ_all to_sq then
      if from_sq ∈ pinned ∧ ¬colinearWithKing from_sq to_sq ks then []
      else if rank_idx = 6 then
        promosList.map fun p => Move.mk from_sq to_sq (some p)
      else
        Move.mk from_sq to_sq none ::
          (if rank_idx = 1 then
            let to2 := from_sq + 16
            if ¬getBit occ_all to2 then
              if from_sq ∉ pinned ∨ colinearWithKing from_sq to2 ks then
                [Move.mk from_sq to2 none]
              else []
            else []
          else [])
    else []
  let capL :=
    if file_idx > 0 then
      let cap := from_sq + 7
      if cap ≤ 63 ∧ getBit occ_black cap then
        if from_sq ∈ pinned ∧ ¬colinearWithKing from_sq cap ks then []
        else if cap / 8 = 7 then promosList.map fun p => Move.mk from_sq cap (some p)
        else [Move.mk from_sq cap none]
      else []
    else []
  let capR :=
    if file_idx < 7 then
      let cap := from_sq + 9
      if cap ≤ 63 ∧ getBit occ_black cap then
        if from_sq ∈ pinned ∧ ¬colinearWithKing from_sq cap ks then []
        else if cap / 8 = 7 then promosList.map fun p => Move.mk from_sq cap (some p)
        else [Move.mk from_sq cap none]
      else []
    else []
  push ++ capL ++ capR

/-- Moves of one black pawn in `generate_legal_moves` (mirror of
`pawnMovesW`; pushes go down, promotions from rank 2, captures at `-9`/`-7`).
Destinations that would be negative in Python are guarded exactly as the
source's `to_sq >= 0` / `cap >= 0` checks. -/
def pawnMovesB (pinned : List Nat) (ks : Int) (occ_all occ_white : Nat)
    (from_sq : Nat) : List Move :=
  let file_idx := from_sq % 8
  let rank_idx := from_sq / 8
  let push :=
    let to_sq : Int := (from_sq : Int) - 8
    if to_sq ≥ 0 ∧ ¬getBit occ_all to_sq.toNat then
      if from_sq ∈ pinned ∧ ¬colinearWithKing from_sq to_sq.toNat ks then []
      else if rank_idx = 1 then
        promosList.map fun p => Move.mk from_sq to_sq.toNat (some p)
      else
        Move.mk from_sq to_sq.toNat none ::
          (if rank_idx = 6 then
            let to2 := from_sq - 16
            if ¬getBit occ_all to2 then
              if from_sq ∉ pinned ∨ colinearWithKing from_sq to2 ks then
                [Move.mk from_sq to2 none]
              else []
            else []
          else [])
    else []
  let capL :=
    if file_idx > 0 then
      let cap : Int := (from_sq : Int) - 9
      if cap ≥ 0 ∧ getBit occ_white cap.toNat then
        if from_sq ∈ pinned ∧ ¬colinearWithKing from_sq cap.toNat ks then []
        else if cap.toNat / 8 = 0 then
          promosList.map fun p => Move.mk from_sq cap.toNat (some p)
        else [Move.mk from_sq cap.toNat none]
      else []
    else []
  let capR :=
    if file_idx < 7 then
      let cap : Int := (from_sq : Int) - 7
      if cap ≥ 0 ∧ getBit occ_white cap.toNat then
        if from_sq ∈ pinned ∧ ¬colinearWithKing from_sq cap.toNat ks then []
        else if cap.toNat / 8 = 0 then
          promosList.map fun p => Move.mk from_sq cap.toNat (some p)
        else [Move.mk from_sq cap.toNat none]
      else []
    else []
  push ++ capL ++ capR

/-- Knight moves from one square: the 8-offset loop, destinations not
occupied by own pieces. -/
def knightMovesFrom (occ_own : Nat) (from_sq : Nat) : List Move :=
  knightOffsets.filterMap fun d =>
    let tf := fileOf from_sq + d.1
    let tr := rankOf from_sq + d.2
    if onBoard tf tr then
      if ¬getBit occ_own (sqOf tf tr) then some (Move.mk from_sq (sqOf tf tr) none)
      else none
    else none

/-- Slider ray from one square: emit until a blocker; own blocker stops
without emitting, enemy blocker is emitted then stops. -/
def slideRay (occ_own occ_opp : Nat) (from_sq : Nat) (df dr : Int) :
    Nat → Int → Int → List Move
  | 0, _, _ => []
  | fuel + 1, tf, tr =>
    let tf := tf + df
    let tr := tr + dr
    if !onBoard tf tr then []
    else
      let to_sq := sqOf tf tr
      if getBit occ_own to_sq then []
      else
        Move.mk from_sq to_sq none ::
          (if getBit occ_opp to_sq then []
           else slideRay occ_own occ_opp from_sq df dr fuel tf tr)

/-- All slider moves of one piece along the given direction list. -/
def sliderMovesFrom (occ_own occ_opp : Nat) (dirs : List (Int × Int))
    (from_sq : Nat) : List Move :=
  dirs.foldr
    (fun d acc => slideRay occ_own occ_opp from_sq d.1 d.2 8 (fileOf from_sq) (rankOf from_sq) ++ acc)
    []

/-- White en-passant capture emission (origins `ep - 9` and `ep - 7`). -/
def epMovesW (wp : Nat) (ep_square : Option Nat) : List Move :=
  match ep_square with
  | none => []
  | some ep =>
    let ep_file := ep % 8
    (if ep_file > 0 then
      let o : Int := (ep : Int) - 9
      if o ≥ 0 ∧ getBit wp o.toNat then [Move.mk o.toNat ep none] else []
    else [])
    ++
    (if ep_file < 7 then
      let o : Int := (ep : Int) - 7
      if o ≥ 0 ∧ getBit wp o.toNat then [Move.mk o.toNat ep none] else []
    else [])

/-- Black en-passant capture emission (origins `ep + 9` and `ep + 7`). -/
def epMovesB (bp : Nat) (ep_square : Option Nat) : List Move :=
  match ep_square with
  | none => []
  | some ep =>
    let ep_file := ep % 8
    (if ep_file < 7 then
      let o := ep + 9
      if o ≤ 63 ∧ getBit bp o then [Move.mk o ep none] else []
    else [])
    ++
    (if ep_file > 0 then
      let o := ep + 7
      if o ≤ 63 ∧ getBit bp o then [Move.mk o ep none] else []
    else [])

/-- White king section: single steps avoiding own occupancy and attacked
squares, plus the two castling moves from e1. -/
def kingMovesW (bbs : PieceBBs) (c : Castling) (occ_all occ_white : Nat) : List Move :=
  let king_bb := bbs WK
  if king_bb = 0 then []
  else
    let from_sq := lowBitIdx king_bb
    let steps :=
      kingOffsets.filterMap fun d =>
        let tf := fileOf from_sq + d.1
        let tr := rankOf from_sq + d.2
        if onBoard tf tr then
          let to_sq := sqOf tf tr
          if ¬getBit occ_white to_sq ∧ ¬isAttacked bbs to_sq false then
            some (Move.mk from_sq to_sq none)
          else none
        else none
    let castles :=
      if from_sq = 4 ∧ ¬isAttacked bbs 4 false then
        (if c.K ∧ ¬getBit occ_all 5 ∧ ¬getBit occ_all 6 then
          if ¬isAttacked bbs 5 false ∧ ¬isAttacked bbs 6 false then [Move.mk 4 6 none]
          else []
        else [])
        ++
        (if c.Q ∧ ¬getBit occ_all 3 ∧ ¬getBit occ_all 2 ∧ ¬getBit occ_all 1 then
          if ¬isAttacked bbs 3 false ∧ ¬isAttacked bbs 2 false then [Move.mk 4 2 none]
          else []
        else [])
      else []
    steps ++ castles

/-- Black king section: mirror of `kingMovesW`, castling from e8. -/
def kingMovesB (bbs : PieceBBs) (c : Castling) (occ_all occ_black : Nat) : List Move :=
  let king_bb := bbs BK
  if king_bb = 0 then []
  else
    let from_sq := lowBitIdx king_bb
    let steps :=
      kingOffsets.filterMap fun d =>
        let tf := fileOf from_sq + d.1
        let tr := rankOf from_sq + d.2
        if onBoard tf tr then
          let to_sq := sqOf tf tr
          if ¬getBit occ_black to_sq ∧ ¬isAttacked bbs to_sq true then
            some (Move.mk from_sq to_sq none)
          else none
        else none
    let castles :=
      if from_sq = 60 ∧ ¬isAttacked bbs 60 true then
        (if c.k ∧ ¬getBit occ_all 61 ∧ ¬getBit occ_all 62 then
          if ¬isAttacked bbs 61 true ∧ ¬isAttacked bbs 62 true then [Move.mk 60 62 none]
          else []
        else [])
        ++
        (if c.q ∧ ¬getBit occ_all 59 ∧ ¬getBit occ_all 58 ∧ ¬getBit occ_all 57 then
          if ¬isAttacked bbs 59 true ∧ ¬isAttacked bbs 58 true then [Move.mk 60 58 none]
          else []
        else [])
      else []
    steps ++ castles

/-- Occupancy of all twelve bitboards (`occ_all`). -/
def occAll (bbs : PieceBBs) : Nat :=
  (List.finRange 12).foldl (fun acc p => acc ||| bbs p) 0

/-- White occupancy. -/
def occWhite (bbs : PieceBBs) : Nat :=
  bbs WP ||| bbs WN ||| bbs WB ||| bbs WR ||| bbs WQ ||| bbs WK

/-- Black occupancy. -/
def occBlack (bbs : PieceBBs) : Nat :=
  bbs BP ||| bbs BN ||| bbs BB ||| bbs BR ||| bbs BQ ||| bbs BK

/-- The full pseudo-move list of `generate_legal_moves` before the final
legality filter (section order as in the source: pawns, knights, bishops,
rooks, queens, en passant, king-and-castling). -/
def pseudoMoves (b : Board) : List Move :=
  let occ_all := occAll b.bbs
  let occ_white := occWhite b.bbs
  let occ_black := occBlack b.bbs
  let pk := compute_pins_for_side b.bbs (b.side_to_move = Color.w) occ_all occ_white occ_black
  let pinned_stm := pk.1
  let ks_stm := pk.2
  if b.side_to_move = Color.w then
    eachBit (pawnMovesW pinned_stm ks_stm occ_all occ_black) 64 (b.bbs WP)
    ++ eachBit (fun s => if s ∈ pinned_stm then [] else knightMovesFrom occ_white s) 64 (b.bbs WN)
    ++ eachBit (sliderMovesFrom occ_white occ_black bishopDirs) 64 (b.bbs WB)
    ++ eachBit (sliderMovesFrom occ_white occ_black rookDirs) 64 (b.bbs WR)
    ++ eachBit (sliderMovesFrom occ_white occ_black queenDirs) 64 (b.bbs WQ)
    ++ epMovesW (b.bbs WP) b.ep_square
    ++ kingMovesW b.bbs b.castling occ_all occ_white
  else
    eachBit (pawnMovesB pinned_stm ks_stm occ_all occ_white) 64 (b.bbs BP)
    ++ eachBit (fun s => if s ∈ pinned_stm then [] else knightMovesFrom occ_black s) 64 (b.bbs BN)
    ++ eachBit (sliderMovesFrom occ_black occ_white bishopDirs) 64 (b.bbs BB)
    ++ eachBit (sliderMovesFrom occ_black occ_white rookDirs) 64 (b.bbs BR)
    ++ eachBit (sliderMovesFrom occ_black occ_white queenDirs) 64 (b.bbs BQ)
    ++ epMovesB (b.bbs BP) b.ep_square
    ++ kingMovesB b.bbs b.castling occ_all occ_black

/-! ### src/engine/board.py : `_apply_pseudo_to_bb`, legality filter, `generate_legal_moves` -/

/-- Promotion piece index for White (`promo_map` in board.py). -/
def promoPieceW : Promo → Fin 12
  | .q => WQ
  | .r => WR
  | .b => WB
  | .n => WN

/-- Promotion piece index for Black. -/
def promoPieceB : Promo → Fin 12
  | .q => BQ
  | .r => BR
  | .b => BB
  | .n => BN

/-- Update one bitboard of the array (Python `self.bb[i] = v`). -/
def updBB (bbs : PieceBBs) (i : Fin 12) (v : Nat) : PieceBBs :=
  bbs.set i v

/-- The six `bb[X] &= mask_to` statements clearing any opponent piece on the
destination square in `_apply_pseudo_to_bb`. -/
def clearOppAt (bbs : PieceBBs) (white_moves : Bool) (to_sq : Nat) : PieceBBs :=
  let opp : List (Fin 12) := if white_moves then [BP, BN, BB, BR, BQ, BK] else [WP, WN, WB, WR, WQ, WK]
  opp.foldl (fun acc p => updBB acc p (clearBit (acc p) to_sq)) bbs

/-- `Board._apply_pseudo_to_bb(move)`: apply a move to a copy of the
bitboards; `none` models the `moved = False` fall-through (no own piece on
the origin square). -/
def apply_pseudo_to_bb (b : Board) (m : Move) : Option PieceBBs :=
  let from_sq := m.from_sq
  let to_sq := m.to_sq
  let is_white := b.side_to_move = Color.w
  let bbs := clearOppAt b.bbs is_white to_sq
  if is_white then
    if getBit (bbs WP) from_sq then
      let bbs := updBB bbs WP (clearBit (bbs WP) from_sq)
      let bbs :=
        if b.ep_square = some to_sq ∧ ((to_sq : Int) - from_sq = 7 ∨ (to_sq : Int) - from_sq = 9) then
          updBB bbs BP (clearBit (bbs BP) (to_sq - 8))
        else bbs
      match m.promotion with
      | some p => some (updBB bbs (promoPieceW p) (setBit (bbs (promoPieceW p)) to_sq))
      | none => some (updBB bbs WP (setBit (bbs WP) to_sq))
    else if getBit (bbs WN) from_sq then
      some (updBB bbs WN (setBit (clearBit (bbs WN) from_sq) to_sq))
    else if getBit (bbs WK) from_sq then
      let bbs := updBB bbs WK (setBit (clearBit (bbs WK) from_sq) to_sq)
      let bbs :=
        if ((to_sq : Int) - from_sq).natAbs = 2 then
          if to_sq = 6 then updBB bbs WR (setBit (clearBit (bbs WR) 7) 5)
          else if to_sq = 2 then updBB bbs WR (setBit (clearBit (bbs WR) 0) 3)
          else bbs
        else bbs
      some bbs
    else if getBit (bbs WB) from_sq then
      some (updBB bbs WB (setBit (clearBit (bbs WB) from_sq) to_sq))
    else if getBit (bbs WR) from_sq then
      some (updBB bbs WR (setBit (clearBit (bbs WR) from_sq) to_sq))
    else if getBit (bbs WQ) from_sq then
      some (updBB bbs WQ (setBit (clearBit (bbs WQ) from_sq) to_sq))
    else none
  else
    if getBit (bbs BP) from_sq then
      let bbs := updBB bbs BP (clearBit (bbs BP) from_sq)
      let bbs :=
        if b.ep_square = some to_sq ∧ ((from_sq : Int) - to_sq = 7 ∨ (from_sq : Int) - to_sq = 9) then
          updBB bbs WP (clearBit (bbs WP) (to_sq + 8))
        else bbs
      match m.promotion with
      | some p => some (updBB bbs (promoPieceB p) (setBit (bbs (promoPieceB p)) to_sq))
      | none => some (updBB bbs BP (setBit (bbs BP) to_sq))
    else if getBit (bbs BN) from_sq then
      some (updBB bbs BN (setBit (clearBit (bbs BN) from_sq) to_sq))
    else if getBit (bbs BK) from_sq then
      let bbs := updBB bbs BK (setBit (clearBit (bbs BK) from_sq) to_sq)
      let bbs :=
        if ((to_sq : Int) - from_sq).natAbs = 2 then
          if to_sq = 62 then updBB bbs BR (setBit (clearBit (bbs BR) 63) 61)
          else if to_sq = 58 then updBB bbs BR (setBit (clearBit (bbs BR) 56) 59)
          else bbs
        else bbs
      some bbs
    else if getBit (bbs BB) from_sq then
      some (updBB bbs BB (setBit (clearBit (bbs BB) from_sq) to_sq))
    else if getBit (bbs BR) from_sq then
      some (updBB bbs BR (setBit (clearBit (bbs BR) from_sq) to_sq))
    else if getBit (bbs BQ) from_sq then
      some (updBB bbs BQ (setBit (clearBit (bbs BQ) from_sq) to_sq))
    else none

/-- The final legality filter of `generate_legal_moves`: simulate the move on
the bitboards, reject when the mover has no king or its king square is
attacked. -/
def legalityKeeps (b : Board) (m : Move) : Bool :=
  match apply_pseudo_to_bb b m with
  | none => false
  | some new_bb =>
    if b.side_to_move = Color.w then
      let king_bb := new_bb WK
      if king_bb = 0 then false
      else ¬isAttacked new_bb (lowBitIdx king_bb) false
    else
      let king_bb := new_bb BK
      if king_bb = 0 then false
      else ¬isAttacked new_bb (lowBitIdx king_bb) true

/-- `Board.generate_legal_moves()`. -/
def generate_legal_moves (b : Board) : List Move :=
  (pseudoMoves b).filter (legalityKeeps b)

/-- `Board.in_check(side = side_to_move)`. -/
def in_check (b : Board) : Bool :=
  match b.side_to_move with
  | Color.w =>
    let king_bb := b.bbs WK
    if king_bb = 0 then false else isAttacked b.bbs (lowBitIdx king_bb) false
  | Color.b =>
    let king_bb := b.bbs BK
    if king_bb = 0 then false else isAttacked b.bbs (lowBitIdx king_bb) true

/-- `Board.has_legal_moves()`. -/
def has_legal_moves (b : Board) : Bool := !(generate_legal_moves b).isEmpty

/-! ### src/engine/board.py : `make_move` / `unmake_move` -/

/-- `Board._update_castling_rights_on_move`. -/
def update_castling_rights_on_move (c : Castling) (moved_piece : Fin 12)
    (from_sq to_sq : Nat) (captured_piece : Option (Fin 12)) : Castling :=
  let c :=
    if moved_piece = WK then { c with K := false, Q := false }
    else if moved_piece = WR then
      if from_sq = 0 then { c with Q := false }
      else if from_sq = 7 then { c with K := false }
      else c
    else c
  let c :=
    if moved_piece = BK then { c with k := false, q := false }
    else if moved_piece = BR then
      if from_sq = 56 then { c with q := false }
      else if from_sq = 63 then { c with k := false }
      else c
    else c
  let c :=
    if captured_piece = some WR ∧ (to_sq = 0 ∨ to_sq = 7) then
      if to_sq = 0 then { c with Q := false } else { c with K := false }
    else c
  if captured_piece = some BR ∧ (to_sq = 56 ∨ to_sq = 63) then
    if to_sq = 56 then { c with q := false } else { c with k := false }
  else c

/-- `Board.make_move(move)`: apply in place with reversible state; `none`
models the `ValueError` raise when no own piece sits on the origin square. -/
def make_move (b : Board) (m : Move) : Option Board :=
  let from_sq := m.from_sq
  let to_sq := m.to_sq
  let is_white := b.side_to_move = Color.w
  let own_indices : List (Fin 12) :=
    if is_white then [WP, WN, WB, WR, WQ, WK] else [BP, BN, BB, BR, BQ, BK]
  match own_indices.find? (fun p => getBit (b.bbs p) from_sq) with
  | none => none
  | some moved_piece =>
    let cap : Option (Fin 12) × Option Nat :=
      if (moved_piece = WP ∨ moved_piece = BP) ∧ b.ep_square = some to_sq then
        if is_white ∧ ((to_sq : Int) - from_sq = 7 ∨ (to_sq : Int) - from_sq = 9) then
          (some BP, some (to_sq - 8))
        else if ¬is_white ∧ ((from_sq : Int) - to_sq = 7 ∨ (from_sq : Int) - to_sq = 9) then
          (some WP, some (to_sq + 8))
        else (none, none)
      else
        let opp_indices : List (Fin 12) :=
          if is_white then [BP, BN, BB, BR, BQ, BK] else [WP, WN, WB, WR, WQ, WK]
        (opp_indices.find? (fun p => getBit (b.bbs p) to_sq), none)
    let captured_piece := cap.1
    let ep_capture_sq := cap.2
    let frame : Frame :=
      ⟨m, moved_piece, captured_piece, ep_capture_sq, b.ep_square, b.castling,
        b.halfmove_clock, b.fullmove_number, b.zobrist_hash⟩
    let halfmove :=
      if (moved_piece = WP ∨ moved_piece = BP) ∨ captured_piece.isSome then 0
      else b.halfmove_clock + 1
    let fullmove := if ¬is_white then b.fullmove_number + 1 else b.fullmove_number
    let prev_castling := b.castling
    let prev_ep := b.ep_square
    let new_castling :=
      update_castling_rights_on_move b.castling moved_piece from_sq to_sq captured_piece
    let bbs := updBB b.bbs moved_piece (clearBit (b.bbs moved_piece) from_sq)
    let bbs :=
      match captured_piece with
      | some cp =>
        match ep_capture_sq with
        | some ecs => updBB bbs cp (clearBit (bbs cp) ecs)
        | none => updBB bbs cp (clearBit (bbs cp) to_sq)
      | none => bbs
    let placed : PieceBBs × Option Nat :=
      if moved_piece = WP then
        match m.promotion with
        | some p => (updBB bbs (promoPieceW p) (setBit (bbs (promoPieceW p)) to_sq), none)
        | none =>
          let bbs := updBB bbs WP (setBit (bbs WP) to_sq)
          if (to_sq : Int) - from_sq = 16 then (bbs, some (from_sq + 8)) else (bbs, none)
      else if moved_piece = BP then
        match m.promotion with
        | some p => (updBB bbs (promoPieceB p) (setBit (bbs (promoPieceB p)) to_sq), none)
        | none =>
          let bbs := updBB bbs BP (setBit (bbs BP) to_sq)
          if (from_sq : Int) - to_sq = 16 then (bbs, some (from_sq - 8)) else (bbs, none)
      else
        let bbs :=
          if moved_piece = WK ∧ ((to_sq : Int) - from_sq).natAbs = 2 then
            if to_sq = 6 then updBB bbs WR (setBit (clearBit (bbs WR) 7) 5)
            else updBB bbs WR (setBit (clearBit (bbs WR) 0) 3)
          else if moved_piece = BK ∧ ((to_sq : Int) - from_sq).natAbs = 2 then
            if to_sq = 62 then updBB bbs BR (setBit (clearBit (bbs BR) 63) 61)
            else updBB bbs BR (setBit (clearBit (bbs BR) 56) 59)
          else bbs
        (updBB bbs moved_piece (setBit (bbs moved_piece) to_sq), none)
    let bbs := placed.1
    let new_ep := placed.2
    let h := b.zobrist_hash
    let h :=
      match prev_ep with
      | some pe => h ^^^ ep_file_key (pe % 8)
      | none => h
    let h := h ^^^ piece_square moved_piece from_sq
    let h :=
      match captured_piece with
      | some cp => h ^^^ piece_square cp (ep_capture_sq.getD to_sq)
      | none => h
    let h :=
      match m.promotion with
      | some p =>
        if moved_piece = WP then h ^^^ piece_square (promoPieceW p) to_sq
        else if moved_piece = BP then h ^^^ piece_square (promoPieceB p) to_sq
        else
          let h := h ^^^ piece_square moved_piece to_sq
          if moved_piece = WK ∧ ((to_sq : Int) - from_sq).natAbs = 2 then
            if to_sq = 6 then h ^^^ piece_square WR 7 ^^^ piece_square WR 5
            else h ^^^ piece_square WR 0 ^^^ piece_square WR 3
          else if moved_piece = BK ∧ ((to_sq : Int) - from_sq).natAbs = 2 then
            if to_sq = 62 then h ^^^ piece_square BR 63 ^^^ piece_square BR 61
            else h ^^^ piece_square BR 56 ^^^ piece_square BR 59
          else h
      | none =>
        let h := h ^^^ piece_square moved_piece to_sq
        if moved_piece = WK ∧ ((to_sq : Int) - from_sq).natAbs = 2 then
          if to_sq = 6 then h ^^^ piece_square WR 7 ^^^ piece_square WR 5
          else h ^^^ piece_square WR 0 ^^^ piece_square WR 3
        else if moved_piece = BK ∧ ((to_sq : Int) - from_sq).natAbs = 2 then
          if to_sq = 62 then h ^^^ piece_square BR 63 ^^^ piece_square BR 61
          else h ^^^ piece_square BR 56 ^^^ piece_square BR 59
        else h
    let h :=
      match new_ep with
      | some e => h ^^^ ep_file_key (e % 8)
      | none => h
    let h := castlingToggle h prev_castling
    let h := castlingToggle h new_castling
    let h := h ^^^ side_to_move_key
    some
      { bbs := bbs
        side_to_move := if is_white then Color.b else Color.w
        castling := new_castling
        ep_square := new_ep
        halfmove_clock := halfmove
        fullmove_number := fullmove
        history := frame :: b.history
        zobrist_hash := h &&& MASK64 }

/-- `Board.unmake_move(move)`: undo the last move using the top history
frame; `none` models the `ValueError` raise on empty history. -/
def unmake_move (b : Board) (m : Move) : Option Board :=
  match b.history with
  | [] => none
  | fr :: rest =>
    let from_sq := m.from_sq
    let to_sq := m.to_sq
    let side := match b.side_to_move with
      | Color.b => Color.w
      | Color.w => Color.b
    let bbs := b.bbs
    let bbs :=
      if fr.moved_piece = WP then
        match m.promotion with
        | some p =>
          let bbs := updBB bbs (promoPieceW p) (clearBit (bbs (promoPieceW p)) to_sq)
          updBB bbs WP (setBit (bbs WP) from_sq)
        | none =>
          let bbs := updBB bbs WP (clearBit (bbs WP) to_sq)
          updBB bbs WP (setBit (bbs WP) from_sq)
      else if fr.moved_piece = BP then
        match m.promotion with
        | some p =>
          let bbs := updBB bbs (promoPieceB p) (clearBit (bbs (promoPieceB p)) to_sq)
          updBB bbs BP (setBit (bbs BP) from_sq)
        | none =>
          let bbs := updBB bbs BP (clearBit (bbs BP) to_sq)
          updBB bbs BP (setBit (bbs BP) from_sq)
      else
        let bbs :=
          if fr.moved_piece = WK ∧ ((to_sq : Int) - from_sq).natAbs = 2 then
            if to_sq = 6 then updBB bbs WR (setBit (clearBit (bbs WR) 5) 7)
            else updBB bbs WR (setBit (clearBit (bbs WR) 3) 0)
          else if fr.moved_piece = BK ∧ ((to_sq : Int) - from_sq).natAbs = 2 then
            if to_sq = 62 then updBB bbs BR (setBit (clearBit (bbs BR) 61) 63)
            else updBB bbs BR (setBit (clearBit (bbs BR) 59) 56)
          else bbs
        updBB bbs fr.moved_piece (setBit (clearBit (bbs fr.moved_piece) to_sq) from_sq)
    let bbs :=
      match fr.captured_piece with
      | some cp =>
        match fr.ep_capture_sq with
        | some ecs => updBB bbs cp (setBit (bbs cp) ecs)
        | none => updBB bbs cp (setBit (bbs cp) to_sq)
      | none => bbs
    some
      { bbs := bbs
        side_to_move := side
        castling := fr.prev_castling
        ep_square := fr.prev_ep
        halfmove_clock := fr.prev_halfmove
        fullmove_number := fr.prev_fullmove
        history := rest
        zobrist_hash := fr.prev_hash }

/-! ### src/engine/perft.py -/

/-- `_apply_pseudo_move(board, move)` from perft.py (NOT the one in
board.py): scaffolding child constructor. It copies the bitboards, handles
pawn/knight/bishop/rook/queen/king moves and captures (en passant included),
sets the en-passant target on double pushes, updates the move counters, and —
exactly as the source does — leaves the castling rights unchanged and does
NOT relocate the rook on a castling king move. Returns the tuple
`(bbs, ep_square, moved_is_pawn, is_capture)` of the branch, `none` for the
unsupported fall-through. -/
def perft_apply_branch (b : Board) (m : Move) :
    Option (PieceBBs × Option Nat × Bool × Bool) :=
  let from_sq := m.from_sq
  let to_sq := m.to_sq
  let bbs0 := b.bbs
  let occ_all := occAll bbs0
  let is_capture := getBit occ_all to_sq
  if b.side_to_move = Color.w then
    if getBit (bbs0 WP) from_sq then
      let bbs := updBB bbs0 WP (clearBit (bbs0 WP) from_sq)
      let is_ep := b.ep_square = some to_sq
        ∧ ((to_sq : Int) - from_sq = 7 ∨ (to_sq : Int) - from_sq = 9)
      let bbs := if is_ep then updBB bbs BP (clearBit (bbs BP) (to_sq - 8)) else bbs
      let is_capture := is_capture || is_ep
      let bbs := if is_capture then clearOppAt bbs true to_sq else bbs
      match m.promotion with
      | some p =>
        some (updBB bbs (promoPieceW p) (setBit (bbs (promoPieceW p)) to_sq), none, true, is_capture)
      | none =>
        let bbs := updBB bbs WP (setBit (bbs WP) to_sq)
        let ep' := if (to_sq : Int) - from_sq = 16 then some (from_sq + 8) else none
        some (bbs, ep', true, is_capture)
    else if getBit (bbs0 WN) from_sq then
      let bbs := updBB bbs0 WN (clearBit (bbs0 WN) from_sq)
      let bbs := if is_capture then clearOppAt bbs true to_sq else bbs
      some (updBB bbs WN (setBit (bbs WN) to_sq), none, false, is_capture)
    else if getBit (bbs0 WB) from_sq then
      let bbs := updBB bbs0 WB (clearBit (bbs0 WB) from_sq)
      let bbs := if is_capture then clearOppAt bbs true to_sq else bbs
      some (updBB bbs WB (setBit (bbs WB) to_sq), none, false, is_capture)
    else if getBit (bbs0 WR) from_sq then
      let bbs := updBB bbs0 WR (clearBit (bbs0 WR) from_sq)
      let bbs := if is_capture then clearOppAt bbs true to_sq else bbs
      some (updBB bbs WR (setBit (bbs WR) to_sq), none, false, is_capture)
    else if getBit (bbs0 WQ) from_sq then
      let bbs := updBB bbs0 WQ (clearBit (bbs0 WQ) from_sq)
      let bbs := if is_capture then clearOppAt bbs true to_sq else bbs
      some (updBB bbs WQ (setBit (bbs WQ) to_sq), none, false, is_capture)
    else if getBit (bbs0 WK) from_sq then
      let bbs := updBB bbs0 WK (clearBit (bbs0 WK) from_sq)
      let bbs := if is_capture then clearOppAt bbs true to_sq else bbs
      some (updBB bbs WK (setBit (bbs WK) to_sq), none, false, is_capture)
    else none
  else
    if getBit (bbs0 BP) from_sq then
      let bbs := updBB bbs0 BP (clearBit (bbs0 BP) from_sq)
      let is_ep := b.ep_square = some to_sq
        ∧ ((from_sq : Int) - to_sq = 7 ∨ (from_sq : Int) - to_sq = 9)
      let bbs := if is_ep then updBB bbs WP (clearBit (bbs WP) (to_sq + 8)) else bbs
      let is_capture := is_capture || is_ep
      let bbs := if is_capture then clearOppAt bbs false to_sq else bbs
      match m.promotion with
      | some p =>
        some (updBB bbs (promoPieceB p) (setBit (bbs (promoPieceB p)) to_sq), none, true, is_capture)
      | none =>
        let bbs := updBB bbs BP (setBit (bbs BP) to_sq)
        let ep' := if (from_sq : Int) - to_sq = 16 then some (from_sq - 8) else none
        some (bbs, ep', true, is_capture)
    else if getBit (bbs0 BN) from_sq then
      let bbs := updBB bbs0 BN (clearBit (bbs0 BN) from_sq)
      let bbs := if is_capture then clearOppAt bbs false to_sq else bbs
      some (updBB bbs BN (setBit (bbs BN) to_sq), none, false, is_capture)
    else if getBit (bbs0 BB) from_sq then
      let bbs := updBB bbs0 BB (clearBit (bbs0 BB) from_sq)
      let bbs := if is_capture then clearOppAt bbs false to_sq else bbs
      some (updBB bbs BB (setBit (bbs BB) to_sq), none, false, is_capture)
    else if getBit (bbs0 BR) from_sq then
      let bbs := updBB bbs0 BR (clearBit (bbs0 BR) from_sq)
      let bbs := if is_capture then clearOppAt bbs false to_sq else bbs
      some (updBB bbs BR (setBit (bbs BR) to_sq), none, false, is_capture)
    else if getBit (bbs0 BQ) from_sq then
      let bbs := updBB bbs0 BQ (clearBit (bbs0 BQ) from_sq)
      let bbs := if is_capture then clearOppAt bbs false to_sq else bbs
      some (updBB bbs BQ (setBit (bbs BQ) to_sq), none, false, is_capture)
    else if getBit (bbs0 BK) from_sq then
      let bbs := updBB bbs0 BK (clearBit (bbs0 BK) from_sq)
      let bbs := if is_capture then clearOppAt bbs false to_sq else bbs
      some (updBB bbs BK (setBit (bbs BK) to_sq), none, false, is_capture)
    else none

/-- `_apply_pseudo_move` assembled: counters, unchanged castling rights, new
`Board` (fresh history, hash left at the dataclass default 0, as in the
source's `Board(...)` construction). -/
def perft_apply_pseudo_move (b : Board) (m : Move) : Option Board :=
  match perft_apply_branch b m with
  | none => none
  | some (bbs, ep', moved_is_pawn, is_capture) =>
    some
      { bbs := bbs
        side_to_move := if b.side_to_move = Color.w then Color.b else Color.w
        castling := b.castling
        ep_square := ep'
        halfmove_clock := if moved_is_pawn || is_capture then 0 else b.halfmove_clock + 1
        fullmove_number :=
          b.fullmove_number + (if b.side_to_move = Color.b then 1 else 0) }

/-- `perft(board, depth)`. -/
def perft (b : Board) : Nat → Nat
  | 0 => 1
  | depth + 1 =>
    (generate_legal_moves b).foldl
      (fun nodes m =>
        match perft_apply_pseudo_move b m with
        | none => nodes
        | some child => nodes + perft child depth)
      0

/-! ### Concrete positions used by the claims (bitboards transcribed from the
FEN strings; the hash seed mirrors `from_fen`'s
`board.zobrist_hash = compute_hash_from_scratch(board)`). -/

/-- Build a board from explicit bitboards the way `from_fen` does: empty
history and a from-scratch hash seed. -/
def mkFenBoard (bbs : PieceBBs) (stm : Color) (c : Castling)
    (ep : Option Nat) (hm fm : Nat) : Board :=
  let b : Board :=
    { bbs := bbs, side_to_move := stm, castling := c, ep_square := ep,
      halfmove_clock := hm, fullmove_number := fm }
  { b with zobrist_hash := compute_hash_from_scratch b }

/-- `STARTPOS_FEN = "rnbqkbnr/pppppppp/8/8/8/8/PPPPPPPP/RNBQKBNR w KQkq - 0 1"`. -/
def startposBoard : Board :=
  mkFenBoard
    (PieceBBs.mk 0xFF00 0x42 0x24 0x81 0x8 0x10 0xFF000000000000 0x4200000000000000 0x2400000000000000 0x8100000000000000 0x800000000000000 0x1000000000000000)
    Color.w ⟨true, true, true, true⟩ none 0 1

/-- Kiwipete: `r3k2r/p1ppqpb1/bn2pnp1/3PN3/1p2P3/2N2Q1p/PPPBBPPP/R3K2R w KQkq - 0 1`. -/
def kiwipeteBoard : Board :=
  mkFenBoard
    (PieceBBs.mk 0x81000E700 0x1000040000 0x1800 0x81 0x200000 0x10 0x2D500002800000 0x220000000000 0x40010000000000 0x8100000000000000 0x10000000000000 0x1000000000000000)
    Color.w ⟨true, true, true, true⟩ none 0 1

/-- Checkmate scenario of claim C6: `7k/6Q1/6K1/8/8/8/8/8 b - - 0 1`. -/
def mateBoard : Board :=
  mkFenBoard
    (PieceBBs.mk 0 0 0 0 0x40000000000000 0x400000000000 0 0 0 0 0 0x8000000000000000)
    Color.b ⟨false, false, false, false⟩ none 0 1

/-- Stalemate scenario of claim C6: `7k/5Q2/6K1/8/8/8/8/8 b - - 0 1`. -/
def stalemateBoard : Board :=
  mkFenBoard
    (PieceBBs.mk 0 0 0 0 0x20000000000000 0x400000000000 0 0 0 0 0 0x8000000000000000)
    Color.b ⟨false, false, false, false⟩ none 0 1

/-- Bare-kings position with a stray white kingside castling right:
`4k3/8/8/8/8/8/8/4K3 w K - 0 1` (accepted verbatim by `from_fen`, which
validates neither rook placement nor rights consistency). -/
def bareKingsKBoard : Board :=
  mkFenBoard
    (PieceBBs.mk 0 0 0 0 0 0x10 0 0 0 0 0 0x1000000000000000)
    Color.w ⟨true, false, false, false⟩ none 0 1

/-! ### Claim-side specification predicates for C10 -/

/-- Claim C10's notion of a valid square name: a file letter `a`..`h`
followed by a rank digit `1`..`8`. -/
def validSquareName (s : List Char) : Prop :=
  match s with
  | [c0, c1] => 'a' ≤ c0 ∧ c0 ≤ 'h' ∧ '1' ≤ c1 ∧ c1 ≤ '8'
  | _ => False

instance (s : List Char) : Decidable (validSquareName s) := by
  unfold validSquareName
  split <;> infer_instance

/-- Claim C10's (amended) characterization of the strings `parse_uci`
accepts: length 4 or 5, two valid square names, and — for length 5 — a
promotion suffix that lowercases to one of `q`, `r`, `b`, `n`. -/
def goodUci (s : List Char) : Prop :=
  (s.length = 4 ∨ s.length = 5) ∧ validSquareName (s.take 2)
    ∧ validSquareName ((s.drop 2).take 2)
    ∧ (s.length = 5 →
        lowerChar (s.getD 4 ' ') = 'q' ∨ lowerChar (s.getD 4 ' ') = 'r'
          ∨ lowerChar (s.getD 4 ' ') = 'b' ∨ lowerChar (s.getD 4 ' ') = 'n')

instance (s : List Char) : Decidable (goodUci s) := by
  unfold goodUci
  infer_instance

/-! ### Well-formedness of positions

The spec's own position invariants (64-bit, pairwise-disjoint bitboards, and
the en-passant target only set right after a double push, hence on the right
rank, with the double-pushed enemy pawn behind it and the target square
empty), plus the condition the C1/C2 counterexample forces: a castling right
is only present when the corresponding rook is on its origin square. -/
def wfBoard (b : Board) : Prop :=
  (∀ i : Fin 12, b.bbs.get i < 2 ^ 64)
  ∧ (∀ i j : Fin 12, i ≠ j → b.bbs.get i &&& b.bbs.get j = 0)
  ∧ (b.castling.K = true → getBit (b.bbs.get WR) 7 = true)
  ∧ (b.castling.Q = true → getBit (b.bbs.get WR) 0 = true)
  ∧ (b.castling.k = true → getBit (b.bbs.get BR) 63 = true)
  ∧ (b.castling.q = true → getBit (b.bbs.get BR) 56 = true)
  ∧ (∀ e, b.ep_square = some e →
      (b.side_to_move = Color.w →
        e / 8 = 5 ∧ getBit (b.bbs.get BP) (e - 8) = true ∧ getBit (occAll b.bbs) e = false)
      ∧ (b.side_to_move = Color.b →
        e / 8 = 2 ∧ getBit (b.bbs.get WP) (e + 8) = true ∧ getBit (occAll b.bbs) e = false))

/-! ### src/engine/game.py -/

/-- Python dict lookup `m.get(k, 0)` for the repetition map. -/
def repGet (m : List (Nat × Nat)) (k : Nat) : Nat :=
  match m.find? (fun kv => kv.1 == k) with
  | some kv => kv.2
  | none => 0

/-- Python dict store `m[k] = v` (update in place, else append). -/
def repSet (m : List (Nat × Nat)) (k v : Nat) : List (Nat × Nat) :=
  if m.any (fun kv => kv.1 == k) then
    m.map fun kv => if kv.1 == k then (k, v) else kv
  else m ++ [(k, v)]

/-- `Game`: board plus user-visible move stack and repetition multiset. -/
structure Game where
  board : Board
  move_stack : List Move := []
  repetition : List (Nat × Nat) := []

/-- Game construction (`Game(board=...)` followed by `__post_init__`, which
seeds the repetition map with the initial position's hash). -/
def mkGame (b : Board) : Game :=
  { board := b, move_stack := [], repetition := repSet [] b.zobrist_hash 1 }

/-- `Game.legal_moves()`. -/
def Game.legal_moves (g : Game) : List Move :=
  generate_legal_moves g.board

/-- `Game.apply_move(move)`: validate against the generated legal moves by
structural comparison, then make the move, push it, and bump the repetition
count of the new hash. `Except.error` models the `ValueError` raises. -/
def Game.apply_move (g : Game) (m : Move) : Except String Game :=
  let legal := generate_legal_moves g.board
  if legal.any (fun mv =>
      mv.from_sq == m.from_sq && mv.to_sq == m.to_sq && mv.promotion == m.promotion) then
    match make_move g.board m with
    | none => .error "no piece to move from from_sq"
    | some b' =>
      .ok { board := b'
            move_stack := g.move_stack ++ [m]
            repetition := repSet g.repetition b'.zobrist_hash
              (repGet g.repetition b'.zobrist_hash + 1) }
  else .error "illegal move"

/-! ### src/eval/__init__.py -/

/-- Material values and heuristic weights (centipawns). -/
def P_VAL : Int := 100
def N_VAL : Int := 320
def B_VAL : Int := 330
def R_VAL : Int := 500
def Q_VAL : Int := 900
def MOB_N_MG : Int := 2
def MOB_N_EG : Int := 1
def MOB_B_MG : Int := 2
def MOB_B_EG : Int := 3
def MOB_R_MG : Int := 2
def MOB_R_EG : Int := 2
def MOB_Q_MG : Int := 1
def MOB_Q_EG : Int := 1
def BISHOP_PAIR_MG : Int := 20
def BISHOP_PAIR_EG : Int := 40
def ROOK_SEMIOPEN_BONUS : Int := 8
def ROOK_OPEN_BONUS : Int := 14
def KING_SHIELD_BONUS : Int := 6
def ROOK_SEVENTH_BONUS : Int := 20
def OUTPOST_N_BONUS : Int := 25

/-- `_iter_bits`: ascending indices of the set bits (64-bit bitboards). -/
def iterBits : Nat → Nat → List Nat
  | 0, _ => []
  | fuel + 1, bb =>
    if bb = 0 then [] else lowBitIdx bb :: iterBits fuel (bb ^^^ lowBit bb)

/-- `for sq in _iter_bits(bb): score += f(sq)`, as a summation helper. -/
def sumBits (bb : Nat) (f : Nat → Int) : Int :=
  (iterBits 64 bb).foldl (fun s sq => s + f sq) 0

/-- `_mirror_sq`: flip vertically (rank mirror). -/
def mirror_sq (sq : Nat) : Nat := (7 - sq / 8) * 8 + sq % 8

/-- `_file_mask(file_idx)`. -/
def file_mask (file_idx : Nat) : Nat :=
  (List.range 8).foldl (fun m r => m ||| (1 <<< (r * 8 + file_idx))) 0

/-- `_count_knight_moves(sq, own_occ)`. -/
def count_knight_moves (sq : Nat) (own_occ : Nat) : Nat :=
  knightOffsets.foldl
    (fun cnt d =>
      let tf := fileOf sq + d.1
      let tr := rankOf sq + d.2
      if onBoard tf tr ∧ ¬getBit own_occ (sqOf tf tr) then cnt + 1 else cnt)
    0

/-- One ray of `_count_slider_moves`: step until leaving the board, an own
piece (not counted), or any blocker (counted then stop). -/
def countSlideRay (own_occ occ_all : Nat) (df dr : Int) : Nat → Int → Int → Nat
  | 0, _, _ => 0
  | fuel + 1, tf, tr =>
    let tf := tf + df
    let tr := tr + dr
    if !onBoard tf tr then 0
    else
      let to_sq := sqOf tf tr
      if getBit own_occ to_sq then 0
      else if getBit occ_all to_sq then 1
      else 1 + countSlideRay own_occ occ_all df dr fuel tf tr

/-- `_count_slider_moves(sq, own_occ, occ_all, dirs)`. -/
def count_slider_moves (sq : Nat) (own_occ occ_all : Nat) (dirs : List (Int × Int)) : Nat :=
  dirs.foldl (fun cnt d => cnt + countSlideRay own_occ occ_all d.1 d.2 8 (fileOf sq) (rankOf sq)) 0

/-- `_king_shield_pawns(board, white)`. -/
def king_shield_pawns (bbs : PieceBBs) (white : Bool) : Nat :=
  let king_bb := if white then bbs.get WK else bbs.get BK
  if king_bb = 0 then 0
  else
    let ksq := lowBitIdx king_bb
    let kf := fileOf ksq
    let kr := rankOf ksq
    let pawns := if white then bbs.get WP else bbs.get BP
    ([-1, 0, 1] : List Int).foldl
      (fun total df =>
        let ff := kf + df
        if 0 ≤ ff ∧ ff < 8 then
          ([1, 2] : List Int).foldl
            (fun total dr =>
              let rr := kr + (if white then dr else -dr)
              if 0 ≤ rr ∧ rr < 8 then
                if getBit pawns (sqOf ff rr) then total + 1 else total
              else total)
            total
        else total)
      0

/-- `_pawn_attacks_square(board, sq, by_white)`. -/
def pawn_attacks_square (bbs : PieceBBs) (sq : Nat) (by_white : Bool) : Bool :=
  let f := fileOf sq
  if by_white then
    (f > 0 && ((sq : Int) - 9 ≥ 0 && getBit (bbs.get WP) ((sq : Int) - 9).toNat))
    || (f < 7 && ((sq : Int) - 7 ≥ 0 && getBit (bbs.get WP) ((sq : Int) - 7).toNat))
  else
    (f < 7 && (sq + 9 ≤ 63 && getBit (bbs.get BP) (sq + 9)))
    || (f > 0 && (sq + 7 ≤ 63 && getBit (bbs.get BP) (sq + 7)))

/-- `_pawn_supports_square(board, sq, white)`. -/
def pawn_supports_square (bbs : PieceBBs) (sq : Nat) (white : Bool) : Bool :=
  let f := fileOf sq
  if white then
    (f > 0 && ((sq : Int) - 9 ≥ 0 && getBit (bbs.get WP) ((sq : Int) - 9).toNat))
    || (f < 7 && ((sq : Int) - 7 ≥ 0 && getBit (bbs.get WP) ((sq : Int) - 7).toNat))
  else
    (f < 7 && (sq + 9 ≤ 63 && getBit (bbs.get BP) (sq + 9)))
    || (f > 0 && (sq + 7 ≤ 63 && getBit (bbs.get BP) (sq + 7)))

/-- `PSQT_P` (pawn piece-square table, White's perspective). -/
def PSQT_P : List Int :=
  [0, 0, 0, 0, 0, 0, 0, 0,
   5, 10, 10, -20, -20, 10, 10, 5,
   5, -5, -10, 0, 0, -10, -5, 5,
   0, 0, 0, 20, 20, 0, 0, 0,
   5, 5, 10, 25, 25, 10, 5, 5,
   10, 10, 20, 30, 30, 20, 10, 10,
   50, 50, 50, 50, 50, 50, 50, 50,
   0, 0, 0, 0, 0, 0, 0, 0]

/-- `PSQT_N`. -/
def PSQT_N : List Int :=
  [-50, -40, -30, -30, -30, -30, -40, -50,
   -40, -20, 0, 0, 0, 0, -20, -40,
   -30, 0, 10, 15, 15, 10, 0, -30,
   -30, 5, 15, 20, 20, 15, 5, -30,
   -30, 0, 15, 20, 20, 15, 0, -30,
   -30, 5, 10, 15, 15, 10, 5, -30,
   -40, -20, 0, 5, 5, 0, -20, -40,
   -50, -40, -30, -30, -30, -30, -40, -50]

/-- `PSQT_B`. -/
def PSQT_B : List Int :=
  [-20, -10, -10, -10, -10, -10, -10, -20,
   -10, 5, 0, 0, 0, 0, 5, -10,
   -10, 10, 10, 10, 10, 10, 10, -10,
   -10, 0, 10, 10, 10, 10, 0, -10,
   -10, 5, 5, 10, 10, 5, 5, -10,
   -10, 0, 5, 10, 10, 5, 0, -10,
   -10, 0, 0, 0, 0, 0, 0, -10,
   -20, -10, -10, -10, -10, -10, -10, -20]

/-- `PSQT_R`. -/
def PSQT_R : List Int :=
  [0, 0, 5, 10, 10, 5, 0, 0,
   -5, 0, 0, 0, 0, 0, 0, -5,
   -5, 0, 0, 0, 0, 0, 0, -5,
   -5, 0, 0, 0, 0, 0, 0, -5,
   -5, 0, 0, 0, 0, 0, 0, -5,
   -5, 0, 0, 0, 0, 0, 0, -5,
   5, 10, 10, 10, 10, 10, 10, 5,
   0, 0, 0, 0, 0, 0, 0, 0]

/-- `PSQT_Q`. -/
def PSQT_Q : List Int :=
  [-20, -10, -10, -5, -5, -10, -10, -20,
   -10, 0, 0, 0, 0, 0, 0, -10,
   -10, 0, 5, 5, 5, 5, 0, -10,
   -5, 0, 5, 5, 5, 5, 0, -5,
   -5, 0, 5, 5, 5, 5, 0, -5,
   -10, 0, 5, 5, 5, 5, 0, -10,
   -10, 0, 0, 0, 0, 0, 0, -10,
   -20, -10, -10, -5, -5, -10, -10, -20]

/-- `PSQT_K` (middlegame king table). -/
def PSQT_K : List Int :=
  [20, 30, 10, 0, 0, 10, 30, 20,
   20, 20, 0, 0, 0, 0, 20, 20,
   -10, -20, -20, -20, -20, -20, -20, -10,
   -20, -30, -30, -40, -40, -30, -30, -20,
   -30, -40, -40, -50, -50, -40, -40, -30,
   -30, -40, -40, -50, -50, -40, -40, -30,
   -30, -40, -40, -50, -50, -40, -40, -30,
   -30, -40, -40, -50, -50, -40, -40, -30]

/-- `PSQT_K_EG` (endgame king table). -/
def PSQT_K_EG : List Int :=
  [-50, -30, -30, -30, -30, -30, -30, -50,
   -30, -10, 0, 0, 0, 0, -10, -30,
   -30, 0, 10, 15, 15, 10, 0, -30,
   -30, 0, 15, 20, 20, 15, 0, -30,
   -30, 0, 15, 20, 20, 15, 0, -30,
   -30, 0, 10, 15, 15, 10, 0, -30,
   -30, -10, 0, 0, 0, 0, -10, -30,
   -50, -30, -30, -30, -30, -30, -30, -50]

/-- Table lookup `T[sq]` (all evaluation reads are at indices below 64). -/
def psqt (t : List Int) (sq : Nat) : Int := t.getD sq 0

/-- `evaluate(board)`: material + PSQT + phase-blended king tables +
mobility + bishop pair + rook file/seventh bonuses + knight outposts + king
shield, positive for White. -/
def evaluate (b : Board) : Int :=
  let material_white : Int :=
    (popCount 64 (b.bbs.get WP) : Int) * P_VAL + (popCount 64 (b.bbs.get WN) : Int) * N_VAL
      + (popCount 64 (b.bbs.get WB) : Int) * B_VAL + (popCount 64 (b.bbs.get WR) : Int) * R_VAL
      + (popCount 64 (b.bbs.get WQ) : Int) * Q_VAL
  let material_black : Int :=
    (popCount 64 (b.bbs.get BP) : Int) * P_VAL + (popCount 64 (b.bbs.get BN) : Int) * N_VAL
      + (popCount 64 (b.bbs.get BB) : Int) * B_VAL + (popCount 64 (b.bbs.get BR) : Int) * R_VAL
      + (popCount 64 (b.bbs.get BQ) : Int) * Q_VAL
  let score := material_white - material_black
  let score := score + sumBits (b.bbs.get WP) (psqt PSQT_P)
  let score := score + sumBits (b.bbs.get WN) (psqt PSQT_N)
  let score := score + sumBits (b.bbs.get WB) (psqt PSQT_B)
  let score := score + sumBits (b.bbs.get WR) (psqt PSQT_R)
  let score := score + sumBits (b.bbs.get WQ) (psqt PSQT_Q)
  let score := score - sumBits (b.bbs.get BP) (fun sq => psqt PSQT_P (mirror_sq sq))
  let score := score - sumBits (b.bbs.get BN) (fun sq => psqt PSQT_N (mirror_sq sq))
  let score := score - sumBits (b.bbs.get BB) (fun sq => psqt PSQT_B (mirror_sq sq))
  let score := score - sumBits (b.bbs.get BR) (fun sq => psqt PSQT_R (mirror_sq sq))
  let score := score - sumBits (b.bbs.get BQ) (fun sq => psqt PSQT_Q (mirror_sq sq))
  let knights := popCount 64 (b.bbs.get WN ||| b.bbs.get BN)
  let bishops := popCount 64 (b.bbs.get WB ||| b.bbs.get BB)
  let rooks := popCount 64 (b.bbs.get WR ||| b.bbs.get BR)
  let queens := popCount 64 (b.bbs.get WQ ||| b.bbs.get BQ)
  let phase_units := knights + bishops + 2 * rooks + 4 * queens
  let mg_scaled : Int := max 0 (min 128 ((phase_units : Int) * 128 / 24))
  let eg_scaled : Int := 128 - mg_scaled
  let score := score + sumBits (b.bbs.get WK)
    (fun sq => Int.fdiv (mg_scaled * psqt PSQT_K sq + eg_scaled * psqt PSQT_K_EG sq) 128)
  let score := score - sumBits (b.bbs.get BK)
    (fun sq =>
      Int.fdiv (mg_scaled * psqt PSQT_K (mirror_sq sq) + eg_scaled * psqt PSQT_K_EG (mirror_sq sq)) 128)
  let occ_all := occAll b.bbs
  let occ_w := occWhite b.bbs
  let occ_b := occBlack b.bbs
  let mob_n := Int.fdiv (mg_scaled * MOB_N_MG + eg_scaled * MOB_N_EG) 128
  let score := score
    + (sumBits (b.bbs.get WN) (fun sq => (count_knight_moves sq occ_w : Int))
        - sumBits (b.bbs.get BN) (fun sq => (count_knight_moves sq occ_b : Int))) * mob_n
  let mob_b := Int.fdiv (mg_scaled * MOB_B_MG + eg_scaled * MOB_B_EG) 128
  let score := score
    + (sumBits (b.bbs.get WB) (fun sq => (count_slider_moves sq occ_w occ_all bishopDirs : Int))
        - sumBits (b.bbs.get BB) (fun sq => (count_slider_moves sq occ_b occ_all bishopDirs : Int))) * mob_b
  let mob_r := Int.fdiv (mg_scaled * MOB_R_MG + eg_scaled * MOB_R_EG) 128
  let score := score
    + (sumBits (b.bbs.get WR) (fun sq => (count_slider_moves sq occ_w occ_all rookDirs : Int))
        - sumBits (b.bbs.get BR) (fun sq => (count_slider_moves sq occ_b occ_all rookDirs : Int))) * mob_r
  let mob_q := Int.fdiv (mg_scaled * MOB_Q_MG + eg_scaled * MOB_Q_EG) 128
  let score := score
    + (sumBits (b.bbs.get WQ) (fun sq => (count_slider_moves sq occ_w occ_all queenDirs : Int))
        - sumBits (b.bbs.get BQ) (fun sq => (count_slider_moves sq occ_b occ_all queenDirs : Int))) * mob_q
  let bp_bonus := Int.fdiv (mg_scaled * BISHOP_PAIR_MG + eg_scaled * BISHOP_PAIR_EG) 128
  let score := if popCount 64 (b.bbs.get WB) ≥ 2 then score + bp_bonus else score
  let score := if popCount 64 (b.bbs.get BB) ≥ 2 then score - bp_bonus else score
  let wpawns := b.bbs.get WP
  let bpawns := b.bbs.get BP
  let score := score + sumBits (b.bbs.get WR)
    (fun sq =>
      let fm := file_mask (sq % 8)
      if wpawns &&& fm = 0 ∧ bpawns &&& fm = 0 then ROOK_OPEN_BONUS
      else if wpawns &&& fm = 0 ∧ bpawns &&& fm ≠ 0 then ROOK_SEMIOPEN_BONUS
      else 0)
  let score := score - sumBits (b.bbs.get BR)
    (fun sq =>
      let fm := file_mask (sq % 8)
      if bpawns &&& fm = 0 ∧ wpawns &&& fm = 0 then ROOK_OPEN_BONUS
      else if bpawns &&& fm = 0 ∧ wpawns &&& fm ≠ 0 then ROOK_SEMIOPEN_BONUS
      else 0)
  let score := score + sumBits (b.bbs.get WR) (fun sq => if sq / 8 = 6 then ROOK_SEVENTH_BONUS else 0)
  let score := score - sumBits (b.bbs.get BR) (fun sq => if sq / 8 = 1 then ROOK_SEVENTH_BONUS else 0)
  let score := score + sumBits (b.bbs.get WN)
    (fun sq =>
      if 3 ≤ sq / 8 ∧ sq / 8 ≤ 5 then
        if pawn_supports_square b.bbs sq true ∧ ¬pawn_attacks_square b.bbs sq false then
          OUTPOST_N_BONUS
        else 0
      else 0)
  let score := score - sumBits (b.bbs.get BN)
    (fun sq =>
      if 2 ≤ sq / 8 ∧ sq / 8 ≤ 4 then
        if pawn_supports_square b.bbs sq false ∧ ¬pawn_attacks_square b.bbs sq true then
          OUTPOST_N_BONUS
        else 0
      else 0)
  let score := score + (king_shield_pawns b.bbs true : Int) * KING_SHIELD_BONUS
  let score := score - (king_shield_pawns b.bbs false : Int) * KING_SHIELD_BONUS
  score

/-! ### Proof-side predicates for the C1/C2 round-trip development -/

def ownListW : List (Fin 12) := [WP, WN, WB, WR, WQ, WK]

def ownListB : List (Fin 12) := [BP, BN, BB, BR, BQ, BK]

/-- The facts about a generated white move that `make_move`/`unmake_move`
round-tripping needs: the mover `p` sits on the origin, origin and
destination differ, no white piece sits on the destination, and a king
double-step is one of the two generated castling moves with its right and
its rook-path emptiness. -/
def MFactsW (b : Board) (m : Move) (p : Fin 12) : Prop :=
  p ∈ ownListW
  ∧ getBit (b.bbs.get p) m.from_sq = true
  ∧ m.from_sq ≠ m.to_sq
  ∧ (∀ q ∈ ownListW, getBit (b.bbs.get q) m.to_sq = false)
  ∧ (p = WK → ((m.to_sq : Int) - m.from_sq).natAbs = 2 →
      (m.from_sq = 4 ∧ m.to_sq = 6 ∧ b.castling.K = true ∧ getBit (occAll b.bbs) 5 = false
        ∧ getBit (occAll b.bbs) 6 = false)
      ∨ (m.from_sq = 4 ∧ m.to_sq = 2 ∧ b.castling.Q = true ∧ getBit (occAll b.bbs) 3 = false
        ∧ getBit (occAll b.bbs) 2 = false))

/-- Mirror facts for a generated black move. -/
def MFactsB (b : Board) (m : Move) (p : Fin 12) : Prop :=
  p ∈ ownListB
  ∧ getBit (b.bbs.get p) m.from_sq = true
  ∧ m.from_sq ≠ m.to_sq
  ∧ (∀ q ∈ ownListB, getBit (b.bbs.get q) m.to_sq = false)
  ∧ (p = BK → ((m.to_sq : Int) - m.from_sq).natAbs = 2 →
      (m.from_sq = 60 ∧ m.to_sq = 62 ∧ b.castling.k = true ∧ getBit (occAll b.bbs) 61 = false
        ∧ getBit (occAll b.bbs) 62 = false)
      ∨ (m.from_sq = 60 ∧ m.to_sq = 58 ∧ b.castling.q = true ∧ getBit (occAll b.bbs) 59 = false
        ∧ getBit (occAll b.bbs) 58 = false))

end ChessEngine

/-! ## Theorems -/

namespace ChessEngine

theorem square_to_str_eval (idx : Nat) (h : idx ≤ 63) :
    square_to_str idx =
      some [Char.ofNat ('a'.toNat + idx % 8), Char.ofNat ('1'.toNat + idx / 8)] := by
  unfold square_to_str
  rw [if_neg (by omega)]

theorem str_to_square_inv : ∀ a, a < 8 → ∀ b, b < 8 →
    str_to_square [Char.ofNat ('a'.toNat + a), Char.ofNat ('1'.toNat + b)]
      = some (b * 8 + a) := by decide

theorem roundtrip_aux (p : Option Promo) (fs : Nat) (hf : fs ≤ 63) (ts : Nat) (ht : ts ≤ 63) :
    Option.bind (Move.mk fs ts p).to_uci parse_uci = some (Move.mk fs ts p) := by
  have hfm : fs % 8 < 8 := Nat.mod_lt _ (by norm_num)
  have hfd : fs / 8 < 8 := by omega
  have htm : ts % 8 < 8 := Nat.mod_lt _ (by norm_num)
  have htd : ts / 8 < 8 := by omega
  have hfs : fs / 8 * 8 + fs % 8 = fs := by omega
  have hts : ts / 8 * 8 + ts % 8 = ts := by omega
  unfold Move.to_uci
  rw [square_to_str_eval fs hf, square_to_str_eval ts ht]
  rcases p with _ | pp
  · simp only [Option.bind_eq_bind, Option.some_bind, Option.pure_def, List.cons_append,
      List.nil_append, List.append_nil]
    unfold parse_uci
    rw [if_pos (by simp)]
    simp only [List.take_succ_cons, List.take_zero, List.drop_succ_cons, List.drop_zero]
    rw [str_to_square_inv _ hfm _ hfd, str_to_square_inv _ htm _ htd]
    dsimp only
    rw [if_neg (by simp)]
    rw [hfs, hts]
  · simp only [Option.bind_eq_bind, Option.some_bind, Option.pure_def, List.cons_append,
      List.nil_append, List.append_nil]
    unfold parse_uci
    rw [if_pos (by simp)]
    simp only [List.take_succ_cons, List.take_zero, List.drop_succ_cons, List.drop_zero]
    rw [str_to_square_inv _ hfm _ hfd, str_to_square_inv _ htm _ htd]
    dsimp only
    rw [if_pos (by simp)]
    have hpromo : charToPromo (lowerChar pp.char) = some pp := by
      rcases pp <;> decide
    have hget : ([Char.ofNat ('a'.toNat + fs % 8), Char.ofNat ('1'.toNat + fs / 8),
        Char.ofNat ('a'.toNat + ts % 8), Char.ofNat ('1'.toNat + ts / 8),
        pp.char] : List Char).getD 4 ' ' = pp.char := by
      simp [List.getD]
    rw [hget, hpromo]
    rw [hfs, hts]

theorem str_to_square_none_iff (s : List Char) :
    str_to_square s = none ↔ ¬validSquareName s := by
  unfold str_to_square validSquareName
  rcases s with _ | ⟨c0, t⟩
  · simp
  rcases t with _ | ⟨c1, t2⟩
  · simp
  rcases t2 with _ | ⟨c2, t3⟩
  · dsimp only
    by_cases h : c0 < 'a' ∨ c0 > 'h' ∨ c1 < '1' ∨ c1 > '8'
    · rw [if_pos h]
      simp only [true_iff]
      rintro ⟨ha, hb, hc, hd⟩
      rcases h with h | h | h | h
      · exact absurd ha (not_le.mpr h)
      · exact absurd hb (not_le.mpr h)
      · exact absurd hc (not_le.mpr h)
      · exact absurd hd (not_le.mpr h)
    · rw [if_neg h]
      push_neg at h
      simp [h.1, h.2.1, h.2.2.1, h.2.2.2]
  · simp

theorem parse_uci_none_iff (s : List Char) : parse_uci s = none ↔ ¬goodUci s := by
  unfold parse_uci goodUci
  by_cases h45 : s.length = 4 ∨ s.length = 5
  · rw [if_pos h45]
    rcases hA : str_to_square (s.take 2) with _ | f
    · dsimp only
      constructor
      · intro _ hg
        exact (str_to_square_none_iff _).mp hA hg.2.1
      · intro _
        rfl
    · rcases hB : str_to_square ((s.drop 2).take 2) with _ | t
      · dsimp only
        constructor
        · intro _ hg
          exact (str_to_square_none_iff _).mp hB hg.2.2.1
        · intro _
          rfl
      · have hvA : validSquareName (s.take 2) := by
          by_contra hv
          rw [(str_to_square_none_iff (s.take 2)).mpr hv] at hA
          exact Option.noConfusion hA
        have hvB : validSquareName ((s.drop 2).take 2) := by
          by_contra hv
          rw [(str_to_square_none_iff ((s.drop 2).take 2)).mpr hv] at hB
          exact Option.noConfusion hB
        dsimp only
        by_cases h5 : s.length = 5
        · rw [if_pos h5]
          rcases hP : charToPromo (lowerChar (s.getD 4 ' ')) with _ | pp
          · dsimp only
            constructor
            · intro _ hg
              rcases hg.2.2.2 h5 with hc | hc | hc | hc <;>
                rw [hc] at hP <;> simp [charToPromo] at hP
            · intro _
              rfl
          · constructor
            · intro hsome
              exact absurd hsome (by simp)
            · intro hng
              exfalso
              apply hng
              refine ⟨h45, hvA, hvB, fun _ => ?_⟩
              unfold charToPromo at hP
              split_ifs at hP with c1 c2 c3 c4
              · exact Or.inl c1
              · exact Or.inr (Or.inl c2)
              · exact Or.inr (Or.inr (Or.inl c3))
              · exact Or.inr (Or.inr (Or.inr c4))
        · rw [if_neg h5]
          constructor
          · intro hsome
            exact absurd hsome (by simp)
          · intro hng
            exfalso
            exact hng ⟨h45, hvA, hvB, fun h5c => absurd h5c h5⟩
  · rw [if_neg h45]
    constructor
    · intro _ hg
      exact h45 hg.1
    · intro _
      rfl

/-- C10 (corrected): printing then parsing round-trips every move whose
squares are in `0..63` (promotion `none`/`q`/`r`/`b`/`n` by type), and
`parse_uci` fails exactly on strings whose length is not 4 or 5, whose square
names are invalid, or whose length-5 promotion suffix does not lowercase to
one of `q`, `r`, `b`, `n`. -/
theorem C10_parse_uci_roundtrip_and_errors :
    (∀ m : Move, m.from_sq ≤ 63 → m.to_sq ≤ 63 →
      Option.bind m.to_uci parse_uci = some m)
    ∧ (∀ s : List Char, parse_uci s = none ↔ ¬goodUci s) := by
  constructor
  · rintro ⟨fs, ts, p⟩ hf ht
    exact roundtrip_aux p fs hf ts ht
  · exact parse_uci_none_iff

/-- Witness for C10: a concrete round-trip through the theorem itself. -/
theorem C10_witness :
    Option.bind (Move.mk 12 28 none).to_uci parse_uci = some (Move.mk 12 28 none) :=
  C10_parse_uci_roundtrip_and_errors.1 (Move.mk 12 28 none) (by decide) (by decide)

theorem pyOr_zero (v : Option Int) : pyOr v 0 = v.getD 0 := by
  rcases v with _ | x
  · rfl
  · by_cases hx : x = 0 <;> simp [pyOr, hx]

/-- C8 (corrected): `_select_time_and_depth` agrees, on every input, with the
amended allocation rule: `movetime` clamped up to 1 ms; `movestogo` only
counts when positive (else 30); raw allocation `remaining // m + inc/2`
(truncated); cap `min(int(remaining*0.7), max(0, remaining-50))`; budget
`max(1, remaining-1)` when the cap is not positive, else the raw allocation
clamped to `[10, cap]`; depth defaults of 64 / 8 / 1 as in
`amendedC8Selection`. -/
theorem C8_select_time_and_depth_amended (stm : Bool) (gp : GoParams) :
    select_time_and_depth stm gp = amendedC8Selection stm gp := by
  obtain ⟨d, mt, wt, bt, wi, bi, mtg⟩ := gp
  unfold select_time_and_depth amendedC8Selection
  have hbonus : ∀ v : Option Int, intMul05 (pyOr v 0) = Int.tdiv (v.getD 0) 2 := by
    intro v
    rw [pyOr_zero]
    rfl
  rcases mt with _ | mtv
  · dsimp only
    split_ifs with hclk hstm
    · rcases wt with _ | rem
      · rfl
      · dsimp only
        rw [hbonus]
        rcases mtg with _ | v
        · dsimp only
          rw [show max (1 : Int) 30 = 30 from by norm_num]
        · dsimp only
          by_cases hv : 0 < v
          · rw [if_pos (⟨by omega, hv⟩ : v ≠ 0 ∧ v > 0), if_pos hv,
              max_eq_right (by omega : (1 : Int) ≤ v)]
          · rw [if_neg (show ¬(v ≠ 0 ∧ v > 0) from fun h => hv h.2), if_neg hv,
              show max (1 : Int) 30 = 30 from by norm_num]
    · rcases bt with _ | rem
      · rfl
      · dsimp only
        rw [hbonus]
        rcases mtg with _ | v
        · dsimp only
          rw [show max (1 : Int) 30 = 30 from by norm_num]
        · dsimp only
          by_cases hv : 0 < v
          · rw [if_pos (⟨by omega, hv⟩ : v ≠ 0 ∧ v > 0), if_pos hv,
              max_eq_right (by omega : (1 : Int) ≤ v)]
          · rw [if_neg (show ¬(v ≠ 0 ∧ v > 0) from fun h => hv h.2), if_neg hv,
              show max (1 : Int) 30 = 30 from by norm_num]
    · rfl
  · rfl

/-- Counterexample for C8 as frozen: with only `wtime 30` given, the claim's
formula clamps the allocation to `[10, min(21, -20)]` and yields a 10 ms
budget, but the code takes its unstated `max_cap <= 0` branch and budgets
`max(1, remaining - 1) = 29` ms. -/
theorem C8_counterexample :
    select_time_and_depth true { wtime := some 30 } = (64, some 29)
      ∧ claimC8Selection true { wtime := some 30 } = (64, some 10)
      ∧ select_time_and_depth true { wtime := some 30 }
          ≠ claimC8Selection true { wtime := some 30 } := by
  refine ⟨by decide, by decide, by decide⟩

/-- Counterexample for C10 as frozen: the claim says `parse_uci` raises when
the promotion suffix is not one of `q`, `r`, `b`, `n`, but the source
lowercases the suffix first, so `"e7e8Q"` parses successfully although `'Q'`
is not in that set. -/
theorem C10_counterexample :
    parse_uci ['e', '7', 'e', '8', 'Q'] = some (Move.mk 52 60 (some Promo.q))
      ∧ ¬('Q' = 'q' ∨ 'Q' = 'r' ∨ 'Q' = 'b' ∨ 'Q' = 'n') := by
  decide

/-! ### C3: perft -/

set_option maxRecDepth 100000 in
set_option maxHeartbeats 2000000 in
/-- C3 (code bug): evaluating the perft driver's own child constructor at the
castling move of Kiwipete shows why `perft(kiwipete, 3)` returns 97857
instead of 97862: `e1g1` is generated as a legal move, but the child that
`_apply_pseudo_move` builds still has the white rook on h1, none on f1, and
full `KQkq` castling rights, so every deeper count below a castling move is
taken on a wrong position. -/
theorem C3_perft_castling_child_is_wrong :
    Move.mk 4 6 none ∈ generate_legal_moves kiwipeteBoard
      ∧ (perft_apply_pseudo_move kiwipeteBoard (Move.mk 4 6 none)).map
          (fun child => (getBit (child.bbs.get WR) 7, getBit (child.bbs.get WR) 5,
            child.castling))
        = some (true, false, ⟨true, true, true, true⟩) := by
  constructor
  · decide
  · decide

/-! ### C1 and C2: counterexamples from a castling right without its rook -/

set_option maxRecDepth 100000 in
set_option maxHeartbeats 2000000 in
/-- Counterexample for C1 as frozen: `from_fen` accepts
`4k3/8/8/8/8/8/8/4K3 w K - 0 1` (castling right `K`, no rook anywhere), the
generator emits `e1g1` as legal, and `unmake(make(p, e1g1), e1g1)` leaves a
white rook on h1 that the original position never had: the round trip fails
on the `WR` bitboard. -/
theorem C1_counterexample :
    Move.mk 4 6 none ∈ generate_legal_moves bareKingsKBoard
      ∧ bareKingsKBoard.bbs.get WR = 0
      ∧ ((make_move bareKingsKBoard (Move.mk 4 6 none)).bind
          (fun b1 => unmake_move b1 (Move.mk 4 6 none))).map (fun b2 => b2.bbs.get WR)
        = some 128 := by
  refine ⟨by decide, by decide, by decide⟩

set_option maxRecDepth 100000 in
set_option maxHeartbeats 2000000 in
/-- Counterexample for C2 as frozen: on the same position, after the legal
`e1g1` the incrementally maintained hash differs from the from-scratch hash
(the incremental update toggles the phantom h1 rook out and an f1 rook in,
while the board only gained the f1 rook). -/
theorem C2_counterexample :
    Move.mk 4 6 none ∈ generate_legal_moves bareKingsKBoard
      ∧ (make_move bareKingsKBoard (Move.mk 4 6 none)).map
          (fun b1 => b1.zobrist_hash == compute_hash_from_scratch b1)
        = some false := by
  refine ⟨by decide, by decide⟩

/-! ### C9: Game.apply_move -/

theorem any_structeq_iff (l : List Move) (m : Move) :
    (l.any fun mv => mv.from_sq == m.from_sq && mv.to_sq == m.to_sq
      && mv.promotion == m.promotion) = true ↔ m ∈ l := by
  rw [List.any_eq_true]
  constructor
  · rintro ⟨mv, hmem, h⟩
    simp only [Bool.and_eq_true, beq_iff_eq] at h
    obtain ⟨⟨h1, h2⟩, h3⟩ := h
    rcases mv with ⟨a, b, c⟩
    rcases m with ⟨a', b', c'⟩
    cases h1
    cases h2
    cases h3
    exact hmem
  · intro hm
    exact ⟨m, hm, by simp⟩

theorem legalityKeeps_of_mem {b : Board} {m : Move}
    (h : m ∈ generate_legal_moves b) : legalityKeeps b m = true :=
  (List.mem_filter.mp h).2

theorem apply_pseudo_isSome_of_keeps {b : Board} {m : Move}
    (h : legalityKeeps b m = true) : (apply_pseudo_to_bb b m).isSome := by
  unfold legalityKeeps at h
  rcases ha : apply_pseudo_to_bb b m with _ | nb
  · rw [ha] at h
    simp at h
  · simp

set_option maxHeartbeats 10000000 in
theorem ownpiece_of_apply_pseudo_w {b : Board} {m : Move}
    (hside : b.side_to_move = Color.w) (h : (apply_pseudo_to_bb b m).isSome) :
    ∃ p ∈ [WP, WN, WB, WR, WQ, WK], getBit (b.bbs p) m.from_sq = true := by
  unfold apply_pseudo_to_bb at h
  rw [hside] at h
  try dsimp only at h
  have e1 : (clearOppAt b.bbs (decide (Color.w = Color.w)) m.to_sq).get WP = b.bbs.get WP := rfl
  have e2 : (clearOppAt b.bbs (decide (Color.w = Color.w)) m.to_sq).get WN = b.bbs.get WN := rfl
  have e3 : (clearOppAt b.bbs (decide (Color.w = Color.w)) m.to_sq).get WK = b.bbs.get WK := rfl
  have e4 : (clearOppAt b.bbs (decide (Color.w = Color.w)) m.to_sq).get WB = b.bbs.get WB := rfl
  have e5 : (clearOppAt b.bbs (decide (Color.w = Color.w)) m.to_sq).get WR = b.bbs.get WR := rfl
  have e6 : (clearOppAt b.bbs (decide (Color.w = Color.w)) m.to_sq).get WQ = b.bbs.get WQ := rfl
  rw [e1, e2, e3, e4, e5, e6] at h
  split_ifs at h <;>
    first
      | contradiction
      | exact ⟨WP, by simp, by assumption⟩
      | exact ⟨WN, by simp, by assumption⟩
      | exact ⟨WK, by simp, by assumption⟩
      | exact ⟨WB, by simp, by assumption⟩
      | exact ⟨WR, by simp, by assumption⟩
      | exact ⟨WQ, by simp, by assumption⟩
      | simp at h

set_option maxHeartbeats 10000000 in
theorem ownpiece_of_apply_pseudo_b {b : Board} {m : Move}
    (hside : b.side_to_move = Color.b) (h : (apply_pseudo_to_bb b m).isSome) :
    ∃ p ∈ [BP, BN, BB, BR, BQ, BK], getBit (b.bbs p) m.from_sq = true := by
  unfold apply_pseudo_to_bb at h
  rw [hside] at h
  try dsimp only at h
  have e1 : (clearOppAt b.bbs (decide (Color.b = Color.w)) m.to_sq).get BP = b.bbs.get BP := rfl
  have e2 : (clearOppAt b.bbs (decide (Color.b = Color.w)) m.to_sq).get BN = b.bbs.get BN := rfl
  have e3 : (clearOppAt b.bbs (decide (Color.b = Color.w)) m.to_sq).get BK = b.bbs.get BK := rfl
  have e4 : (clearOppAt b.bbs (decide (Color.b = Color.w)) m.to_sq).get BB = b.bbs.get BB := rfl
  have e5 : (clearOppAt b.bbs (decide (Color.b = Color.w)) m.to_sq).get BR = b.bbs.get BR := rfl
  have e6 : (clearOppAt b.bbs (decide (Color.b = Color.w)) m.to_sq).get BQ = b.bbs.get BQ := rfl
  rw [e1, e2, e3, e4, e5, e6] at h
  split_ifs at h <;>
    first
      | contradiction
      | exact ⟨BP, by simp, by assumption⟩
      | exact ⟨BN, by simp, by assumption⟩
      | exact ⟨BK, by simp, by assumption⟩
      | exact ⟨BB, by simp, by assumption⟩
      | exact ⟨BR, by simp, by assumption⟩
      | exact ⟨BQ, by simp, by assumption⟩
      | simp at h

set_option maxHeartbeats 2000000 in
theorem make_move_isSome_of_mem {b : Board} {m : Move}
    (h : m ∈ generate_legal_moves b) : (make_move b m).isSome := by
  have hps := apply_pseudo_isSome_of_keeps (legalityKeeps_of_mem h)
  have hfind : ((if b.side_to_move = Color.w then [WP, WN, WB, WR, WQ, WK]
      else [BP, BN, BB, BR, BQ, BK]).find?
        (fun p => getBit (b.bbs p) m.from_sq)).isSome := by
    rw [List.find?_isSome]
    rcases hside : b.side_to_move with _ | _
    · obtain ⟨p, hp, hbit⟩ := ownpiece_of_apply_pseudo_w hside hps
      rw [if_pos rfl]
      exact ⟨p, hp, hbit⟩
    · obtain ⟨p, hp, hbit⟩ := ownpiece_of_apply_pseudo_b hside hps
      rw [if_neg (by decide)]
      exact ⟨p, hp, hbit⟩
  obtain ⟨mp, hmp⟩ := Option.isSome_iff_exists.mp hfind
  unfold make_move
  dsimp only
  rw [hmp]
  rfl

/-- C9: `Game.apply_move` raises the illegal-move error exactly when the move
is not in the current legal list (structural comparison of origin,
destination, promotion); legality implies the make succeeds and the game is
updated. In this pure embedding an error leaves every field of the `Game`
untouched by construction, which is the atomicity the claim states: the
Python raise happens before any mutation. -/
theorem C9_apply_move_illegal_iff (g : Game) (m : Move) :
    (m ∈ generate_legal_moves g.board →
      ∃ b', make_move g.board m = some b'
        ∧ g.apply_move m = Except.ok
            { board := b'
              move_stack := g.move_stack ++ [m]
              repetition := repSet g.repetition b'.zobrist_hash
                (repGet g.repetition b'.zobrist_hash + 1) })
    ∧ (m ∉ generate_legal_moves g.board →
        g.apply_move m = Except.error "illegal move") := by
  constructor
  · intro hm
    have hsome := make_move_isSome_of_mem (b := g.board) hm
    rcases hmk : make_move g.board m with _ | b'
    · rw [hmk] at hsome
      simp at hsome
    · refine ⟨b', rfl, ?_⟩
      unfold Game.apply_move
      rw [if_pos ((any_structeq_iff _ m).mpr hm)]
      rw [hmk]
  · intro hm
    unfold Game.apply_move
    rw [if_neg (fun hc => hm ((any_structeq_iff _ m).mp hc))]

set_option maxRecDepth 100000 in
set_option maxHeartbeats 2000000 in
/-- Witness for C9: from the starting position, `a1a3` is not legal and the
theorem yields the illegal-move error on it. -/
theorem C9_witness :
    (mkGame startposBoard).apply_move (Move.mk 0 16 none) = Except.error "illegal move" :=
  (C9_apply_move_illegal_iff (mkGame startposBoard) (Move.mk 0 16 none)).2 (by decide)


/-! ### C1: make/unmake round-trip on well-formed positions -/

/-! ### Bit-level lemmas for the make/unmake round-trip -/

theorem getBit_eq_testBit (bb sq : Nat) : getBit bb sq = bb.testBit sq := by
  rw [getBit, Nat.testBit_to_div_mod, Nat.shiftRight_eq_div_pow, Nat.and_one_is_mod]
  rcases Nat.mod_two_eq_zero_or_one (bb / 2 ^ sq) with h | h <;> simp [h]

theorem testBit_setBit (x s j : Nat) :
    (setBit x s).testBit j = (x.testBit j || decide (j = s)) := by
  rw [setBit, Nat.shiftLeft_eq, one_mul, Nat.testBit_lor]
  by_cases h : j = s
  · subst h; simp [Nat.testBit_two_pow_self]
  · simp [Nat.testBit_two_pow_of_ne (Ne.symm h), h]

theorem testBit_clearBit (x s j : Nat) :
    (clearBit x s).testBit j = (x.testBit j && !decide (j = s)) := by
  rw [clearBit, Nat.shiftLeft_eq, one_mul, Nat.testBit_xor, Nat.testBit_lor]
  by_cases h : j = s
  · subst h; simp [Nat.testBit_two_pow_self]
  · simp [Nat.testBit_two_pow_of_ne (Ne.symm h), h]

theorem setBit_clearBit_cancel {x s : Nat} (h : x.testBit s = true) :
    setBit (clearBit x s) s = x :=
  Nat.eq_of_testBit_eq fun j => by
    rw [testBit_setBit, testBit_clearBit]
    by_cases hj : j = s
    · subst hj; simp [h]
    · simp [hj]

theorem clearBit_setBit_cancel {x s : Nat} (h : x.testBit s = false) :
    clearBit (setBit x s) s = x :=
  Nat.eq_of_testBit_eq fun j => by
    rw [testBit_clearBit, testBit_setBit]
    by_cases hj : j = s
    · subst hj; simp [h]
    · simp [hj]

/-! Lowest-set-bit: `lowBit x` is a power of two at a set position of `x`. -/

theorem land_pred_even {y : Nat} (hy : y ≠ 0) :
    (2 * y) &&& (2 * y - 1) = 2 * (y &&& (y - 1)) := by
  have h1 : 2 * y - 1 = 2 * (y - 1) + 1 := by omega
  refine Nat.eq_of_testBit_eq fun j => ?_
  rcases j with _ | j
  · rw [Nat.testBit_land]
    simp [Nat.testBit_zero, Nat.mul_mod_right, h1, Nat.mul_add_mod]
  · rw [Nat.testBit_land, Nat.testBit_succ, Nat.testBit_succ, Nat.testBit_succ, h1,
      Nat.mul_div_cancel_left _ (by norm_num : 0 < 2),
      Nat.mul_div_cancel_left _ (by norm_num : 0 < 2)]
    have : (2 * (y - 1) + 1) / 2 = y - 1 := by omega
    rw [this, Nat.testBit_land]

theorem land_pred_odd (y : Nat) :
    (2 * y + 1) &&& (2 * y + 1 - 1) = 2 * y := by
  refine Nat.eq_of_testBit_eq fun j => ?_
  rcases j with _ | j
  · rw [Nat.testBit_land]
    simp [Nat.testBit_zero, Nat.mul_add_mod, Nat.mul_mod_right]
  · rw [Nat.testBit_land, Nat.testBit_succ, Nat.testBit_succ, Nat.testBit_succ]
    have h2 : (2 * y + 1 + 1 - 1 - 1) / 2 = y := by omega
    have h3 : (2 * y + 1) / 2 = y := by omega
    have h4 : (2 * y) / 2 = y := by omega
    simp only [show 2 * y + 1 - 1 = 2 * y from rfl, h3, h4, Bool.and_self]

theorem lowBit_double {y : Nat} (hy0 : y ≠ 0) : lowBit (2 * y) = 2 * lowBit y := by
  rw [lowBit, lowBit, land_pred_even hy0]
  refine Nat.eq_of_testBit_eq fun j => ?_
  rcases j with _ | j
  · simp [Nat.testBit_zero, Nat.testBit_xor, Nat.mul_mod_right]
  · rw [Nat.testBit_xor, Nat.testBit_succ, Nat.testBit_succ, Nat.testBit_succ,
      Nat.mul_div_cancel_left _ (by norm_num : 0 < 2),
      Nat.mul_div_cancel_left _ (by norm_num : 0 < 2),
      Nat.mul_div_cancel_left _ (by norm_num : 0 < 2), Nat.testBit_xor]

theorem lowBit_odd (y : Nat) : lowBit (2 * y + 1) = 1 := by
  rw [lowBit, land_pred_odd]
  refine Nat.eq_of_testBit_eq fun j => ?_
  rcases j with _ | j
  · simp [Nat.testBit_zero, Nat.testBit_xor, Nat.mul_add_mod, Nat.mul_mod_right]
  · rw [Nat.testBit_xor, Nat.testBit_succ, Nat.testBit_succ,
      show (2 * y + 1) / 2 = y from by omega,
      show (2 * y) / 2 = y from by omega,
      Nat.testBit_succ, show (1 : Nat) / 2 = 0 from rfl, Nat.zero_testBit]
    simp

theorem lowBit_spec : ∀ x : Nat, x ≠ 0 →
    ∃ k, lowBit x = 2 ^ k ∧ x.testBit k = true := by
  intro x
  induction x using Nat.strong_induction_on with
  | _ x ih =>
    intro hx
    rcases Nat.even_or_odd x with ⟨y, hy⟩ | ⟨y, hy⟩
    · have hy0 : y ≠ 0 := by omega
      have hyx : y < x := by omega
      obtain ⟨k, hk1, hk2⟩ := ih y hyx hy0
      refine ⟨k + 1, ?_, ?_⟩
      · rw [hy, show y + y = 2 * y from by ring, lowBit_double hy0, hk1, Nat.pow_succ]
        ring
      · rw [hy, show y + y = 2 * y from by ring, Nat.testBit_succ,
          Nat.mul_div_cancel_left _ (by norm_num : 0 < 2)]
        exact hk2
    · refine ⟨0, ?_, ?_⟩
      · rw [hy, show 2 * y + 1 = 2 * y + 1 from rfl, lowBit_odd, pow_zero]
      · rw [hy, Nat.testBit_zero]
        simp [Nat.mul_add_mod]

theorem bitLength_zero : ∀ fuel, bitLength fuel 0 = 0
  | 0 => rfl
  | _ + 1 => rfl

theorem bitLength_two_pow {k fuel : Nat} (h : k < fuel) :
    bitLength fuel (2 ^ k) = k + 1 := by
  induction fuel generalizing k with
  | zero => omega
  | succ f ih =>
    rw [bitLength]
    rcases k with _ | k
    · rw [pow_zero, if_neg (by omega : ¬(1 : Nat) = 0),
        show (1 : Nat) >>> 1 = 0 from rfl, bitLength_zero]
    · rw [if_neg (by positivity : ¬(2 ^ (k + 1) = 0))]
      have : 2 ^ (k + 1) >>> 1 = 2 ^ k := by
        rw [Nat.shiftRight_succ, Nat.shiftRight_zero, Nat.pow_succ]
        omega
      rw [this, ih (by omega)]

theorem lowBitIdx_testBit {x : Nat} (hx : x ≠ 0) (hx64 : x < 2 ^ 64) :
    x.testBit (lowBitIdx x) = true := by
  obtain ⟨k, hk1, hk2⟩ := lowBit_spec x hx
  have hk64 : k < 64 := by
    by_contra hge
    push_neg at hge
    have : x.testBit k = false :=
      Nat.testBit_eq_false_of_lt
        (lt_of_lt_of_le hx64 (Nat.pow_le_pow_right (by norm_num) hge))
    rw [this] at hk2
    exact Bool.false_ne_true hk2
  rw [lowBitIdx, hk1, bitLength_two_pow hk64]
  exact hk2

theorem xor_lowBit (x : Nat) : x ^^^ lowBit x = x &&& (x - 1) := by
  rw [lowBit, ← Nat.xor_assoc, Nat.xor_self, Nat.zero_xor]

theorem PieceBBs.ext_of_get {a b : PieceBBs} (h : ∀ i : Fin 12, a.get i = b.get i) :
    a = b := by
  obtain ⟨a0, a1, a2, a3, a4, a5, a6, a7, a8, a9, a10, a11⟩ := a
  obtain ⟨b0, b1, b2, b3, b4, b5, b6, b7, b8, b9, b10, b11⟩ := b
  simp only [PieceBBs.mk.injEq]
  exact ⟨h 0, h 1, h 2, h 3, h 4, h 5, h 6, h 7, h 8, h 9, h 10, h 11⟩

theorem get_updBB_same (bbs : PieceBBs) (i : Fin 12) (v : Nat) :
    (updBB bbs i v).get i = v := by
  fin_cases i <;> rfl

theorem get_updBB_ne (bbs : PieceBBs) {i j : Fin 12} (v : Nat) (h : j ≠ i) :
    (updBB bbs i v).get j = bbs.get j := by
  fin_cases i <;> fin_cases j <;> first | rfl | exact absurd rfl h

theorem find?_eq_some_of_unique {l : List (Fin 12)} {pred : Fin 12 → Bool} {p : Fin 12}
    (hp : p ∈ l) (htrue : pred p = true)
    (huniq : ∀ q ∈ l, q ≠ p → pred q = false) :
    l.find? pred = some p := by
  induction l with
  | nil => cases hp
  | cons a t ih =>
    rcases eq_or_ne a p with rfl | hne
    · rw [List.find?_cons_of_pos _ htrue]
    · rw [List.find?_cons_of_neg _ (by simp [huniq a (List.mem_cons_self a t) hne])]
      refine ih ((List.mem_cons.mp hp).resolve_left fun h => hne h.symm) ?_
      exact fun q hq hqp => huniq q (List.mem_cons_of_mem _ hq) hqp

theorem bit_false_of_other {bbs : PieceBBs} {s : Nat}
    (hdisj : ∀ i j : Fin 12, i ≠ j → bbs.get i &&& bbs.get j = 0)
    {p q : Fin 12} (hne : q ≠ p) (hp : getBit (bbs.get p) s = true) :
    getBit (bbs.get q) s = false := by
  have h := hdisj q p hne
  rw [getBit_eq_testBit] at hp ⊢
  by_contra hq
  rw [Bool.not_eq_false] at hq
  have hb : (bbs.get q &&& bbs.get p).testBit s = true := by
    rw [Nat.testBit_land, hq, hp]; rfl
  rw [h, Nat.zero_testBit] at hb
  exact Bool.false_ne_true hb

theorem getBit_lor (a b s : Nat) : getBit (a ||| b) s = (getBit a s || getBit b s) := by
  rw [getBit_eq_testBit, getBit_eq_testBit, getBit_eq_testBit, Nat.testBit_lor]

theorem occWhite_decomp (bbs : PieceBBs) (s : Nat) :
    getBit (occWhite bbs) s
      = (getBit (bbs.get WP) s || getBit (bbs.get WN) s || getBit (bbs.get WB) s
          || getBit (bbs.get WR) s || getBit (bbs.get WQ) s || getBit (bbs.get WK) s) := by
  rw [occWhite]
  simp only [getBit_lor]

theorem occBlack_decomp (bbs : PieceBBs) (s : Nat) :
    getBit (occBlack bbs) s
      = (getBit (bbs.get BP) s || getBit (bbs.get BN) s || getBit (bbs.get BB) s
          || getBit (bbs.get BR) s || getBit (bbs.get BQ) s || getBit (bbs.get BK) s) := by
  rw [occBlack]
  simp only [getBit_lor]

theorem occAll_eq (bbs : PieceBBs) : occAll bbs = occWhite bbs ||| occBlack bbs := by
  have h : occAll bbs
      = 0 ||| bbs.get WP ||| bbs.get WN ||| bbs.get WB ||| bbs.get WR ||| bbs.get WQ
        ||| bbs.get WK ||| bbs.get BP ||| bbs.get BN ||| bbs.get BB ||| bbs.get BR
        ||| bbs.get BQ ||| bbs.get BK := rfl
  have h2 : occWhite bbs = bbs.get WP ||| bbs.get WN ||| bbs.get WB ||| bbs.get WR
      ||| bbs.get WQ ||| bbs.get WK := rfl
  have h3 : occBlack bbs = bbs.get BP ||| bbs.get BN ||| bbs.get BB ||| bbs.get BR
      ||| bbs.get BQ ||| bbs.get BK := rfl
  rw [h, h2, h3]
  refine Nat.eq_of_testBit_eq fun j => ?_
  simp only [Nat.testBit_lor, Nat.zero_testBit, Bool.false_or, Bool.or_assoc]

theorem mem_eachBit {f : Nat → List Move} {bb : Nat} :
    ∀ (fuel : Nat) (x : Nat), x < 2 ^ 64 →
      (∀ j, x.testBit j = true → bb.testBit j = true) →
      ∀ m ∈ eachBit f fuel x, ∃ s, bb.testBit s = true ∧ m ∈ f s := by
  intro fuel
  induction fuel with
  | zero => intro x _ _ m hm; cases hm
  | succ fl ih =>
    intro x hx64 hsub m hm
    rw [eachBit] at hm
    by_cases hx0 : x = 0
    · rw [if_pos hx0] at hm; cases hm
    · rw [if_neg hx0] at hm
      rcases List.mem_append.mp hm with h | h
      · exact ⟨lowBitIdx x, hsub _ (lowBitIdx_testBit hx0 hx64), h⟩
      · refine ih (x ^^^ lowBit x) ?_ ?_ m h
        · rw [xor_lowBit]
          exact lt_of_le_of_lt Nat.and_le_left hx64
        · intro j hj
          rw [xor_lowBit, Nat.testBit_land, Bool.and_eq_true] at hj
          exact hsub j hj.1

theorem mem_eachBit_top {f : Nat → List Move} {bb : Nat} (hbb : bb < 2 ^ 64)
    {m : Move} (hm : m ∈ eachBit f 64 bb) :
    ∃ s, bb.testBit s = true ∧ m ∈ f s :=
  mem_eachBit 64 bb hbb (fun _ h => h) m hm

theorem white_ne_black {p q : Fin 12} (hp : p ∈ ownListW) (hq : q ∈ ownListB) :
    p ≠ q := by
  fin_cases hp <;> fin_cases hq <;> decide

theorem own_false_of_occWhite {bbs : PieceBBs} {s : Nat}
    (h : getBit (occWhite bbs) s = false) :
    ∀ q ∈ ownListW, getBit (bbs.get q) s = false := by
  rw [occWhite_decomp] at h
  intro q hq
  fin_cases hq <;> simp_all

theorem own_false_of_occBlack {bbs : PieceBBs} {s : Nat}
    (h : getBit (occBlack bbs) s = false) :
    ∀ q ∈ ownListB, getBit (bbs.get q) s = false := by
  rw [occBlack_decomp] at h
  intro q hq
  fin_cases hq <;> simp_all

theorem occ_split_of_occAll {bbs : PieceBBs} {s : Nat}
    (h : getBit (occAll bbs) s = false) :
    getBit (occWhite bbs) s = false ∧ getBit (occBlack bbs) s = false := by
  rw [occAll_eq, getBit_lor] at h
  exact ⟨by cases hw : getBit (occWhite bbs) s <;> simp_all,
    by cases hb : getBit (occBlack bbs) s <;> simp_all⟩

theorem exists_black_of_occBlack {bbs : PieceBBs} {s : Nat}
    (hb : getBit (occBlack bbs) s = true) :
    ∃ p ∈ ownListB, getBit (bbs.get p) s = true := by
  rw [occBlack_decomp] at hb
  simp only [Bool.or_eq_true] at hb
  rcases hb with ((((h | h) | h) | h) | h) | h
  · exact ⟨BP, by decide, h⟩
  · exact ⟨BN, by decide, h⟩
  · exact ⟨BB, by decide, h⟩
  · exact ⟨BR, by decide, h⟩
  · exact ⟨BQ, by decide, h⟩
  · exact ⟨BK, by decide, h⟩

theorem exists_white_of_occWhite {bbs : PieceBBs} {s : Nat}
    (hb : getBit (occWhite bbs) s = true) :
    ∃ p ∈ ownListW, getBit (bbs.get p) s = true := by
  rw [occWhite_decomp] at hb
  simp only [Bool.or_eq_true] at hb
  rcases hb with ((((h | h) | h) | h) | h) | h
  · exact ⟨WP, by decide, h⟩
  · exact ⟨WN, by decide, h⟩
  · exact ⟨WB, by decide, h⟩
  · exact ⟨WR, by decide, h⟩
  · exact ⟨WQ, by decide, h⟩
  · exact ⟨WK, by decide, h⟩

theorem white_false_of_black {bbs : PieceBBs} {s : Nat}
    (hdisj : ∀ i j : Fin 12, i ≠ j → bbs.get i &&& bbs.get j = 0)
    (hb : getBit (occBlack bbs) s = true) :
    ∀ q ∈ ownListW, getBit (bbs.get q) s = false := by
  obtain ⟨p, hp, hbit⟩ := exists_black_of_occBlack hb
  exact fun q hq => bit_false_of_other hdisj (white_ne_black hq hp) hbit

theorem black_false_of_white {bbs : PieceBBs} {s : Nat}
    (hdisj : ∀ i j : Fin 12, i ≠ j → bbs.get i &&& bbs.get j = 0)
    (hw : getBit (occWhite bbs) s = true) :
    ∀ q ∈ ownListB, getBit (bbs.get q) s = false := by
  obtain ⟨p, hp, hbit⟩ := exists_white_of_occWhite hw
  exact fun q hq => bit_false_of_other hdisj (Ne.symm (white_ne_black hp hq)) hbit

theorem bool_false_of_not {b : Bool} (h : ¬ b = true) : b = false := by
  cases b
  · rfl
  · exact absurd rfl h

theorem pawnMovesW_facts {pinned : List Nat} {ks : Int} {occ_all occ_black from_sq : Nat}
    {m : Move} (hm : m ∈ pawnMovesW pinned ks occ_all occ_black from_sq) :
    m.from_sq = from_sq ∧ m.from_sq ≠ m.to_sq
    ∧ (getBit occ_all m.to_sq = false ∨ getBit occ_black m.to_sq = true) := by
  unfold pawnMovesW at hm
  dsimp only at hm
  rcases List.mem_append.mp hm with hm | hm
  case inr =>
    split_ifs at hm with h1 h2 h3 h4
    all_goals
      first
        | exact absurd hm (List.not_mem_nil _)
        | (rw [List.mem_map] at hm
           obtain ⟨pr, _, rfl⟩ := hm
           dsimp only
           exact ⟨rfl, by omega, Or.inr h2.2⟩)
        | (rcases List.mem_singleton.mp hm with rfl
           dsimp only
           exact ⟨rfl, by omega, Or.inr h2.2⟩)
  case inl =>
    rcases List.mem_append.mp hm with hm | hm
    case inr =>
      split_ifs at hm with h1 h2 h3 h4
      all_goals
        first
          | exact absurd hm (List.not_mem_nil _)
          | (rw [List.mem_map] at hm
             obtain ⟨pr, _, rfl⟩ := hm
             dsimp only
             exact ⟨rfl, by omega, Or.inr h2.2⟩)
          | (rcases List.mem_singleton.mp hm with rfl
             dsimp only
             exact ⟨rfl, by omega, Or.inr h2.2⟩)
    case inl =>
      split_ifs at hm with h1 h2 h3 h4 h5 h6
      all_goals
        first
          | exact absurd hm (List.not_mem_nil _)
          | (rw [List.mem_map] at hm
             obtain ⟨pr, _, rfl⟩ := hm
             dsimp only
             exact ⟨rfl, by omega, Or.inl (bool_false_of_not h1.2)⟩)
          | (rcases List.mem_cons.mp hm with rfl | hm2
             · dsimp only
               exact ⟨rfl, by omega, Or.inl (bool_false_of_not h1.2)⟩
             · rcases List.mem_singleton.mp hm2 with rfl
               dsimp only
               exact ⟨rfl, by omega, Or.inl (bool_false_of_not h5)⟩)
          | (rcases List.mem_cons.mp hm with rfl | hm2
             · dsimp only
               exact ⟨rfl, by omega, Or.inl (bool_false_of_not h1.2)⟩
             · exact absurd hm2 (List.not_mem_nil _))

theorem pawnMovesB_facts {pinned : List Nat} {ks : Int} {occ_all occ_white from_sq : Nat}
    {m : Move} (hm : m ∈ pawnMovesB pinned ks occ_all occ_white from_sq) :
    m.from_sq = from_sq ∧ m.from_sq ≠ m.to_sq
    ∧ (getBit occ_all m.to_sq = false ∨ getBit occ_white m.to_sq = true) := by
  unfold pawnMovesB at hm
  dsimp only at hm
  rcases List.mem_append.mp hm with hm | hm
  case inr =>
    split_ifs at hm with h1 h2 h3 h4
    all_goals
      first
        | exact absurd hm (List.not_mem_nil _)
        | (rw [List.mem_map] at hm
           obtain ⟨pr, _, rfl⟩ := hm
           obtain ⟨⟨hge, hocc⟩, hr⟩ := h2
           dsimp only
           exact ⟨rfl, by omega, Or.inr hocc⟩)
        | (rcases List.mem_singleton.mp hm with rfl
           obtain ⟨⟨hge, hocc⟩, hr⟩ := h2
           dsimp only
           exact ⟨rfl, by omega, Or.inr hocc⟩)
        | (rw [List.mem_map] at hm
           obtain ⟨pr, _, rfl⟩ := hm
           obtain ⟨hge, hocc⟩ := h2
           dsimp only
           exact ⟨rfl, by omega, Or.inr hocc⟩)
        | (rcases List.mem_singleton.mp hm with rfl
           obtain ⟨hge, hocc⟩ := h2
           dsimp only
           exact ⟨rfl, by omega, Or.inr hocc⟩)
  case inl =>
    rcases List.mem_append.mp hm with hm | hm
    case inr =>
      split_ifs at hm with h1 h2 h3 h4
      all_goals
        first
          | exact absurd hm (List.not_mem_nil _)
          | (rw [List.mem_map] at hm
             obtain ⟨pr, _, rfl⟩ := hm
             obtain ⟨⟨hge, hocc⟩, hr⟩ := h2
             dsimp only
             exact ⟨rfl, by omega, Or.inr hocc⟩)
          | (rcases List.mem_singleton.mp hm with rfl
             obtain ⟨⟨hge, hocc⟩, hr⟩ := h2
             dsimp only
             exact ⟨rfl, by omega, Or.inr hocc⟩)
          | (rw [List.mem_map] at hm
             obtain ⟨pr, _, rfl⟩ := hm
             obtain ⟨hge, hocc⟩ := h2
             dsimp only
             exact ⟨rfl, by omega, Or.inr hocc⟩)
          | (rcases List.mem_singleton.mp hm with rfl
             obtain ⟨hge, hocc⟩ := h2
             dsimp only
             exact ⟨rfl, by omega, Or.inr hocc⟩)
    case inl =>
      split_ifs at hm with h1 h2 h3 h4 h5 h6
      all_goals
        first
          | exact absurd hm (List.not_mem_nil _)
          | (rw [List.mem_map] at hm
             obtain ⟨pr, _, rfl⟩ := hm
             obtain ⟨hge, hocc⟩ := h1
             dsimp only
             exact ⟨rfl, by omega, Or.inl (bool_false_of_not hocc)⟩)
          | (rcases List.mem_cons.mp hm with rfl | hm2
             · obtain ⟨hge, hocc⟩ := h1
               dsimp only
               exact ⟨rfl, by omega, Or.inl (bool_false_of_not hocc)⟩
             · rcases List.mem_singleton.mp hm2 with rfl
               obtain ⟨hge, hocc⟩ := h1
               dsimp only
               exact ⟨rfl, by omega, Or.inl (bool_false_of_not h5)⟩)
          | (rcases List.mem_cons.mp hm with rfl | hm2
             · obtain ⟨hge, hocc⟩ := h1
               dsimp only
               exact ⟨rfl, by omega, Or.inl (bool_false_of_not hocc)⟩
             · exact absurd hm2 (List.not_mem_nil _))

theorem knightMovesFrom_facts {occ_own from_sq : Nat} {m : Move}
    (hm : m ∈ knightMovesFrom occ_own from_sq) :
    m.from_sq = from_sq ∧ m.from_sq ≠ m.to_sq ∧ getBit occ_own m.to_sq = false := by
  unfold knightMovesFrom at hm
  rw [List.mem_filterMap] at hm
  obtain ⟨d, hd, hout⟩ := hm
  fin_cases hd <;>
    (dsimp only at hout
     split_ifs at hout with h1 h2
     all_goals
       first
         | (injection hout with h
            subst h
            simp only [onBoard, fileOf, rankOf, Bool.and_eq_true, decide_eq_true_eq] at h1
            refine ⟨rfl, ?_, bool_false_of_not h2⟩
            simp only [sqOf, fileOf, rankOf]
            omega)
         | injection hout)

theorem slideRay_facts {occ_own occ_opp : Nat} {from_sq : Nat} {df dr : Int}
    (hdir : ¬(df = 0 ∧ dr = 0)) :
    ∀ (fuel : Nat) (tf tr : Int),
      (0 < df → fileOf from_sq ≤ tf) → (df < 0 → tf ≤ fileOf from_sq) →
      (df = 0 → tf = fileOf from_sq) →
      (0 < dr → rankOf from_sq ≤ tr) → (dr < 0 → tr ≤ rankOf from_sq) →
      (dr = 0 → tr = rankOf from_sq) →
      ∀ m ∈ slideRay occ_own occ_opp from_sq df dr fuel tf tr,
        m.from_sq = from_sq ∧ m.from_sq ≠ m.to_sq ∧ getBit occ_own m.to_sq = false := by
  intro fuel
  induction fuel with
  | zero =>
    intro tf tr _ _ _ _ _ _ m hm
    exact absurd hm (List.not_mem_nil _)
  | succ fl ih =>
    intro tf tr ha hb hc hd he hf m hm
    rw [slideRay] at hm
    dsimp only at hm
    split_ifs at hm with h1 h2 h3
    · exact absurd hm (List.not_mem_nil _)
    · exact absurd hm (List.not_mem_nil _)
    all_goals
      have hob : onBoard (tf + df) (tr + dr) = true := by
        cases honb : onBoard (tf + df) (tr + dr)
        · rw [honb] at h1
          exact absurd rfl h1
        · rfl
    all_goals
      simp only [onBoard, fileOf, rankOf, Bool.and_eq_true, decide_eq_true_eq] at hob
    all_goals
      have hA : (0 < df ∧ fileOf from_sq ≤ tf) ∨ (df < 0 ∧ tf ≤ fileOf from_sq)
          ∨ (df = 0 ∧ tf = fileOf from_sq) := by
        rcases lt_trichotomy df 0 with h | h | h
        · exact Or.inr (Or.inl ⟨h, hb h⟩)
        · exact Or.inr (Or.inr ⟨h, hc h⟩)
        · exact Or.inl ⟨h, ha h⟩
    all_goals
      have hB : (0 < dr ∧ rankOf from_sq ≤ tr) ∨ (dr < 0 ∧ tr ≤ rankOf from_sq)
          ∨ (dr = 0 ∧ tr = rankOf from_sq) := by
        rcases lt_trichotomy dr 0 with h | h | h
        · exact Or.inr (Or.inl ⟨h, he h⟩)
        · exact Or.inr (Or.inr ⟨h, hf h⟩)
        · exact Or.inl ⟨h, hd h⟩
    all_goals
      rcases List.mem_cons.mp hm with rfl | hm2
    ·
      refine ⟨rfl, ?_, bool_false_of_not h2⟩
      simp only [sqOf, fileOf, rankOf] at hA hB ⊢
      rcases hA with ⟨hx1, hx2⟩ | ⟨hx1, hx2⟩ | ⟨hx1, hx2⟩ <;>
        rcases hB with ⟨hy1, hy2⟩ | ⟨hy1, hy2⟩ | ⟨hy1, hy2⟩ <;>
        first
          | omega
          | exact absurd ⟨hx1, hy1⟩ hdir
    · exact absurd hm2 (List.not_mem_nil _)
    ·
      refine ⟨rfl, ?_, bool_false_of_not h2⟩
      simp only [sqOf, fileOf, rankOf] at hA hB ⊢
      rcases hA with ⟨hx1, hx2⟩ | ⟨hx1, hx2⟩ | ⟨hx1, hx2⟩ <;>
        rcases hB with ⟨hy1, hy2⟩ | ⟨hy1, hy2⟩ | ⟨hy1, hy2⟩ <;>
        first
          | omega
          | exact absurd ⟨hx1, hy1⟩ hdir
    ·
      refine ih (tf + df) (tr + dr)
        (fun h => by have := ha h; omega) (fun h => by have := hb h; omega)
        (fun h => by have := hc h; omega) (fun h => by have := hd h; omega)
        (fun h => by have := he h; omega) (fun h => by have := hf h; omega) m hm2

theorem sliderMovesFrom_facts {occ_own occ_opp : Nat} {dirs : List (Int × Int)}
    {from_sq : Nat} (hdirs : ∀ d ∈ dirs, ¬(d.1 = 0 ∧ d.2 = 0)) {m : Move}
    (hm : m ∈ sliderMovesFrom occ_own occ_opp dirs from_sq) :
    m.from_sq = from_sq ∧ m.from_sq ≠ m.to_sq ∧ getBit occ_own m.to_sq = false := by
  unfold sliderMovesFrom at hm
  induction dirs with
  | nil => exact absurd hm (List.not_mem_nil _)
  | cons d rest ih =>
    rw [List.foldr_cons] at hm
    rcases List.mem_append.mp hm with h | h
    · exact slideRay_facts (hdirs d (List.mem_cons_self d rest)) 8 _ _
        (fun _ => le_refl _) (fun _ => le_refl _) (fun _ => rfl)
        (fun _ => le_refl _) (fun _ => le_refl _) (fun _ => rfl) m h
    · exact ih (fun d2 hd2 => hdirs d2 (List.mem_cons_of_mem _ hd2)) h

theorem epMovesW_facts {wp : Nat} {ep : Option Nat} {m : Move}
    (hm : m ∈ epMovesW wp ep) :
    ∃ e, ep = some e ∧ m.to_sq = e ∧ m.promotion = none
      ∧ getBit wp m.from_sq = true ∧ m.from_sq ≠ m.to_sq
      ∧ ((m.to_sq : Int) - m.from_sq = 9 ∨ (m.to_sq : Int) - m.from_sq = 7) := by
  unfold epMovesW at hm
  rcases ep with _ | e
  · exact absurd hm (List.not_mem_nil _)
  · dsimp only at hm
    refine ⟨e, rfl, ?_⟩
    rcases List.mem_append.mp hm with h | h <;>
      (split_ifs at h with h1 h2
       all_goals first
         | exact absurd h (List.not_mem_nil _)
         | (rcases List.mem_singleton.mp h with rfl
            obtain ⟨hge, hbit⟩ := h2
            refine ⟨rfl, rfl, hbit, ?_, ?_⟩ <;> (dsimp only; omega)))

theorem epMovesB_facts {bp : Nat} {ep : Option Nat} {m : Move}
    (hm : m ∈ epMovesB bp ep) :
    ∃ e, ep = some e ∧ m.to_sq = e ∧ m.promotion = none
      ∧ getBit bp m.from_sq = true ∧ m.from_sq ≠ m.to_sq
      ∧ ((m.from_sq : Int) - m.to_sq = 9 ∨ (m.from_sq : Int) - m.to_sq = 7) := by
  unfold epMovesB at hm
  rcases ep with _ | e
  · exact absurd hm (List.not_mem_nil _)
  · dsimp only at hm
    refine ⟨e, rfl, ?_⟩
    rcases List.mem_append.mp hm with h | h <;>
      (split_ifs at h with h1 h2
       all_goals first
         | exact absurd h (List.not_mem_nil _)
         | (rcases List.mem_singleton.mp h with rfl
            obtain ⟨hle, hbit⟩ := h2
            refine ⟨rfl, rfl, hbit, ?_, ?_⟩ <;> (dsimp only; omega)))

theorem kingMovesW_facts {bbs : PieceBBs} {c : Castling} {occ_all occ_white : Nat}
    {m : Move} (hm : m ∈ kingMovesW bbs c occ_all occ_white) :
    bbs.get WK ≠ 0 ∧ m.from_sq = lowBitIdx (bbs.get WK) ∧ m.from_sq ≠ m.to_sq
    ∧ m.promotion = none
    ∧ ((getBit occ_white m.to_sq = false ∧ ((m.to_sq : Int) - m.from_sq).natAbs ≠ 2)
       ∨ (m.from_sq = 4 ∧ m.to_sq = 6 ∧ c.K = true
           ∧ getBit occ_all 5 = false ∧ getBit occ_all 6 = false)
       ∨ (m.from_sq = 4 ∧ m.to_sq = 2 ∧ c.Q = true
           ∧ getBit occ_all 3 = false ∧ getBit occ_all 2 = false)) := by
  unfold kingMovesW at hm
  dsimp only at hm
  by_cases h0 : bbs.get WK = 0
  · rw [if_pos h0] at hm
    exact absurd hm (List.not_mem_nil _)
  · rw [if_neg h0] at hm
    refine ⟨h0, ?_⟩
    rcases List.mem_append.mp hm with h | h
    · rw [List.mem_filterMap] at h
      obtain ⟨d, hd, hout⟩ := h
      fin_cases hd <;>
        (dsimp only at hout
         split_ifs at hout with h1 h2
         all_goals
           first
             | (injection hout with hh
                subst hh
                simp only [onBoard, fileOf, rankOf, Bool.and_eq_true,
                  decide_eq_true_eq] at h1
                refine ⟨rfl, ?_, rfl, Or.inl ⟨h2.1 |> bool_false_of_not, ?_⟩⟩
                · simp only [sqOf, fileOf, rankOf]
                  omega
                · simp only [sqOf, fileOf, rankOf]
                  omega)
             | injection hout)
    · split_ifs at h with hc1 hc2 hc3 hc4 hc5
      all_goals
        first
          | exact absurd h (List.not_mem_nil _)
          | (rcases List.mem_append.mp h with h | h <;>
              first
                | exact absurd h (List.not_mem_nil _)
                | (rcases List.mem_singleton.mp h with rfl
                   have hA : lowBitIdx (bbs.get WK) = 4 ∧ ¬isAttacked bbs 4 false = true := ‹_›
                   have hK : c.K = true ∧ ¬getBit occ_all 5 = true
                       ∧ ¬getBit occ_all 6 = true := ‹_›
                   exact ⟨hA.1.symm, by decide, rfl, Or.inr (Or.inl
                     ⟨rfl, rfl, hK.1, bool_false_of_not hK.2.1,
                       bool_false_of_not hK.2.2⟩)⟩)
                | (rcases List.mem_singleton.mp h with rfl
                   have hA : lowBitIdx (bbs.get WK) = 4 ∧ ¬isAttacked bbs 4 false = true := ‹_›
                   have hQ : c.Q = true ∧ ¬getBit occ_all 3 = true
                       ∧ ¬getBit occ_all 2 = true ∧ ¬getBit occ_all 1 = true := ‹_›
                   exact ⟨hA.1.symm, by decide, rfl, Or.inr (Or.inr
                     ⟨rfl, rfl, hQ.1, bool_false_of_not hQ.2.1,
                       bool_false_of_not hQ.2.2.1⟩)⟩))

theorem kingMovesB_facts {bbs : PieceBBs} {c : Castling} {occ_all occ_black : Nat}
    {m : Move} (hm : m ∈ kingMovesB bbs c occ_all occ_black) :
    bbs.get BK ≠ 0 ∧ m.from_sq = lowBitIdx (bbs.get BK) ∧ m.from_sq ≠ m.to_sq
    ∧ m.promotion = none
    ∧ ((getBit occ_black m.to_sq = false ∧ ((m.to_sq : Int) - m.from_sq).natAbs ≠ 2)
       ∨ (m.from_sq = 60 ∧ m.to_sq = 62 ∧ c.k = true
           ∧ getBit occ_all 61 = false ∧ getBit occ_all 62 = false)
       ∨ (m.from_sq = 60 ∧ m.to_sq = 58 ∧ c.q = true
           ∧ getBit occ_all 59 = false ∧ getBit occ_all 58 = false)) := by
  unfold kingMovesB at hm
  dsimp only at hm
  by_cases h0 : bbs.get BK = 0
  · rw [if_pos h0] at hm
    exact absurd hm (List.not_mem_nil _)
  · rw [if_neg h0] at hm
    refine ⟨h0, ?_⟩
    rcases List.mem_append.mp hm with h | h
    · rw [List.mem_filterMap] at h
      obtain ⟨d, hd, hout⟩ := h
      fin_cases hd <;>
        (dsimp only at hout
         split_ifs at hout with h1 h2
         all_goals
           first
             | (injection hout with hh
                subst hh
                simp only [onBoard, fileOf, rankOf, Bool.and_eq_true,
                  decide_eq_true_eq] at h1
                refine ⟨rfl, ?_, rfl, Or.inl ⟨h2.1 |> bool_false_of_not, ?_⟩⟩
                · simp only [sqOf, fileOf, rankOf]
                  omega
                · simp only [sqOf, fileOf, rankOf]
                  omega)
             | injection hout)
    · split_ifs at h with hc1 hc2 hc3 hc4 hc5
      all_goals
        first
          | exact absurd h (List.not_mem_nil _)
          | (rcases List.mem_append.mp h with h | h <;>
              first
                | exact absurd h (List.not_mem_nil _)
                | (rcases List.mem_singleton.mp h with rfl
                   have hA : lowBitIdx (bbs.get BK) = 60 ∧ ¬isAttacked bbs 60 true = true := ‹_›
                   have hK : c.k = true ∧ ¬getBit occ_all 61 = true
                       ∧ ¬getBit occ_all 62 = true := ‹_›
                   exact ⟨hA.1.symm, by decide, rfl, Or.inr (Or.inl
                     ⟨rfl, rfl, hK.1, bool_false_of_not hK.2.1,
                       bool_false_of_not hK.2.2⟩)⟩)
                | (rcases List.mem_singleton.mp h with rfl
                   have hA : lowBitIdx (bbs.get BK) = 60 ∧ ¬isAttacked bbs 60 true = true := ‹_›
                   have hQ : c.q = true ∧ ¬getBit occ_all 59 = true
                       ∧ ¬getBit occ_all 58 = true ∧ ¬getBit occ_all 57 = true := ‹_›
                   exact ⟨hA.1.symm, by decide, rfl, Or.inr (Or.inr
                     ⟨rfl, rfl, hQ.1, bool_false_of_not hQ.2.1,
                       bool_false_of_not hQ.2.2.1⟩)⟩))

theorem pseudoW_MFacts {b : Board} (hwf : wfBoard b) (hside : b.side_to_move = Color.w)
    {m : Move} (hm : m ∈ pseudoMoves b) : ∃ p, MFactsW b m p := by
  obtain ⟨h64, hdisj, hK, hQ, hk, hq, hep⟩ := hwf
  unfold pseudoMoves at hm
  dsimp only at hm
  rw [if_pos hside] at hm
  have hF3occall : ∀ s : Nat, getBit (occAll b.bbs) s = false →
      ∀ q ∈ ownListW, getBit (b.bbs.get q) s = false := fun s hs =>
    own_false_of_occWhite (occ_split_of_occAll hs).1
  have hF3 : ∀ s : Nat,
      (getBit (occAll b.bbs) s = false ∨ getBit (occBlack b.bbs) s = true) →
      ∀ q ∈ ownListW, getBit (b.bbs.get q) s = false := by
    intro s hs
    rcases hs with hs | hs
    · exact hF3occall s hs
    · exact white_false_of_black hdisj hs
  rcases List.mem_append.mp hm with hm | hm
  case inr =>
    -- king section
    obtain ⟨h0, hfrom, hne, hpromo, hdisj2⟩ := kingMovesW_facts hm
    refine ⟨WK, by decide, ?_, hne, ?_, ?_⟩
    · rw [getBit_eq_testBit, hfrom]
      exact lowBitIdx_testBit h0 (h64 WK)
    · rcases hdisj2 with ⟨hocc, _⟩ | ⟨_, hto, _, _, hocc6⟩ | ⟨_, hto, _, _, hocc2⟩
      · exact own_false_of_occWhite hocc
      · rw [hto]
        exact hF3occall 6 hocc6
      · rw [hto]
        exact hF3occall 2 hocc2
    · intro _ habs
      rcases hdisj2 with ⟨_, hnabs⟩ | ⟨hf4, hto, hcK, hocc5, hocc6⟩ | ⟨hf4, hto, hcQ, hocc3, hocc2⟩
      · exact absurd habs hnabs
      · exact Or.inl ⟨hf4, hto, hcK, hocc5, hocc6⟩
      · exact Or.inr ⟨hf4, hto, hcQ, hocc3, hocc2⟩
  rcases List.mem_append.mp hm with hm | hm
  case inr =>
    -- en passant
    obtain ⟨e, heps, hto, hpromo, hbit, hne, _⟩ := epMovesW_facts hm
    have hepw := (hep e heps).1 hside
    refine ⟨WP, by decide, hbit, hne, ?_, fun hpk => absurd hpk (by decide)⟩
    rw [hto]
    exact hF3occall e hepw.2.2
  rcases List.mem_append.mp hm with hm | hm
  case inr =>
    -- queens
    obtain ⟨s, hbit, hm2⟩ := mem_eachBit_top (h64 WQ) hm
    obtain ⟨hfrom, hne, hocc⟩ := sliderMovesFrom_facts (by decide) hm2
    refine ⟨WQ, by decide, ?_, hne, own_false_of_occWhite hocc,
      fun hpk => absurd hpk (by decide)⟩
    rw [getBit_eq_testBit, hfrom]
    exact hbit
  rcases List.mem_append.mp hm with hm | hm
  case inr =>
    -- rooks
    obtain ⟨s, hbit, hm2⟩ := mem_eachBit_top (h64 WR) hm
    obtain ⟨hfrom, hne, hocc⟩ := sliderMovesFrom_facts (by decide) hm2
    refine ⟨WR, by decide, ?_, hne, own_false_of_occWhite hocc,
      fun hpk => absurd hpk (by decide)⟩
    rw [getBit_eq_testBit, hfrom]
    exact hbit
  rcases List.mem_append.mp hm with hm | hm
  case inr =>
    -- bishops
    obtain ⟨s, hbit, hm2⟩ := mem_eachBit_top (h64 WB) hm
    obtain ⟨hfrom, hne, hocc⟩ := sliderMovesFrom_facts (by decide) hm2
    refine ⟨WB, by decide, ?_, hne, own_false_of_occWhite hocc,
      fun hpk => absurd hpk (by decide)⟩
    rw [getBit_eq_testBit, hfrom]
    exact hbit
  rcases List.mem_append.mp hm with hm | hm
  case inr =>
    -- knights
    obtain ⟨s, hbit, hm2⟩ := mem_eachBit_top (h64 WN) hm
    split_ifs at hm2 with hpin
    · exact absurd hm2 (List.not_mem_nil _)
    · obtain ⟨hfrom, hne, hocc⟩ := knightMovesFrom_facts hm2
      refine ⟨WN, by decide, ?_, hne, own_false_of_occWhite hocc,
        fun hpk => absurd hpk (by decide)⟩
      rw [getBit_eq_testBit, hfrom]
      exact hbit
  case inl =>
    -- pawns
    obtain ⟨s, hbit, hm2⟩ := mem_eachBit_top (h64 WP) hm
    obtain ⟨hfrom, hne, hto⟩ := pawnMovesW_facts hm2
    refine ⟨WP, by decide, ?_, hne, hF3 m.to_sq hto,
      fun hpk => absurd hpk (by decide)⟩
    rw [getBit_eq_testBit, hfrom]
    exact hbit

theorem pseudoB_MFacts {b : Board} (hwf : wfBoard b) (hside : b.side_to_move = Color.b)
    {m : Move} (hm : m ∈ pseudoMoves b) : ∃ p, MFactsB b m p := by
  obtain ⟨h64, hdisj, hK, hQ, hk, hq, hep⟩ := hwf
  unfold pseudoMoves at hm
  dsimp only at hm
  rw [if_neg (by rw [hside]; exact fun hcon => Color.noConfusion hcon)] at hm
  have hF3occall : ∀ s : Nat, getBit (occAll b.bbs) s = false →
      ∀ q ∈ ownListB, getBit (b.bbs.get q) s = false := fun s hs =>
    own_false_of_occBlack (occ_split_of_occAll hs).2
  have hF3 : ∀ s : Nat,
      (getBit (occAll b.bbs) s = false ∨ getBit (occWhite b.bbs) s = true) →
      ∀ q ∈ ownListB, getBit (b.bbs.get q) s = false := by
    intro s hs
    rcases hs with hs | hs
    · exact hF3occall s hs
    · exact black_false_of_white hdisj hs
  rcases List.mem_append.mp hm with hm | hm
  case inr =>
    obtain ⟨h0, hfrom, hne, hpromo, hdisj2⟩ := kingMovesB_facts hm
    refine ⟨BK, by decide, ?_, hne, ?_, ?_⟩
    · rw [getBit_eq_testBit, hfrom]
      exact lowBitIdx_testBit h0 (h64 BK)
    · rcases hdisj2 with ⟨hocc, _⟩ | ⟨_, hto, _, _, hocc62⟩ | ⟨_, hto, _, _, hocc58⟩
      · exact own_false_of_occBlack hocc
      · rw [hto]
        exact hF3occall 62 hocc62
      · rw [hto]
        exact hF3occall 58 hocc58
    · intro _ habs
      rcases hdisj2 with ⟨_, hnabs⟩ | ⟨hf60, hto, hck, hocc61, hocc62⟩ | ⟨hf60, hto, hcq, hocc59, hocc58⟩
      · exact absurd habs hnabs
      · exact Or.inl ⟨hf60, hto, hck, hocc61, hocc62⟩
      · exact Or.inr ⟨hf60, hto, hcq, hocc59, hocc58⟩
  rcases List.mem_append.mp hm with hm | hm
  case inr =>
    obtain ⟨e, heps, hto, hpromo, hbit, hne, _⟩ := epMovesB_facts hm
    have hepb := (hep e heps).2 hside
    refine ⟨BP, by decide, hbit, hne, ?_, fun hpk => absurd hpk (by decide)⟩
    rw [hto]
    exact hF3occall e hepb.2.2
  rcases List.mem_append.mp hm with hm | hm
  case inr =>
    obtain ⟨s, hbit, hm2⟩ := mem_eachBit_top (h64 BQ) hm
    obtain ⟨hfrom, hne, hocc⟩ := sliderMovesFrom_facts (by decide) hm2
    refine ⟨BQ, by decide, ?_, hne, own_false_of_occBlack hocc,
      fun hpk => absurd hpk (by decide)⟩
    rw [getBit_eq_testBit, hfrom]
    exact hbit
  rcases List.mem_append.mp hm with hm | hm
  case inr =>
    obtain ⟨s, hbit, hm2⟩ := mem_eachBit_top (h64 BR) hm
    obtain ⟨hfrom, hne, hocc⟩ := sliderMovesFrom_facts (by decide) hm2
    refine ⟨BR, by decide, ?_, hne, own_false_of_occBlack hocc,
      fun hpk => absurd hpk (by decide)⟩
    rw [getBit_eq_testBit, hfrom]
    exact hbit
  rcases List.mem_append.mp hm with hm | hm
  case inr =>
    obtain ⟨s, hbit, hm2⟩ := mem_eachBit_top (h64 BB) hm
    obtain ⟨hfrom, hne, hocc⟩ := sliderMovesFrom_facts (by decide) hm2
    refine ⟨BB, by decide, ?_, hne, own_false_of_occBlack hocc,
      fun hpk => absurd hpk (by decide)⟩
    rw [getBit_eq_testBit, hfrom]
    exact hbit
  rcases List.mem_append.mp hm with hm | hm
  case inr =>
    obtain ⟨s, hbit, hm2⟩ := mem_eachBit_top (h64 BN) hm
    split_ifs at hm2 with hpin
    · exact absurd hm2 (List.not_mem_nil _)
    · obtain ⟨hfrom, hne, hocc⟩ := knightMovesFrom_facts hm2
      refine ⟨BN, by decide, ?_, hne, own_false_of_occBlack hocc,
        fun hpk => absurd hpk (by decide)⟩
      rw [getBit_eq_testBit, hfrom]
      exact hbit
  case inl =>
    obtain ⟨s, hbit, hm2⟩ := mem_eachBit_top (h64 BP) hm
    obtain ⟨hfrom, hne, hto⟩ := pawnMovesB_facts hm2
    refine ⟨BP, by decide, ?_, hne, hF3 m.to_sq hto,
      fun hpk => absurd hpk (by decide)⟩
    rw [getBit_eq_testBit, hfrom]
    exact hbit

set_option maxHeartbeats 2000000 in
theorem roundtrip_w_piece {bbs0 : PieceBBs} {cast0 : Castling} {ep0 : Option Nat}
    {hm0 fm0 : Nat} {hist0 : List Frame} {zh0 : Nat} {m : Move} {p : Fin 12}
    (hfind : List.find? (fun q => getBit (bbs0.get q) m.from_sq)
      [WP, WN, WB, WR, WQ, WK] = some p)
    (hpWP : p ≠ WP) (hpBP : p ≠ BP) (hpBK : p ≠ BK)
    (hnc : ¬(p = WK ∧ ((m.to_sq : Int) - m.from_sq).natAbs = 2))
    (hbit : getBit (bbs0.get p) m.from_sq = true)
    (hto_p : getBit (bbs0.get p) m.to_sq = false) :
    (make_move ⟨bbs0, Color.w, cast0, ep0, hm0, fm0, hist0, zh0⟩ m).bind
      (fun b1 => unmake_move b1 m)
      = some ⟨bbs0, Color.w, cast0, ep0, hm0, fm0, hist0, zh0⟩ := by
  have htp : (bbs0.get p).testBit m.to_sq = false := by
    rw [← getBit_eq_testBit]; exact hto_p
  have hfp : (bbs0.get p).testBit m.from_sq = true := by
    rw [← getBit_eq_testBit]; exact hbit
  have hepneg : ¬((p = WP ∨ p = BP) ∧ ep0 = some m.to_sq) := by
    rintro ⟨h | h, _⟩
    · exact hpWP h
    · exact hpBP h
  unfold make_move
  dsimp only
  simp only [eq_self_iff_true, not_true, false_and, true_and, and_true, if_true, if_false]
  rw [hfind]
  dsimp only
  rw [if_neg hepneg]
  rw [if_neg hpWP, if_neg hpBP]
  rw [if_neg hnc, if_neg (fun h => hpBK h.1)]
  rcases hcap : List.find? (fun q => getBit (bbs0.get q) m.to_sq) [BP, BN, BB, BR, BQ, BK]
    with _ | cp
  · dsimp only
    rw [Option.some_bind]
    unfold unmake_move
    dsimp only
    rw [if_neg hpWP, if_neg hpBP]
    rw [if_neg hnc, if_neg (fun h => hpBK h.1)]
    refine congrArg some ?_
    simp only [Board.mk.injEq]
    refine ⟨?_, trivial, trivial, trivial, trivial, trivial, trivial, trivial⟩
    refine PieceBBs.ext_of_get fun i => ?_
    by_cases hip : i = p
    · subst hip
      simp only [get_updBB_same]
      rw [clearBit_setBit_cancel (by rw [testBit_clearBit, htp]; rfl),
        setBit_clearBit_cancel hfp]
    · simp only [get_updBB_same, get_updBB_ne _ _ hip]
  · dsimp only
    have hcpbit : getBit (bbs0.get cp) m.to_sq = true := by
      have := List.find?_some hcap
      simpa using this
    have hcpmem : cp ∈ ownListB := List.mem_of_find?_eq_some hcap
    have hcpne : cp ≠ p :=
      Ne.symm (white_ne_black (List.mem_of_find?_eq_some hfind) hcpmem)
    have htcp : (bbs0.get cp).testBit m.to_sq = true := by
      rw [← getBit_eq_testBit]; exact hcpbit
    rw [Option.some_bind]
    unfold unmake_move
    dsimp only
    rw [if_neg hpWP, if_neg hpBP]
    rw [if_neg hnc, if_neg (fun h => hpBK h.1)]
    refine congrArg some ?_
    simp only [Board.mk.injEq]
    refine ⟨?_, trivial, trivial, trivial, trivial, trivial, trivial, trivial⟩
    refine PieceBBs.ext_of_get fun i => ?_
    by_cases hip : i = p
    · subst hip
      simp only [get_updBB_same, get_updBB_ne _ _ hcpne, get_updBB_ne _ _ (Ne.symm hcpne)]
      rw [clearBit_setBit_cancel (by rw [testBit_clearBit, htp]; rfl),
        setBit_clearBit_cancel hfp]
    · by_cases hicp : i = cp
      · subst hicp
        simp only [get_updBB_same, get_updBB_ne _ _ hcpne, get_updBB_ne _ _ (Ne.symm hcpne)]
        rw [setBit_clearBit_cancel htcp]
      · simp only [get_updBB_same, get_updBB_ne _ _ hip, get_updBB_ne _ _ hicp]

set_option maxHeartbeats 4000000 in
theorem roundtrip_w_pawn {bbs0 : PieceBBs} {cast0 : Castling} {ep0 : Option Nat}
    {hm0 fm0 : Nat} {hist0 : List Frame} {zh0 : Nat} {m : Move}
    (hfind : List.find? (fun q => getBit (bbs0.get q) m.from_sq)
      [WP, WN, WB, WR, WQ, WK] = some WP)
    (hbit : getBit (bbs0.get WP) m.from_sq = true)
    (hownto : ∀ q ∈ ownListW, getBit (bbs0.get q) m.to_sq = false)
    (hepbp : ep0 = some m.to_sq → getBit (bbs0.get BP) (m.to_sq - 8) = true) :
    (make_move ⟨bbs0, Color.w, cast0, ep0, hm0, fm0, hist0, zh0⟩ m).bind
      (fun b1 => unmake_move b1 m)
      = some ⟨bbs0, Color.w, cast0, ep0, hm0, fm0, hist0, zh0⟩ := by
  have htp : (bbs0.get WP).testBit m.to_sq = false := by
    rw [← getBit_eq_testBit]; exact hownto WP (by decide)
  have hfp : (bbs0.get WP).testBit m.from_sq = true := by
    rw [← getBit_eq_testBit]; exact hbit
  unfold make_move
  try dsimp only
  simp only [eq_self_iff_true, not_true, false_and, true_and, and_true, if_true, if_false]
  rw [hfind]
  try dsimp only
  simp only [eq_self_iff_true, not_true, true_or, false_or, or_false, true_and,
    and_true, false_and, if_true, if_false]
  by_cases hep : ep0 = some m.to_sq
  · rw [if_pos hep]
    by_cases harith : (m.to_sq : Int) - m.from_sq = 7 ∨ (m.to_sq : Int) - m.from_sq = 9
    · rw [if_pos harith]
      have hbp : (bbs0.get BP).testBit (m.to_sq - 8) = true := by
        rw [← getBit_eq_testBit]; exact hepbp hep
      try dsimp only
      rcases hpr : m.promotion with _ | pr
      · dsimp only
        rw [Option.some_bind]
        unfold unmake_move
        try dsimp only
        simp only [eq_self_iff_true, if_true]
        rw [hpr]
        try dsimp only
        refine congrArg some ?_
        simp only [Board.mk.injEq]
        refine ⟨?_, trivial, trivial, trivial, trivial, trivial, trivial, trivial⟩
        rw [apply_ite Prod.fst]
        try dsimp only
        rw [ite_self]
        refine PieceBBs.ext_of_get fun i => ?_
        by_cases hiwp : i = WP
        · subst hiwp
          simp only [get_updBB_same,
            get_updBB_ne _ _ (show WP ≠ BP from by decide),
            get_updBB_ne _ _ (show BP ≠ WP from by decide)]
          rw [clearBit_setBit_cancel (by rw [testBit_clearBit, htp]; rfl),
            setBit_clearBit_cancel hfp]
        · by_cases hibp : i = BP
          · subst hibp
            simp only [get_updBB_same,
              get_updBB_ne _ _ (show BP ≠ WP from by decide)]
            rw [setBit_clearBit_cancel hbp]
          · simp only [get_updBB_same, get_updBB_ne _ _ hiwp, get_updBB_ne _ _ hibp]
      · have hppWP : promoPieceW pr ≠ WP := by rcases pr <;> decide
        have hppBP : promoPieceW pr ≠ BP := by rcases pr <;> decide
        have htpp : (bbs0.get (promoPieceW pr)).testBit m.to_sq = false := by
          rw [← getBit_eq_testBit]
          exact hownto _ (by rcases pr <;> decide)
        try dsimp only
        rw [Option.some_bind]
        unfold unmake_move
        try dsimp only
        simp only [eq_self_iff_true, if_true]
        rw [hpr]
        try dsimp only
        refine congrArg some ?_
        simp only [Board.mk.injEq]
        refine ⟨?_, trivial, trivial, trivial, trivial, trivial, trivial, trivial⟩
        refine PieceBBs.ext_of_get fun i => ?_
        by_cases hiwp : i = WP
        · subst hiwp
          simp only [get_updBB_same,
            get_updBB_ne _ _ (show WP ≠ BP from by decide),
            get_updBB_ne _ _ (show BP ≠ WP from by decide),
            get_updBB_ne _ _ hppWP, get_updBB_ne _ _ (Ne.symm hppWP)]
          rw [setBit_clearBit_cancel hfp]
        · by_cases hibp : i = BP
          · subst hibp
            simp only [get_updBB_same,
              get_updBB_ne _ _ (show BP ≠ WP from by decide),
              get_updBB_ne _ _ hppBP, get_updBB_ne _ _ (Ne.symm hppBP)]
            rw [setBit_clearBit_cancel hbp]
          · by_cases hipp : i = promoPieceW pr
            · subst hipp
              simp only [get_updBB_same, get_updBB_ne _ _ hppWP,
                get_updBB_ne _ _ hppBP]
              rw [clearBit_setBit_cancel htpp]
            · simp only [get_updBB_same, get_updBB_ne _ _ hiwp,
                get_updBB_ne _ _ hibp, get_updBB_ne _ _ hipp]
    · rw [if_neg harith]
      try dsimp only
      rcases hpr : m.promotion with _ | pr
      · dsimp only
        rw [Option.some_bind]
        unfold unmake_move
        try dsimp only
        simp only [eq_self_iff_true, if_true]
        rw [hpr]
        try dsimp only
        refine congrArg some ?_
        simp only [Board.mk.injEq]
        refine ⟨?_, trivial, trivial, trivial, trivial, trivial, trivial, trivial⟩
        rw [apply_ite Prod.fst]
        try dsimp only
        rw [ite_self]
        refine PieceBBs.ext_of_get fun i => ?_
        by_cases hiwp : i = WP
        · subst hiwp
          simp only [get_updBB_same]
          rw [clearBit_setBit_cancel (by rw [testBit_clearBit, htp]; rfl),
            setBit_clearBit_cancel hfp]
        · simp only [get_updBB_same, get_updBB_ne _ _ hiwp]
      · have hppWP : promoPieceW pr ≠ WP := by rcases pr <;> decide
        have htpp : (bbs0.get (promoPieceW pr)).testBit m.to_sq = false := by
          rw [← getBit_eq_testBit]
          exact hownto _ (by rcases pr <;> decide)
        try dsimp only
        rw [Option.some_bind]
        unfold unmake_move
        try dsimp only
        simp only [eq_self_iff_true, if_true]
        rw [hpr]
        try dsimp only
        refine congrArg some ?_
        simp only [Board.mk.injEq]
        refine ⟨?_, trivial, trivial, trivial, trivial, trivial, trivial, trivial⟩
        refine PieceBBs.ext_of_get fun i => ?_
        by_cases hiwp : i = WP
        · subst hiwp
          simp only [get_updBB_same, get_updBB_ne _ _ hppWP,
            get_updBB_ne _ _ (Ne.symm hppWP)]
          rw [setBit_clearBit_cancel hfp]
        · by_cases hipp : i = promoPieceW pr
          · subst hipp
            simp only [get_updBB_same, get_updBB_ne _ _ hppWP]
            rw [clearBit_setBit_cancel htpp]
          · simp only [get_updBB_same, get_updBB_ne _ _ hiwp, get_updBB_ne _ _ hipp]
  · rw [if_neg hep]
    rcases hcap : List.find? (fun q => getBit (bbs0.get q) m.to_sq) [BP, BN, BB, BR, BQ, BK]
      with _ | cp
    · dsimp only
      rcases hpr : m.promotion with _ | pr
      · dsimp only
        rw [Option.some_bind]
        unfold unmake_move
        try dsimp only
        simp only [eq_self_iff_true, if_true]
        rw [hpr]
        try dsimp only
        refine congrArg some ?_
        simp only [Board.mk.injEq]
        refine ⟨?_, trivial, trivial, trivial, trivial, trivial, trivial, trivial⟩
        rw [apply_ite Prod.fst]
        try dsimp only
        rw [ite_self]
        refine PieceBBs.ext_of_get fun i => ?_
        by_cases hiwp : i = WP
        · subst hiwp
          simp only [get_updBB_same]
          rw [clearBit_setBit_cancel (by rw [testBit_clearBit, htp]; rfl),
            setBit_clearBit_cancel hfp]
        · simp only [get_updBB_same, get_updBB_ne _ _ hiwp]
      · have hppWP : promoPieceW pr ≠ WP := by rcases pr <;> decide
        have htpp : (bbs0.get (promoPieceW pr)).testBit m.to_sq = false := by
          rw [← getBit_eq_testBit]
          exact hownto _ (by rcases pr <;> decide)
        try dsimp only
        rw [Option.some_bind]
        unfold unmake_move
        try dsimp only
        simp only [eq_self_iff_true, if_true]
        rw [hpr]
        try dsimp only
        refine congrArg some ?_
        simp only [Board.mk.injEq]
        refine ⟨?_, trivial, trivial, trivial, trivial, trivial, trivial, trivial⟩
        refine PieceBBs.ext_of_get fun i => ?_
        by_cases hiwp : i = WP
        · subst hiwp
          simp only [get_updBB_same, get_updBB_ne _ _ hppWP,
            get_updBB_ne _ _ (Ne.symm hppWP)]
          rw [setBit_clearBit_cancel hfp]
        · by_cases hipp : i = promoPieceW pr
          · subst hipp
            simp only [get_updBB_same, get_updBB_ne _ _ hppWP]
            rw [clearBit_setBit_cancel htpp]
          · simp only [get_updBB_same, get_updBB_ne _ _ hiwp, get_updBB_ne _ _ hipp]
    · dsimp only
      have hcpbit : getBit (bbs0.get cp) m.to_sq = true := by
        have := List.find?_some hcap
        simpa using this
      have hcpmem : cp ∈ ownListB := List.mem_of_find?_eq_some hcap
      have hcpWP : cp ≠ WP := Ne.symm (white_ne_black (by decide) hcpmem)
      have htcp : (bbs0.get cp).testBit m.to_sq = true := by
        rw [← getBit_eq_testBit]; exact hcpbit
      rcases hpr : m.promotion with _ | pr
      · dsimp only
        rw [Option.some_bind]
        unfold unmake_move
        try dsimp only
        simp only [eq_self_iff_true, if_true]
        rw [hpr]
        try dsimp only
        refine congrArg some ?_
        simp only [Board.mk.injEq]
        refine ⟨?_, trivial, trivial, trivial, trivial, trivial, trivial, trivial⟩
        rw [apply_ite Prod.fst]
        try dsimp only
        rw [ite_self]
        refine PieceBBs.ext_of_get fun i => ?_
        by_cases hiwp : i = WP
        · subst hiwp
          simp only [get_updBB_same, get_updBB_ne _ _ hcpWP,
            get_updBB_ne _ _ (Ne.symm hcpWP)]
          rw [clearBit_setBit_cancel (by rw [testBit_clearBit, htp]; rfl),
            setBit_clearBit_cancel hfp]
        · by_cases hicp : i = cp
          · subst hicp
            simp only [get_updBB_same, get_updBB_ne _ _ hcpWP,
              get_updBB_ne _ _ (Ne.symm hcpWP)]
            rw [setBit_clearBit_cancel htcp]
          · simp only [get_updBB_same, get_updBB_ne _ _ hiwp, get_updBB_ne _ _ hicp]
      · have hppWP : promoPieceW pr ≠ WP := by rcases pr <;> decide
        have hppcp : promoPieceW pr ≠ cp :=
          white_ne_black (by rcases pr <;> decide) hcpmem
        have htpp : (bbs0.get (promoPieceW pr)).testBit m.to_sq = false := by
          rw [← getBit_eq_testBit]
          exact hownto _ (by rcases pr <;> decide)
        try dsimp only
        rw [Option.some_bind]
        unfold unmake_move
        try dsimp only
        simp only [eq_self_iff_true, if_true]
        rw [hpr]
        try dsimp only
        refine congrArg some ?_
        simp only [Board.mk.injEq]
        refine ⟨?_, trivial, trivial, trivial, trivial, trivial, trivial, trivial⟩
        refine PieceBBs.ext_of_get fun i => ?_
        by_cases hiwp : i = WP
        · subst hiwp
          simp only [get_updBB_same, get_updBB_ne _ _ hcpWP,
            get_updBB_ne _ _ (Ne.symm hcpWP), get_updBB_ne _ _ hppWP,
            get_updBB_ne _ _ (Ne.symm hppWP)]
          rw [setBit_clearBit_cancel hfp]
        · by_cases hicp : i = cp
          · subst hicp
            simp only [get_updBB_same, get_updBB_ne _ _ hcpWP,
              get_updBB_ne _ _ (Ne.symm hcpWP), get_updBB_ne _ _ hppcp,
              get_updBB_ne _ _ (Ne.symm hppcp)]
            rw [setBit_clearBit_cancel htcp]
          · by_cases hipp : i = promoPieceW pr
            · subst hipp
              simp only [get_updBB_same, get_updBB_ne _ _ hppWP,
                get_updBB_ne _ _ hppcp]
              rw [clearBit_setBit_cancel htpp]
            · simp only [get_updBB_same, get_updBB_ne _ _ hiwp,
                get_updBB_ne _ _ hicp, get_updBB_ne _ _ hipp]

set_option maxHeartbeats 2000000 in
theorem roundtrip_w_castleK {bbs0 : PieceBBs} {cast0 : Castling} {ep0 : Option Nat}
    {hm0 fm0 : Nat} {hist0 : List Frame} {zh0 : Nat} {m : Move}
    (hfind : List.find? (fun q => getBit (bbs0.get q) m.from_sq)
      [WP, WN, WB, WR, WQ, WK] = some WK)
    (hfrom4 : m.from_sq = 4) (hto6 : m.to_sq = 6)
    (hbit : getBit (bbs0.get WK) m.from_sq = true)
    (hK6 : getBit (bbs0.get WK) 6 = false)
    (hR7 : getBit (bbs0.get WR) 7 = true)
    (hR5 : getBit (bbs0.get WR) 5 = false)
    (hcapnone : List.find? (fun q => getBit (bbs0.get q) m.to_sq)
      [BP, BN, BB, BR, BQ, BK] = none) :
    (make_move ⟨bbs0, Color.w, cast0, ep0, hm0, fm0, hist0, zh0⟩ m).bind
      (fun b1 => unmake_move b1 m)
      = some ⟨bbs0, Color.w, cast0, ep0, hm0, fm0, hist0, zh0⟩ := by
  have hk4 : (bbs0.get WK).testBit 4 = true := by
    rw [← getBit_eq_testBit, ← hfrom4]; exact hbit
  have hk6 : (bbs0.get WK).testBit 6 = false := by
    rw [← getBit_eq_testBit]; exact hK6
  have hr7 : (bbs0.get WR).testBit 7 = true := by
    rw [← getBit_eq_testBit]; exact hR7
  have hr5 : (bbs0.get WR).testBit 5 = false := by
    rw [← getBit_eq_testBit]; exact hR5
  unfold make_move
  dsimp only
  simp only [eq_self_iff_true, not_true, true_or, false_or, or_false, true_and,
    and_true, false_and, if_true, if_false]
  rw [hfind]
  dsimp only
  simp only [eq_self_iff_true, not_true, true_or, false_or, or_false, true_and,
    and_true, false_and, if_true, if_false]
  rw [hfrom4, hto6]
  rw [if_neg (show ¬((WK = WP ∨ WK = BP) ∧ ep0 = some 6) from
    fun h => by rcases h.1 with h | h <;> exact absurd h (by decide))]
  rw [hto6] at hcapnone
  rw [hcapnone]
  dsimp only
  rw [if_neg (show ¬(WK = WP) from by decide), if_neg (show ¬(WK = BP) from by decide)]
  rw [if_pos (show ((((6 : Nat) : Int) - ((4 : Nat) : Int)).natAbs = 2) from by decide)]
  rw [if_pos (rfl : (6 : Nat) = 6)]
  rw [Option.some_bind]
  unfold unmake_move
  dsimp only
  rw [hfrom4, hto6]
  rw [if_neg (show ¬(WK = WP) from by decide), if_neg (show ¬(WK = BP) from by decide)]
  rw [if_pos (show WK = WK ∧ ((((6 : Nat) : Int) - ((4 : Nat) : Int)).natAbs = 2) from
    ⟨rfl, by decide⟩)]
  rw [if_pos (rfl : (6 : Nat) = 6)]
  refine congrArg some ?_
  simp only [Board.mk.injEq]
  refine ⟨?_, trivial, trivial, trivial, trivial, trivial, trivial, trivial⟩
  refine PieceBBs.ext_of_get fun i => ?_
  by_cases hiwk : i = WK
  · subst hiwk
    simp only [get_updBB_same, get_updBB_ne _ _ (show WK ≠ WR from by decide),
      get_updBB_ne _ _ (show WR ≠ WK from by decide)]
    rw [clearBit_setBit_cancel (by rw [testBit_clearBit, hk6]; rfl),
      setBit_clearBit_cancel hk4]
  · by_cases hiwr : i = WR
    · subst hiwr
      simp only [get_updBB_same, get_updBB_ne _ _ (show WK ≠ WR from by decide),
        get_updBB_ne _ _ (show WR ≠ WK from by decide)]
      rw [clearBit_setBit_cancel (by rw [testBit_clearBit, hr5]; rfl),
        setBit_clearBit_cancel hr7]
    · simp only [get_updBB_same, get_updBB_ne _ _ hiwk, get_updBB_ne _ _ hiwr]

set_option maxHeartbeats 2000000 in
theorem roundtrip_w_castleQ {bbs0 : PieceBBs} {cast0 : Castling} {ep0 : Option Nat}
    {hm0 fm0 : Nat} {hist0 : List Frame} {zh0 : Nat} {m : Move}
    (hfind : List.find? (fun q => getBit (bbs0.get q) m.from_sq)
      [WP, WN, WB, WR, WQ, WK] = some WK)
    (hfrom4 : m.from_sq = 4) (hto2 : m.to_sq = 2)
    (hbit : getBit (bbs0.get WK) m.from_sq = true)
    (hK2 : getBit (bbs0.get WK) 2 = false)
    (hR0 : getBit (bbs0.get WR) 0 = true)
    (hR3 : getBit (bbs0.get WR) 3 = false)
    (hcapnone : List.find? (fun q => getBit (bbs0.get q) m.to_sq)
      [BP, BN, BB, BR, BQ, BK] = none) :
    (make_move ⟨bbs0, Color.w, cast0, ep0, hm0, fm0, hist0, zh0⟩ m).bind
      (fun b1 => unmake_move b1 m)
      = some ⟨bbs0, Color.w, cast0, ep0, hm0, fm0, hist0, zh0⟩ := by
  have hk4 : (bbs0.get WK).testBit 4 = true := by
    rw [← getBit_eq_testBit, ← hfrom4]; exact hbit
  have hk2 : (bbs0.get WK).testBit 2 = false := by
    rw [← getBit_eq_testBit]; exact hK2
  have hr0 : (bbs0.get WR).testBit 0 = true := by
    rw [← getBit_eq_testBit]; exact hR0
  have hr3 : (bbs0.get WR).testBit 3 = false := by
    rw [← getBit_eq_testBit]; exact hR3
  unfold make_move
  dsimp only
  simp only [eq_self_iff_true, not_true, true_or, false_or, or_false, true_and,
    and_true, false_and, if_true, if_false]
  rw [hfind]
  dsimp only
  simp only [eq_self_iff_true, not_true, true_or, false_or, or_false, true_and,
    and_true, false_and, if_true, if_false]
  rw [hfrom4, hto2]
  rw [if_neg (show ¬((WK = WP ∨ WK = BP) ∧ ep0 = some 2) from
    fun h => by rcases h.1 with h | h <;> exact absurd h (by decide))]
  rw [hto2] at hcapnone
  rw [hcapnone]
  dsimp only
  rw [if_neg (show ¬(WK = WP) from by decide), if_neg (show ¬(WK = BP) from by decide)]
  rw [if_pos (show ((((2 : Nat) : Int) - ((4 : Nat) : Int)).natAbs = 2) from by decide)]
  rw [if_neg (show ¬((2 : Nat) = 6) from by decide)]
  rw [Option.some_bind]
  unfold unmake_move
  dsimp only
  rw [hfrom4, hto2]
  rw [if_neg (show ¬(WK = WP) from by decide), if_neg (show ¬(WK = BP) from by decide)]
  rw [if_pos (show WK = WK ∧ ((((2 : Nat) : Int) - ((4 : Nat) : Int)).natAbs = 2) from
    ⟨rfl, by decide⟩)]
  rw [if_neg (show ¬((2 : Nat) = 6) from by decide)]
  refine congrArg some ?_
  simp only [Board.mk.injEq]
  refine ⟨?_, trivial, trivial, trivial, trivial, trivial, trivial, trivial⟩
  refine PieceBBs.ext_of_get fun i => ?_
  by_cases hiwk : i = WK
  · subst hiwk
    simp only [get_updBB_same, get_updBB_ne _ _ (show WK ≠ WR from by decide),
      get_updBB_ne _ _ (show WR ≠ WK from by decide)]
    rw [clearBit_setBit_cancel (by rw [testBit_clearBit, hk2]; rfl),
      setBit_clearBit_cancel hk4]
  · by_cases hiwr : i = WR
    · subst hiwr
      simp only [get_updBB_same, get_updBB_ne _ _ (show WK ≠ WR from by decide),
        get_updBB_ne _ _ (show WR ≠ WK from by decide)]
      rw [clearBit_setBit_cancel (by rw [testBit_clearBit, hr3]; rfl),
        setBit_clearBit_cancel hr0]
    · simp only [get_updBB_same, get_updBB_ne _ _ hiwk, get_updBB_ne _ _ hiwr]

set_option maxHeartbeats 2000000 in
theorem roundtrip_b_piece {bbs0 : PieceBBs} {cast0 : Castling} {ep0 : Option Nat}
    {hm0 fm0 : Nat} {hist0 : List Frame} {zh0 : Nat} {m : Move} {p : Fin 12}
    (hfind : List.find? (fun q => getBit (bbs0.get q) m.from_sq)
      [BP, BN, BB, BR, BQ, BK] = some p)
    (hpWP : p ≠ WP) (hpBP : p ≠ BP) (hpWK : p ≠ WK)
    (hnc : ¬(p = BK ∧ ((m.to_sq : Int) - m.from_sq).natAbs = 2))
    (hbit : getBit (bbs0.get p) m.from_sq = true)
    (hto_p : getBit (bbs0.get p) m.to_sq = false) :
    (make_move ⟨bbs0, Color.b, cast0, ep0, hm0, fm0, hist0, zh0⟩ m).bind
      (fun b1 => unmake_move b1 m)
      = some ⟨bbs0, Color.b, cast0, ep0, hm0, fm0, hist0, zh0⟩ := by
  have htp : (bbs0.get p).testBit m.to_sq = false := by
    rw [← getBit_eq_testBit]; exact hto_p
  have hfp : (bbs0.get p).testBit m.from_sq = true := by
    rw [← getBit_eq_testBit]; exact hbit
  have hepneg : ¬((p = WP ∨ p = BP) ∧ ep0 = some m.to_sq) := by
    rintro ⟨h | h, _⟩
    · exact hpWP h
    · exact hpBP h
  unfold make_move
  dsimp only
  simp only [show (Color.b = Color.w) ↔ False from by decide, not_false_iff,
    eq_self_iff_true, not_true, true_or, false_or, or_false, true_and, and_true,
    false_and, and_false, if_true, if_false]
  rw [hfind]
  dsimp only
  rw [if_neg hepneg]
  rw [if_neg hpWP, if_neg hpBP]
  rw [if_neg (fun h => hpWK h.1), if_neg hnc]
  rcases hcap : List.find? (fun q => getBit (bbs0.get q) m.to_sq) [WP, WN, WB, WR, WQ, WK]
    with _ | cp
  · dsimp only
    rw [Option.some_bind]
    unfold unmake_move
    dsimp only
    rw [if_neg hpWP, if_neg hpBP]
    rw [if_neg (fun h => hpWK h.1), if_neg hnc]
    refine congrArg some ?_
    simp only [Board.mk.injEq]
    refine ⟨?_, trivial, trivial, trivial, trivial, trivial, trivial, trivial⟩
    refine PieceBBs.ext_of_get fun i => ?_
    by_cases hip : i = p
    · subst hip
      simp only [get_updBB_same]
      rw [clearBit_setBit_cancel (by rw [testBit_clearBit, htp]; rfl),
        setBit_clearBit_cancel hfp]
    · simp only [get_updBB_same, get_updBB_ne _ _ hip]
  · dsimp only
    have hcpbit : getBit (bbs0.get cp) m.to_sq = true := by
      have := List.find?_some hcap
      simpa using this
    have hcpmem : cp ∈ ownListW := List.mem_of_find?_eq_some hcap
    have hcpne : cp ≠ p := white_ne_black hcpmem (List.mem_of_find?_eq_some hfind)
    have htcp : (bbs0.get cp).testBit m.to_sq = true := by
      rw [← getBit_eq_testBit]; exact hcpbit
    rw [Option.some_bind]
    unfold unmake_move
    dsimp only
    rw [if_neg hpWP, if_neg hpBP]
    rw [if_neg (fun h => hpWK h.1), if_neg hnc]
    refine congrArg some ?_
    simp only [Board.mk.injEq]
    refine ⟨?_, trivial, trivial, trivial, trivial, trivial, trivial, trivial⟩
    refine PieceBBs.ext_of_get fun i => ?_
    by_cases hip : i = p
    · subst hip
      simp only [get_updBB_same, get_updBB_ne _ _ hcpne, get_updBB_ne _ _ (Ne.symm hcpne)]
      rw [clearBit_setBit_cancel (by rw [testBit_clearBit, htp]; rfl),
        setBit_clearBit_cancel hfp]
    · by_cases hicp : i = cp
      · subst hicp
        simp only [get_updBB_same, get_updBB_ne _ _ hcpne, get_updBB_ne _ _ (Ne.symm hcpne)]
        rw [setBit_clearBit_cancel htcp]
      · simp only [get_updBB_same, get_updBB_ne _ _ hip, get_updBB_ne _ _ hicp]

set_option maxHeartbeats 4000000 in
theorem roundtrip_b_pawn {bbs0 : PieceBBs} {cast0 : Castling} {ep0 : Option Nat}
    {hm0 fm0 : Nat} {hist0 : List Frame} {zh0 : Nat} {m : Move}
    (hfind : List.find? (fun q => getBit (bbs0.get q) m.from_sq)
      [BP, BN, BB, BR, BQ, BK] = some BP)
    (hbit : getBit (bbs0.get BP) m.from_sq = true)
    (hownto : ∀ q ∈ ownListB, getBit (bbs0.get q) m.to_sq = false)
    (hepwp : ep0 = some m.to_sq → getBit (bbs0.get WP) (m.to_sq + 8) = true) :
    (make_move ⟨bbs0, Color.b, cast0, ep0, hm0, fm0, hist0, zh0⟩ m).bind
      (fun b1 => unmake_move b1 m)
      = some ⟨bbs0, Color.b, cast0, ep0, hm0, fm0, hist0, zh0⟩ := by
  have htp : (bbs0.get BP).testBit m.to_sq = false := by
    rw [← getBit_eq_testBit]; exact hownto BP (by decide)
  have hfp : (bbs0.get BP).testBit m.from_sq = true := by
    rw [← getBit_eq_testBit]; exact hbit
  unfold make_move
  dsimp only
  simp only [show (Color.b = Color.w) ↔ False from by decide, not_false_iff,
    eq_self_iff_true, not_true, true_or, or_true, false_or, or_false, true_and,
    and_true, false_and, and_false, if_true, if_false]
  rw [hfind]
  dsimp only
  simp only [show (BP = WP) ↔ False from by decide, not_false_iff,
    eq_self_iff_true, not_true, true_or, or_true, false_or, or_false, true_and,
    and_true, false_and, and_false, if_true, if_false]
  by_cases hep : ep0 = some m.to_sq
  · rw [if_pos hep]
    by_cases harith : (m.from_sq : Int) - m.to_sq = 7 ∨ (m.from_sq : Int) - m.to_sq = 9
    · rw [if_pos harith]
      have hwp : (bbs0.get WP).testBit (m.to_sq + 8) = true := by
        rw [← getBit_eq_testBit]; exact hepwp hep
      try dsimp only
      rcases hpr : m.promotion with _ | pr
      · try dsimp only
        rw [Option.some_bind]
        unfold unmake_move
        dsimp only
        rw [if_neg (show ¬(BP = WP) from by decide)]
        simp only [eq_self_iff_true, if_true]
        rw [hpr]
        try dsimp only
        refine congrArg some ?_
        simp only [Board.mk.injEq]
        refine ⟨?_, trivial, trivial, trivial, trivial, trivial, trivial, trivial⟩
        rw [apply_ite Prod.fst]
        try dsimp only
        rw [ite_self]
        refine PieceBBs.ext_of_get fun i => ?_
        by_cases hibp : i = BP
        · subst hibp
          simp only [get_updBB_same,
            get_updBB_ne _ _ (show BP ≠ WP from by decide),
            get_updBB_ne _ _ (show WP ≠ BP from by decide)]
          rw [clearBit_setBit_cancel (by rw [testBit_clearBit, htp]; rfl),
            setBit_clearBit_cancel hfp]
        · by_cases hiwp : i = WP
          · subst hiwp
            simp only [get_updBB_same,
              get_updBB_ne _ _ (show WP ≠ BP from by decide)]
            rw [setBit_clearBit_cancel hwp]
          · simp only [get_updBB_same, get_updBB_ne _ _ hibp, get_updBB_ne _ _ hiwp]
      · have hppBP : promoPieceB pr ≠ BP := by rcases pr <;> decide
        have hppWP : promoPieceB pr ≠ WP := by rcases pr <;> decide
        have htpp : (bbs0.get (promoPieceB pr)).testBit m.to_sq = false := by
          rw [← getBit_eq_testBit]
          exact hownto _ (by rcases pr <;> decide)
        try dsimp only
        rw [Option.some_bind]
        unfold unmake_move
        dsimp only
        rw [if_neg (show ¬(BP = WP) from by decide)]
        simp only [eq_self_iff_true, if_true]
        rw [hpr]
        try dsimp only
        refine congrArg some ?_
        simp only [Board.mk.injEq]
        refine ⟨?_, trivial, trivial, trivial, trivial, trivial, trivial, trivial⟩
        refine PieceBBs.ext_of_get fun i => ?_
        by_cases hibp : i = BP
        · subst hibp
          simp only [get_updBB_same,
            get_updBB_ne _ _ (show BP ≠ WP from by decide),
            get_updBB_ne _ _ (show WP ≠ BP from by decide),
            get_updBB_ne _ _ hppBP, get_updBB_ne _ _ (Ne.symm hppBP)]
          rw [setBit_clearBit_cancel hfp]
        · by_cases hiwp : i = WP
          · subst hiwp
            simp only [get_updBB_same,
              get_updBB_ne _ _ (show WP ≠ BP from by decide),
              get_updBB_ne _ _ hppWP, get_updBB_ne _ _ (Ne.symm hppWP)]
            rw [setBit_clearBit_cancel hwp]
          · by_cases hipp : i = promoPieceB pr
            · subst hipp
              simp only [get_updBB_same, get_updBB_ne _ _ hppBP,
                get_updBB_ne _ _ hppWP]
              rw [clearBit_setBit_cancel htpp]
            · simp only [get_updBB_same, get_updBB_ne _ _ hibp,
                get_updBB_ne _ _ hiwp, get_updBB_ne _ _ hipp]
    · rw [if_neg harith]
      try dsimp only
      rcases hpr : m.promotion with _ | pr
      · try dsimp only
        rw [Option.some_bind]
        unfold unmake_move
        dsimp only
        rw [if_neg (show ¬(BP = WP) from by decide)]
        simp only [eq_self_iff_true, if_true]
        rw [hpr]
        try dsimp only
        refine congrArg some ?_
        simp only [Board.mk.injEq]
        refine ⟨?_, trivial, trivial, trivial, trivial, trivial, trivial, trivial⟩
        rw [apply_ite Prod.fst]
        try dsimp only
        rw [ite_self]
        refine PieceBBs.ext_of_get fun i => ?_
        by_cases hibp : i = BP
        · subst hibp
          simp only [get_updBB_same]
          rw [clearBit_setBit_cancel (by rw [testBit_clearBit, htp]; rfl),
            setBit_clearBit_cancel hfp]
        · simp only [get_updBB_same, get_updBB_ne _ _ hibp]
      · have hppBP : promoPieceB pr ≠ BP := by rcases pr <;> decide
        have htpp : (bbs0.get (promoPieceB pr)).testBit m.to_sq = false := by
          rw [← getBit_eq_testBit]
          exact hownto _ (by rcases pr <;> decide)
        try dsimp only
        rw [Option.some_bind]
        unfold unmake_move
        dsimp only
        rw [if_neg (show ¬(BP = WP) from by decide)]
        simp only [eq_self_iff_true, if_true]
        rw [hpr]
        try dsimp only
        refine congrArg some ?_
        simp only [Board.mk.injEq]
        refine ⟨?_, trivial, trivial, trivial, trivial, trivial, trivial, trivial⟩
        refine PieceBBs.ext_of_get fun i => ?_
        by_cases hibp : i = BP
        · subst hibp
          simp only [get_updBB_same, get_updBB_ne _ _ hppBP,
            get_updBB_ne _ _ (Ne.symm hppBP)]
          rw [setBit_clearBit_cancel hfp]
        · by_cases hipp : i = promoPieceB pr
          · subst hipp
            simp only [get_updBB_same, get_updBB_ne _ _ hppBP]
            rw [clearBit_setBit_cancel htpp]
          · simp only [get_updBB_same, get_updBB_ne _ _ hibp, get_updBB_ne _ _ hipp]
  · rw [if_neg hep]
    rcases hcap : List.find? (fun q => getBit (bbs0.get q) m.to_sq) [WP, WN, WB, WR, WQ, WK]
      with _ | cp
    · try dsimp only
      rcases hpr : m.promotion with _ | pr
      · try dsimp only
        rw [Option.some_bind]
        unfold unmake_move
        dsimp only
        rw [if_neg (show ¬(BP = WP) from by decide)]
        simp only [eq_self_iff_true, if_true]
        rw [hpr]
        try dsimp only
        refine congrArg some ?_
        simp only [Board.mk.injEq]
        refine ⟨?_, trivial, trivial, trivial, trivial, trivial, trivial, trivial⟩
        rw [apply_ite Prod.fst]
        try dsimp only
        rw [ite_self]
        refine PieceBBs.ext_of_get fun i => ?_
        by_cases hibp : i = BP
        · subst hibp
          simp only [get_updBB_same]
          rw [clearBit_setBit_cancel (by rw [testBit_clearBit, htp]; rfl),
            setBit_clearBit_cancel hfp]
        · simp only [get_updBB_same, get_updBB_ne _ _ hibp]
      · have hppBP : promoPieceB pr ≠ BP := by rcases pr <;> decide
        have htpp : (bbs0.get (promoPieceB pr)).testBit m.to_sq = false := by
          rw [← getBit_eq_testBit]
          exact hownto _ (by rcases pr <;> decide)
        try dsimp only
        rw [Option.some_bind]
        unfold unmake_move
        dsimp only
        rw [if_neg (show ¬(BP = WP) from by decide)]
        simp only [eq_self_iff_true, if_true]
        rw [hpr]
        try dsimp only
        refine congrArg some ?_
        simp only [Board.mk.injEq]
        refine ⟨?_, trivial, trivial, trivial, trivial, trivial, trivial, trivial⟩
        refine PieceBBs.ext_of_get fun i => ?_
        by_cases hibp : i = BP
        · subst hibp
          simp only [get_updBB_same, get_updBB_ne _ _ hppBP,
            get_updBB_ne _ _ (Ne.symm hppBP)]
          rw [setBit_clearBit_cancel hfp]
        · by_cases hipp : i = promoPieceB pr
          · subst hipp
            simp only [get_updBB_same, get_updBB_ne _ _ hppBP]
            rw [clearBit_setBit_cancel htpp]
          · simp only [get_updBB_same, get_updBB_ne _ _ hibp, get_updBB_ne _ _ hipp]
    · try dsimp only
      have hcpbit : getBit (bbs0.get cp) m.to_sq = true := by
        have := List.find?_some hcap
        simpa using this
      have hcpmem : cp ∈ ownListW := List.mem_of_find?_eq_some hcap
      have hcpBP : cp ≠ BP := white_ne_black hcpmem (by decide)
      have htcp : (bbs0.get cp).testBit m.to_sq = true := by
        rw [← getBit_eq_testBit]; exact hcpbit
      rcases hpr : m.promotion with _ | pr
      · try dsimp only
        rw [Option.some_bind]
        unfold unmake_move
        dsimp only
        rw [if_neg (show ¬(BP = WP) from by decide)]
        simp only [eq_self_iff_true, if_true]
        rw [hpr]
        try dsimp only
        refine congrArg some ?_
        simp only [Board.mk.injEq]
        refine ⟨?_, trivial, trivial, trivial, trivial, trivial, trivial, trivial⟩
        rw [apply_ite Prod.fst]
        try dsimp only
        rw [ite_self]
        refine PieceBBs.ext_of_get fun i => ?_
        by_cases hibp : i = BP
        · subst hibp
          simp only [get_updBB_same, get_updBB_ne _ _ hcpBP,
            get_updBB_ne _ _ (Ne.symm hcpBP)]
          rw [clearBit_setBit_cancel (by rw [testBit_clearBit, htp]; rfl),
            setBit_clearBit_cancel hfp]
        · by_cases hicp : i = cp
          · subst hicp
            simp only [get_updBB_same, get_updBB_ne _ _ hcpBP,
              get_updBB_ne _ _ (Ne.symm hcpBP)]
            rw [setBit_clearBit_cancel htcp]
          · simp only [get_updBB_same, get_updBB_ne _ _ hibp, get_updBB_ne _ _ hicp]
      · have hppBP : promoPieceB pr ≠ BP := by rcases pr <;> decide
        have hppcp : cp ≠ promoPieceB pr :=
          white_ne_black hcpmem (by rcases pr <;> decide)
        have htpp : (bbs0.get (promoPieceB pr)).testBit m.to_sq = false := by
          rw [← getBit_eq_testBit]
          exact hownto _ (by rcases pr <;> decide)
        try dsimp only
        rw [Option.some_bind]
        unfold unmake_move
        dsimp only
        rw [if_neg (show ¬(BP = WP) from by decide)]
        simp only [eq_self_iff_true, if_true]
        rw [hpr]
        try dsimp only
        refine congrArg some ?_
        simp only [Board.mk.injEq]
        refine ⟨?_, trivial, trivial, trivial, trivial, trivial, trivial, trivial⟩
        refine PieceBBs.ext_of_get fun i => ?_
        by_cases hibp : i = BP
        · subst hibp
          simp only [get_updBB_same, get_updBB_ne _ _ hcpBP,
            get_updBB_ne _ _ (Ne.symm hcpBP), get_updBB_ne _ _ hppBP,
            get_updBB_ne _ _ (Ne.symm hppBP)]
          rw [setBit_clearBit_cancel hfp]
        · by_cases hicp : i = cp
          · subst hicp
            simp only [get_updBB_same, get_updBB_ne _ _ hcpBP,
              get_updBB_ne _ _ (Ne.symm hcpBP), get_updBB_ne _ _ hppcp,
              get_updBB_ne _ _ (Ne.symm hppcp)]
            rw [setBit_clearBit_cancel htcp]
          · by_cases hipp : i = promoPieceB pr
            · subst hipp
              simp only [get_updBB_same, get_updBB_ne _ _ hppBP,
                get_updBB_ne _ _ (Ne.symm hppcp)]
              rw [clearBit_setBit_cancel htpp]
            · simp only [get_updBB_same, get_updBB_ne _ _ hibp,
                get_updBB_ne _ _ hicp, get_updBB_ne _ _ hipp]

set_option maxHeartbeats 2000000 in
theorem roundtrip_b_castlek {bbs0 : PieceBBs} {cast0 : Castling} {ep0 : Option Nat}
    {hm0 fm0 : Nat} {hist0 : List Frame} {zh0 : Nat} {m : Move}
    (hfind : List.find? (fun q => getBit (bbs0.get q) m.from_sq)
      [BP, BN, BB, BR, BQ, BK] = some BK)
    (hfrom60 : m.from_sq = 60) (hto62 : m.to_sq = 62)
    (hbit : getBit (bbs0.get BK) m.from_sq = true)
    (hK62 : getBit (bbs0.get BK) 62 = false)
    (hR63 : getBit (bbs0.get BR) 63 = true)
    (hR61 : getBit (bbs0.get BR) 61 = false)
    (hcapnone : List.find? (fun q => getBit (bbs0.get q) m.to_sq)
      [WP, WN, WB, WR, WQ, WK] = none) :
    (make_move ⟨bbs0, Color.b, cast0, ep0, hm0, fm0, hist0, zh0⟩ m).bind
      (fun b1 => unmake_move b1 m)
      = some ⟨bbs0, Color.b, cast0, ep0, hm0, fm0, hist0, zh0⟩ := by
  have hk60 : (bbs0.get BK).testBit 60 = true := by
    rw [← getBit_eq_testBit, ← hfrom60]; exact hbit
  have hk62 : (bbs0.get BK).testBit 62 = false := by
    rw [← getBit_eq_testBit]; exact hK62
  have hr63 : (bbs0.get BR).testBit 63 = true := by
    rw [← getBit_eq_testBit]; exact hR63
  have hr61 : (bbs0.get BR).testBit 61 = false := by
    rw [← getBit_eq_testBit]; exact hR61
  unfold make_move
  dsimp only
  simp only [show (Color.b = Color.w) ↔ False from by decide, not_false_iff,
    eq_self_iff_true, not_true, true_or, or_true, false_or, or_false, true_and,
    and_true, false_and, and_false, if_true, if_false]
  rw [hfind]
  dsimp only
  rw [hfrom60, hto62]
  rw [if_neg (show ¬((BK = WP ∨ BK = BP) ∧ ep0 = some 62) from
    fun h => by rcases h.1 with h | h <;> exact absurd h (by decide))]
  rw [hto62] at hcapnone
  rw [hcapnone]
  dsimp only
  rw [if_neg (show ¬(BK = WP) from by decide), if_neg (show ¬(BK = BP) from by decide)]
  rw [if_neg (show ¬(BK = WK ∧ ((((62 : Nat) : Int) - ((60 : Nat) : Int)).natAbs = 2)) from
    fun h => absurd h.1 (by decide))]
  rw [if_pos (show BK = BK ∧ ((((62 : Nat) : Int) - ((60 : Nat) : Int)).natAbs = 2) from
    ⟨rfl, by decide⟩)]
  rw [if_pos (rfl : (62 : Nat) = 62)]
  rw [Option.some_bind]
  unfold unmake_move
  dsimp only
  rw [hfrom60, hto62]
  rw [if_neg (show ¬(BK = WP) from by decide), if_neg (show ¬(BK = BP) from by decide)]
  rw [if_neg (show ¬(BK = WK ∧ ((((62 : Nat) : Int) - ((60 : Nat) : Int)).natAbs = 2)) from
    fun h => absurd h.1 (by decide))]
  rw [if_pos (show BK = BK ∧ ((((62 : Nat) : Int) - ((60 : Nat) : Int)).natAbs = 2) from
    ⟨rfl, by decide⟩)]
  rw [if_pos (rfl : (62 : Nat) = 62)]
  refine congrArg some ?_
  simp only [Board.mk.injEq]
  refine ⟨?_, trivial, trivial, trivial, trivial, trivial, trivial, trivial⟩
  refine PieceBBs.ext_of_get fun i => ?_
  by_cases hibk : i = BK
  · subst hibk
    simp only [get_updBB_same, get_updBB_ne _ _ (show BK ≠ BR from by decide),
      get_updBB_ne _ _ (show BR ≠ BK from by decide)]
    rw [clearBit_setBit_cancel (by rw [testBit_clearBit, hk62]; rfl),
      setBit_clearBit_cancel hk60]
  · by_cases hibr : i = BR
    · subst hibr
      simp only [get_updBB_same, get_updBB_ne _ _ (show BK ≠ BR from by decide),
        get_updBB_ne _ _ (show BR ≠ BK from by decide)]
      rw [clearBit_setBit_cancel (by rw [testBit_clearBit, hr61]; rfl),
        setBit_clearBit_cancel hr63]
    · simp only [get_updBB_same, get_updBB_ne _ _ hibk, get_updBB_ne _ _ hibr]

set_option maxHeartbeats 2000000 in
theorem roundtrip_b_castleq {bbs0 : PieceBBs} {cast0 : Castling} {ep0 : Option Nat}
    {hm0 fm0 : Nat} {hist0 : List Frame} {zh0 : Nat} {m : Move}
    (hfind : List.find? (fun q => getBit (bbs0.get q) m.from_sq)
      [BP, BN, BB, BR, BQ, BK] = some BK)
    (hfrom60 : m.from_sq = 60) (hto58 : m.to_sq = 58)
    (hbit : getBit (bbs0.get BK) m.from_sq = true)
    (hK58 : getBit (bbs0.get BK) 58 = false)
    (hR56 : getBit (bbs0.get BR) 56 = true)
    (hR59 : getBit (bbs0.get BR) 59 = false)
    (hcapnone : List.find? (fun q => getBit (bbs0.get q) m.to_sq)
      [WP, WN, WB, WR, WQ, WK] = none) :
    (make_move ⟨bbs0, Color.b, cast0, ep0, hm0, fm0, hist0, zh0⟩ m).bind
      (fun b1 => unmake_move b1 m)
      = some ⟨bbs0, Color.b, cast0, ep0, hm0, fm0, hist0, zh0⟩ := by
  have hk60 : (bbs0.get BK).testBit 60 = true := by
    rw [← getBit_eq_testBit, ← hfrom60]; exact hbit
  have hk58 : (bbs0.get BK).testBit 58 = false := by
    rw [← getBit_eq_testBit]; exact hK58
  have hr56 : (bbs0.get BR).testBit 56 = true := by
    rw [← getBit_eq_testBit]; exact hR56
  have hr59 : (bbs0.get BR).testBit 59 = false := by
    rw [← getBit_eq_testBit]; exact hR59
  unfold make_move
  dsimp only
  simp only [show (Color.b = Color.w) ↔ False from by decide, not_false_iff,
    eq_self_iff_true, not_true, true_or, or_true, false_or, or_false, true_and,
    and_true, false_and, and_false, if_true, if_false]
  rw [hfind]
  dsimp only
  rw [hfrom60, hto58]
  rw [if_neg (show ¬((BK = WP ∨ BK = BP) ∧ ep0 = some 58) from
    fun h => by rcases h.1 with h | h <;> exact absurd h (by decide))]
  rw [hto58] at hcapnone
  rw [hcapnone]
  dsimp only
  rw [if_neg (show ¬(BK = WP) from by decide), if_neg (show ¬(BK = BP) from by decide)]
  rw [if_neg (show ¬(BK = WK ∧ ((((58 : Nat) : Int) - ((60 : Nat) : Int)).natAbs = 2)) from
    fun h => absurd h.1 (by decide))]
  rw [if_pos (show BK = BK ∧ ((((58 : Nat) : Int) - ((60 : Nat) : Int)).natAbs = 2) from
    ⟨rfl, by decide⟩)]
  rw [if_neg (show ¬((58 : Nat) = 62) from by decide)]
  try rw [if_pos (rfl : (58 : Nat) = 58)]
  rw [Option.some_bind]
  unfold unmake_move
  dsimp only
  rw [hfrom60, hto58]
  rw [if_neg (show ¬(BK = WP) from by decide), if_neg (show ¬(BK = BP) from by decide)]
  rw [if_neg (show ¬(BK = WK ∧ ((((58 : Nat) : Int) - ((60 : Nat) : Int)).natAbs = 2)) from
    fun h => absurd h.1 (by decide))]
  rw [if_pos (show BK = BK ∧ ((((58 : Nat) : Int) - ((60 : Nat) : Int)).natAbs = 2) from
    ⟨rfl, by decide⟩)]
  rw [if_neg (show ¬((58 : Nat) = 62) from by decide)]
  refine congrArg some ?_
  simp only [Board.mk.injEq]
  refine ⟨?_, trivial, trivial, trivial, trivial, trivial, trivial, trivial⟩
  refine PieceBBs.ext_of_get fun i => ?_
  by_cases hibk : i = BK
  · subst hibk
    simp only [get_updBB_same, get_updBB_ne _ _ (show BK ≠ BR from by decide),
      get_updBB_ne _ _ (show BR ≠ BK from by decide)]
    rw [clearBit_setBit_cancel (by rw [testBit_clearBit, hk58]; rfl),
      setBit_clearBit_cancel hk60]
  · by_cases hibr : i = BR
    · subst hibr
      simp only [get_updBB_same, get_updBB_ne _ _ (show BK ≠ BR from by decide),
        get_updBB_ne _ _ (show BR ≠ BK from by decide)]
      rw [clearBit_setBit_cancel (by rw [testBit_clearBit, hr59]; rfl),
        setBit_clearBit_cancel hr56]
    · simp only [get_updBB_same, get_updBB_ne _ _ hibk, get_updBB_ne _ _ hibr]

theorem find?_none_of_black_false {bbs : PieceBBs} {s : Nat}
    (h : ∀ q ∈ ownListB, getBit (bbs.get q) s = false) :
    List.find? (fun q => getBit (bbs.get q) s) [BP, BN, BB, BR, BQ, BK] = none := by
  rw [List.find?_eq_none]
  intro q hq
  rw [h q hq]
  exact Bool.false_ne_true

theorem find?_none_of_white_false {bbs : PieceBBs} {s : Nat}
    (h : ∀ q ∈ ownListW, getBit (bbs.get q) s = false) :
    List.find? (fun q => getBit (bbs.get q) s) [WP, WN, WB, WR, WQ, WK] = none := by
  rw [List.find?_eq_none]
  intro q hq
  rw [h q hq]
  exact Bool.false_ne_true

set_option maxHeartbeats 1000000 in
theorem make_unmake_roundtrip {b : Board} (hwf : wfBoard b) {m : Move}
    (hm : m ∈ generate_legal_moves b) :
    (make_move b m).bind (fun b1 => unmake_move b1 m) = some b := by
  have hpseudo : m ∈ pseudoMoves b := List.mem_of_mem_filter hm
  have hdisj := hwf.2.1
  rcases hside : b.side_to_move with _ | _
  · -- white to move
    obtain ⟨p, hmem, hbit, hne, hownto, hcastle⟩ := pseudoW_MFacts hwf hside hpseudo
    have hfind : List.find? (fun q => getBit (b.bbs.get q) m.from_sq)
        [WP, WN, WB, WR, WQ, WK] = some p :=
      find?_eq_some_of_unique hmem hbit
        (fun q _ hqp => bit_false_of_other hdisj hqp hbit)
    obtain ⟨h64, _, hwK, hwQ, hwk, hwq, hwep⟩ := hwf
    obtain ⟨bbs0, side0, cast0, ep0, hm0, fm0, hist0, zh0⟩ := b
    dsimp only at hside hfind hbit hne hownto hcastle hwK hwQ hwep
    subst hside
    fin_cases hmem
    · -- WP
      exact roundtrip_w_pawn hfind hbit hownto
        (fun hep => ((hwep m.to_sq hep).1 rfl).2.1)
    · -- WN
      exact roundtrip_w_piece hfind (by decide) (by decide) (by decide)
        (fun h => absurd h.1 (by decide)) hbit (hownto WN (by decide))
    · -- WB
      exact roundtrip_w_piece hfind (by decide) (by decide) (by decide)
        (fun h => absurd h.1 (by decide)) hbit (hownto WB (by decide))
    · -- WR
      exact roundtrip_w_piece hfind (by decide) (by decide) (by decide)
        (fun h => absurd h.1 (by decide)) hbit (hownto WR (by decide))
    · -- WQ
      exact roundtrip_w_piece hfind (by decide) (by decide) (by decide)
        (fun h => absurd h.1 (by decide)) hbit (hownto WQ (by decide))
    · -- WK
      by_cases habs : ((m.to_sq : Int) - m.from_sq).natAbs = 2
      · rcases hcastle rfl habs with ⟨hf4, hto6, hcK, hocc5, hocc6⟩
          | ⟨hf4, hto2, hcQ, hocc3, hocc2⟩
        · have hwhite6 := (occ_split_of_occAll hocc6).1
          have hblack6 := (occ_split_of_occAll hocc6).2
          refine roundtrip_w_castleK hfind hf4 hto6 hbit ?_ (hwK hcK) ?_ ?_
          · exact hto6 ▸ hownto WK (by decide)
          · exact own_false_of_occWhite (occ_split_of_occAll hocc5).1 WR (by decide)
          · rw [hto6]
            exact find?_none_of_black_false (own_false_of_occBlack hblack6)
        · have hblack2 := (occ_split_of_occAll hocc2).2
          refine roundtrip_w_castleQ hfind hf4 hto2 hbit ?_ (hwQ hcQ) ?_ ?_
          · exact hto2 ▸ hownto WK (by decide)
          · exact own_false_of_occWhite (occ_split_of_occAll hocc3).1 WR (by decide)
          · rw [hto2]
            exact find?_none_of_black_false (own_false_of_occBlack hblack2)
      · exact roundtrip_w_piece hfind (by decide) (by decide) (by decide)
          (fun h => habs h.2) hbit (hownto WK (by decide))
  · -- black to move
    obtain ⟨p, hmem, hbit, hne, hownto, hcastle⟩ := pseudoB_MFacts hwf hside hpseudo
    have hfind : List.find? (fun q => getBit (b.bbs.get q) m.from_sq)
        [BP, BN, BB, BR, BQ, BK] = some p :=
      find?_eq_some_of_unique hmem hbit
        (fun q _ hqp => bit_false_of_other hdisj hqp hbit)
    obtain ⟨h64, _, hwK, hwQ, hwk, hwq, hwep⟩ := hwf
    obtain ⟨bbs0, side0, cast0, ep0, hm0, fm0, hist0, zh0⟩ := b
    dsimp only at hside hfind hbit hne hownto hcastle hwk hwq hwep
    subst hside
    fin_cases hmem
    · -- BP
      exact roundtrip_b_pawn hfind hbit hownto
        (fun hep => ((hwep m.to_sq hep).2 rfl).2.1)
    · -- BN
      exact roundtrip_b_piece hfind (by decide) (by decide) (by decide)
        (fun h => absurd h.1 (by decide)) hbit (hownto BN (by decide))
    · -- BB
      exact roundtrip_b_piece hfind (by decide) (by decide) (by decide)
        (fun h => absurd h.1 (by decide)) hbit (hownto BB (by decide))
    · -- BR
      exact roundtrip_b_piece hfind (by decide) (by decide) (by decide)
        (fun h => absurd h.1 (by decide)) hbit (hownto BR (by decide))
    · -- BQ
      exact roundtrip_b_piece hfind (by decide) (by decide) (by decide)
        (fun h => absurd h.1 (by decide)) hbit (hownto BQ (by decide))
    · -- BK
      by_cases habs : ((m.to_sq : Int) - m.from_sq).natAbs = 2
      · rcases hcastle rfl habs with ⟨hf60, hto62, hck, hocc61, hocc62⟩
          | ⟨hf60, hto58, hcq, hocc59, hocc58⟩
        · have hwhite62 := (occ_split_of_occAll hocc62).1
          refine roundtrip_b_castlek hfind hf60 hto62 hbit ?_ (hwk hck) ?_ ?_
          · exact hto62 ▸ hownto BK (by decide)
          · exact own_false_of_occBlack (occ_split_of_occAll hocc61).2 BR (by decide)
          · rw [hto62]
            exact find?_none_of_white_false (own_false_of_occWhite hwhite62)
        · have hwhite58 := (occ_split_of_occAll hocc58).1
          refine roundtrip_b_castleq hfind hf60 hto58 hbit ?_ (hwq hcq) ?_ ?_
          · exact hto58 ▸ hownto BK (by decide)
          · exact own_false_of_occBlack (occ_split_of_occAll hocc59).2 BR (by decide)
          · rw [hto58]
            exact find?_none_of_white_false (own_false_of_occWhite hwhite58)
      · exact roundtrip_b_piece hfind (by decide) (by decide) (by decide)
          (fun h => habs h.2) hbit (hownto BK (by decide))

/-- C1 (corrected): on a well-formed position — 64-bit pairwise-disjoint
bitboards, a consistent en-passant target, and every castling right backed by
its rook on the origin square (the condition the counterexample forces) —
making any move of `generate_legal_moves` and then unmaking it restores the
position exactly, field for field: bitboards, side to move, castling rights,
en-passant square, clocks, history and incremental hash. -/
theorem C1_make_unmake_roundtrip (b : Board) (m : Move) (hwf : wfBoard b)
    (hm : m ∈ generate_legal_moves b) :
    ∃ b1, make_move b m = some b1 ∧ unmake_move b1 m = some b := by
  have h := make_unmake_roundtrip hwf hm
  rcases hmk : make_move b m with _ | b1
  · rw [hmk] at h
    simp at h
  · rw [hmk, Option.some_bind] at h
    exact ⟨b1, rfl, h⟩

theorem wf_startpos : wfBoard startposBoard := by
  refine ⟨by decide, by decide, by decide, by decide, by decide, by decide, ?_⟩
  exact fun e h => Option.noConfusion h

set_option maxRecDepth 100000 in
set_option maxHeartbeats 2000000 in
/-- Witness for C1: the round trip through the theorem itself on `e2e4` from
the starting position. -/
theorem C1_witness :
    ∃ b1, make_move startposBoard (Move.mk 12 28 none) = some b1
      ∧ unmake_move b1 (Move.mk 12 28 none) = some startposBoard :=
  C1_make_unmake_roundtrip startposBoard (Move.mk 12 28 none) wf_startpos (by decide)

end ChessEngine



